import Mathlib

/-! # deej-freertos: rotary-encoder decoding (`src/main.c`)

Shallow embedding of the knob polling task.

* `uint32_t` registers are natural numbers; every operation that can leave
  the 32-bit range is reduced modulo `2 ^ 32` explicitly.
* The knob table `knob *k_pointer` is a map from the index `i` to the record
  `k_pointer[i]`; the loops of the source run over `i < CONFIG_KNOB_NUMBER`.
* `gpio_get_level` is the environment: one map from pin number to level
  (low or high) for each call of `update_array`.
* `float counter` is a finite IEEE-754 binary32 number, held as the rational
  it denotes; `counter += CONFIG_KNOB_STEP` is the C compound assignment
  (promotion to `double`, addition, conversion back to `float`), both
  roundings being round-to-nearest, ties-to-even.
* `printf` output is a list of events, oldest first.
* `pvPortMalloc` is a parameter of `knob_malloc`; a call of `exit` is the error
  case of an `Except` result.
-/

namespace Deej

/-! ## Configuration macros -/

def CONFIG_KNOB_PIN_ORDER_SW : Nat := 0
def CONFIG_KNOB_PIN_ORDER_DT : Nat := 1
def CONFIG_KNOB_PIN_ORDER_CLK : Nat := 2

def CONFIG_KNOB_NUMBER : Nat := 2

/-- The `double` literal `2.5`. -/
def CONFIG_KNOB_STEP : ℚ := 5 / 2

/-- Value `0` of the macro in the source; `1` makes press and release both
trigger.  The decode functions take the macro as their first argument so
that both configurations can be stated. -/
def CONFIG_KNOB_DOUBLE_CLICK : Nat := 0

/-- The macro `INIT_VOLUME` (`0`), converted to `float`. -/
def INIT_VOLUME : ℚ := 0

/-- Number of values of a `uint32_t`. -/
def UINT32_SIZE : Nat := 2 ^ 32

/-- The table `pin_arr[CONFIG_KNOB_NUMBER][3]`, rows `{sw, dt, clk}`. -/
def pin_arr : Nat → Nat → Int
  | 0, 0 => 36
  | 0, 1 => 34
  | 0, 2 => 39
  | 1, 0 => 35
  | 1, 1 => 32
  | 1, 2 => 33
  | _, _ => 0

/-! ## Data model -/

/-- The record `knob`: three 32-bit history registers and three pins. -/
structure knob where
  sw : Nat
  dt : Nat
  clk : Nat
  pin_sw : Int
  pin_dt : Int
  pin_clk : Int
deriving DecidableEq, Repr

/-- The heap array behind `knob *`: index `i` holds `k_pointer[i]`. -/
abbrev KnobTable := Nat → knob

/-- Levels of the input lines during one call of `update_array`:
`gpio_get_level pin` is `0` (`false`) or `1` (`true`). -/
abbrev Gpio := Int → Bool

/-- Store `k` at index `i` of the table. -/
def set_knob (p : KnobTable) (i : Nat) (k : knob) : KnobTable :=
  fun x => if x = i then k else p x

/-! ## Bit primitives -/

/-- `a << n` on `uint32_t`. -/
def shl32 (a n : Nat) : Nat := (a <<< n) % UINT32_SIZE

/-- Conversion of a non-negative `int` to `uint32_t`. -/
def to_u32 (a : Nat) : Nat := a % UINT32_SIZE

/-- `is_high`: `a & 0x00000001` as a `bool`. -/
def is_high (a : Nat) : Bool := (a &&& 1) != 0

/-- `cmp_n_m`: `!(((a >> n) ^ (b >> m)) & 1)`. -/
def cmp_n_m (a b n m : Nat) : Bool := !((((a >>> n) ^^^ (b >>> m)) &&& 1) != 0)

/-- `read_n`: `(a >> n) & 1` as a `bool`. -/
def read_n (a n : Nat) : Bool := ((a >>> n) &&& 1) != 0

/-- `read_current`. -/
def read_current (m : Nat) : Bool := read_n m 0

/-- `has_changed`: `!cmp_n_m(j, j, 1, 0)`. -/
def has_changed (j : Nat) : Bool := !cmp_n_m j j 1 0

/-! ## Sampling -/

/-- The update of one register: `(r << 1) | gpio_get_level(pin)`. -/
def shift_in (r level : Nat) : Nat := shl32 r 1 ||| to_u32 level

/-- Body of the loop of `update_array` for index `i`: the three assignments
in source order (`dt`, `clk`, `sw`). -/
def update_knob (gpio : Gpio) (k : knob) : knob :=
  let k1 := { k with dt := shift_in k.dt (gpio k.pin_dt).toNat }
  let k2 := { k1 with clk := shift_in k1.clk (gpio k1.pin_clk).toNat }
  { k2 with sw := shift_in k2.sw (gpio k2.pin_sw).toNat }

/-- `update_array`: `for (i = 0; i < CONFIG_KNOB_NUMBER; i++)`. -/
def update_array (gpio : Gpio) (p : KnobTable) : KnobTable :=
  (List.range CONFIG_KNOB_NUMBER).foldl
    (fun q i => set_knob q i (update_knob gpio (q i))) p

/-- `knob_set_pins`. -/
def knob_set_pins (pin_array : Nat → Nat → Int) (k : KnobTable) : KnobTable :=
  (List.range CONFIG_KNOB_NUMBER).foldl
    (fun q i =>
      let k1 := { q i with pin_sw := pin_array i CONFIG_KNOB_PIN_ORDER_SW }
      let k2 := { k1 with pin_dt := pin_array i CONFIG_KNOB_PIN_ORDER_DT }
      set_knob q i { k2 with pin_clk := pin_array i CONFIG_KNOB_PIN_ORDER_CLK }) k

/-! ## The `float` accumulator -/

/-- Nearest integer, ties to the even one. -/
def round_half_even (x : ℚ) : ℤ :=
  let f := ⌊x⌋
  let r := x - f
  if r < 1 / 2 then f
  else if 1 / 2 < r then f + 1
  else if f % 2 = 0 then f else f + 1

/-- Exponent of the unit in the last place of `x` in a binary format with
`prec` significand bits whose least subnormal is `2 ^ emin`. -/
def ulp_exp (prec : Nat) (emin : ℤ) (x : ℚ) : ℤ :=
  max (Int.log 2 |x| - ((prec : ℤ) - 1)) emin

/-- Round-to-nearest, ties-to-even, into that format (finite results). -/
def fp_round (prec : Nat) (emin : ℤ) (x : ℚ) : ℚ :=
  (round_half_even (x / (2 : ℚ) ^ ulp_exp prec emin x) : ℚ) * (2 : ℚ) ^ ulp_exp prec emin x

/-- Conversion to `float` (binary32). -/
def to_float (x : ℚ) : ℚ := fp_round 24 (-149) x

/-- Rounding of a `double` (binary64) result. -/
def to_double (x : ℚ) : ℚ := fp_round 53 (-1074) x

/-- `counter += CONFIG_KNOB_STEP`. -/
def counter_add_step (counter : ℚ) : ℚ := to_float (to_double (counter + CONFIG_KNOB_STEP))

/-- `counter -= CONFIG_KNOB_STEP`. -/
def counter_sub_step (counter : ℚ) : ℚ := to_float (to_double (counter - CONFIG_KNOB_STEP))

/-! ## Decoding -/

/-- One group of `printf` output of the loop.  The `highwater` line printed
after each volume line reports the stack mark of the task and is left out. -/
inductive Event where
  /-- `"Button pressed\n"`. -/
  | button_pressed : Event
  /-- `"volume ↑ (knob %d): %f\t"` with `j` and the new `counter`. -/
  | volume_up (j : Nat) (counter : ℚ) : Event
  /-- `"volume ↓ (knob %d): %f\t"` with `j` and the new `counter`. -/
  | volume_down (j : Nat) (counter : ℚ) : Event
deriving DecidableEq, Repr

/-- The local `counter` of `knob_task` and what has been printed so far. -/
structure TaskState where
  counter : ℚ
  out : List Event
deriving DecidableEq, Repr

/-- The condition of the first `if` of the loop body:
`has_changed(sw) && (read_n(sw, 0) | CONFIG_KNOB_DOUBLE_CLICK)`. -/
def button_cond (double_click : Nat) (k : knob) : Bool :=
  has_changed k.sw && (((if read_n k.sw 0 then 1 else 0) ||| double_click) != 0)

/-- The first `if` of the loop body. -/
def decode_button (double_click : Nat) (k : knob) (s : TaskState) : TaskState :=
  if button_cond double_click k then { s with out := s.out ++ [Event.button_pressed] } else s

/-- The `if (!cmp_n_m(dt, clk, 1, 0))` block. -/
def decode_increase (j : Nat) (k : knob) (s : TaskState) : TaskState :=
  if !cmp_n_m k.dt k.clk 1 0 then
    { counter := counter_add_step s.counter,
      out := s.out ++ [Event.volume_up j (counter_add_step s.counter)] }
  else s

/-- The `if (cmp_n_m(dt, clk, 1, 0))` block that follows it. -/
def decode_decrease (j : Nat) (k : knob) (s : TaskState) : TaskState :=
  if cmp_n_m k.dt k.clk 1 0 then
    { counter := counter_sub_step s.counter,
      out := s.out ++ [Event.volume_down j (counter_sub_step s.counter)] }
  else s

/-- The `if (has_changed(clk))` block: the two direction blocks in sequence. -/
def decode_rotation (j : Nat) (k : knob) (s : TaskState) : TaskState :=
  if has_changed k.clk then decode_decrease j k (decode_increase j k s) else s

/-- Body of the inner `for` loop for index `j`. -/
def decode_knob (double_click j : Nat) (k : knob) (s : TaskState) : TaskState :=
  decode_rotation j k (decode_button double_click k s)

/-- The inner loop `for (j = 0; j < CONFIG_KNOB_NUMBER; j++)`. -/
def decode_loop (double_click : Nat) (p : KnobTable) (s : TaskState) : TaskState :=
  (List.range CONFIG_KNOB_NUMBER).foldl (fun t j => decode_knob double_click j (p j) t) s

/-- One iteration of `while (1)`: `update_array`, then the inner loop
(`vTaskDelay` only waits). -/
def tick (double_click : Nat) (st : KnobTable × TaskState) (gpio : Gpio) :
    KnobTable × TaskState :=
  (update_array gpio st.1, decode_loop double_click (update_array gpio st.1) st.2)

/-- The first iterations of `while (1)`, one per element of `gpios`. -/
def run (double_click : Nat) (st : KnobTable × TaskState) (gpios : List Gpio) :
    KnobTable × TaskState :=
  gpios.foldl (tick double_click) st

/-- `knob_task` up to the end of the `gpios.length`-th iteration of its loop:
`mem` is the content of the fresh allocation, `gpio0` the levels at the
priming `update_array`. -/
def knob_task (double_click : Nat) (mem : KnobTable) (gpio0 : Gpio) (gpios : List Gpio) :
    KnobTable × TaskState :=
  run double_click
    (update_array gpio0 (knob_set_pins pin_arr mem), { counter := INIT_VOLUME, out := [] }) gpios

/-! ## Reading the output -/

/-- Number of `"Button pressed"` lines in the output. -/
def count_button : List Event → Nat
  | [] => 0
  | Event.button_pressed :: es => count_button es + 1
  | _ :: es => count_button es

/-- Number of `"volume ↑"` lines in the output. -/
def count_up : List Event → Nat
  | [] => 0
  | Event.volume_up _ _ :: es => count_up es + 1
  | _ :: es => count_up es

/-- Number of `"volume ↓"` lines in the output. -/
def count_down : List Event → Nat
  | [] => 0
  | Event.volume_down _ _ :: es => count_down es + 1
  | _ :: es => count_down es

/-- The value of `counter` obtained from `c` by performing, in the order of
the output, one `counter += CONFIG_KNOB_STEP` for each `"volume ↑"` line and
one `counter -= CONFIG_KNOB_STEP` for each `"volume ↓"` line. -/
def replay : List Event → ℚ → ℚ
  | [], c => c
  | Event.button_pressed :: es, c => replay es c
  | Event.volume_up _ _ :: es, c => replay es (counter_add_step c)
  | Event.volume_down _ _ :: es, c => replay es (counter_sub_step c)

/-- Directions of the rotation lines printed for knob `j`, in order:
`true` for `"volume ↑"`, `false` for `"volume ↓"`. -/
def directions (j : Nat) : List Event → List Bool
  | [] => []
  | Event.button_pressed :: es => directions j es
  | Event.volume_up i _ :: es => if i = j then true :: directions j es else directions j es
  | Event.volume_down i _ :: es => if i = j then false :: directions j es else directions j es

/-- An output line without the printed value of `counter`. -/
def forget_counter : Event → Event
  | Event.button_pressed => Event.button_pressed
  | Event.volume_up j _ => Event.volume_up j 0
  | Event.volume_down j _ => Event.volume_down j 0

/-- The lines printed by the body of the inner loop for knob `j` when it is
run on the record `k` in state `s`. -/
def body_events (double_click j : Nat) (k : knob) (s : TaskState) : List Event :=
  (decode_knob double_click j k s).out.drop s.out.length

/-- The table holds the pins of `pin_arr` and the last sample taken on every
line is the level in `gpio`. -/
def Synced (p : KnobTable) (gpio : Gpio) : Prop :=
  ∀ i, i < CONFIG_KNOB_NUMBER →
    ((p i).pin_sw = pin_arr i 0 ∧ (p i).pin_dt = pin_arr i 1 ∧ (p i).pin_clk = pin_arr i 2) ∧
    ((p i).sw.testBit 0 = gpio (pin_arr i 0) ∧ (p i).dt.testBit 0 = gpio (pin_arr i 1) ∧
      (p i).clk.testBit 0 = gpio (pin_arr i 2))

/-- The new value of `counter` after the body for knob `i`, from the levels
before (`gp`) and after (`g`) the sampling. -/
def next_counter (gp g : Gpio) (i : Nat) (c : ℚ) : ℚ :=
  if (gp (pin_arr i 2) != g (pin_arr i 2)) = true then
    (if (gp (pin_arr i 1) == g (pin_arr i 2)) = true then counter_sub_step c
      else counter_add_step c)
  else c

/-- The lines printed by the body for knob `i`, from the levels before (`gp`)
and after (`g`) the sampling and the value `c` of `counter`. -/
def line_events (double_click : Nat) (gp g : Gpio) (i : Nat) (c : ℚ) : List Event :=
  (if ((gp (pin_arr i 0) != g (pin_arr i 0))
      && (g (pin_arr i 0) || decide (double_click ≠ 0))) = true
    then [Event.button_pressed] else []) ++
  (if (gp (pin_arr i 2) != g (pin_arr i 2)) = true then
    [if (gp (pin_arr i 1) == g (pin_arr i 2)) = true
      then Event.volume_down i (counter_sub_step c)
      else Event.volume_up i (counter_add_step c)]
  else [])

/-- The levels at the last two samplings of a run: `gp` are the levels of the
sampling before the iterations `gs`. -/
def last_two (gp : Gpio) : List Gpio → Gpio × Gpio
  | [] => (gp, gp)
  | [g] => (gp, g)
  | g :: g' :: gs => last_two g (g' :: gs)

/-- The two samplings give knob `j` the same levels on its three lines. -/
def same_samples (j : Nat) (g g' : Gpio) : Prop :=
  ∀ c, c < 3 → g (pin_arr j c) = g' (pin_arr j c)

/-! ## A steady rotation of knob 0 -/

/-- Levels with the data line (pin 34) and the clock line (pin 39) of knob 0
at `dt` and `clk`, every other line low. -/
def knob0_levels (dt clk : Bool) : Gpio :=
  fun pin => if pin = 34 then dt else if pin = 39 then clk else false

/-- One period of the quadrature signal of knob 0 turning one way, starting
after a sampling with both lines high: clock 0, 0, 1, 1 and data 1, 0, 0, 1. -/
def quadrature_cycle : List Gpio :=
  [knob0_levels true false, knob0_levels false false, knob0_levels false true,
    knob0_levels true true]

/-- The signal of knob 0 over `n` periods. -/
def quadrature_cycles : Nat → List Gpio
  | 0 => []
  | n + 1 => quadrature_cycle ++ quadrature_cycles n

/-! ## Allocation of the table -/

/-- The way `exit` ends the process: the status passed to it and what `printf`
wrote before. -/
structure Exit where
  status : Int
  printed : String
deriving DecidableEq, Repr

/-- `sizeof(knob)` on the target: three `uint32_t` and three `int`, 4 bytes
each. -/
def SIZEOF_KNOB : Nat := 24

/-- `n * sizeof(knob)` for `n > 0`: the `int` is converted to the 32-bit
`size_t` and the product is taken modulo `2 ^ 32`. -/
def alloc_size (n : Int) : Nat := (n.toNat * SIZEOF_KNOB) % UINT32_SIZE

/-- `knob_malloc`.  `pvPortMalloc` is the allocator of the system: the content
of the block it hands out for a size in bytes, or `none` for a null pointer.
The result is either the pointer returned (`Except.ok`), or the call of
`exit`, after which nothing is returned (`Except.error`). -/
def knob_malloc (pvPortMalloc : Nat → Option KnobTable) (n : Int) :
    Except Exit (Option KnobTable) :=
  if n > 0 then Except.ok (pvPortMalloc (alloc_size n))
  else Except.error
    { status := -1, printed := "number of knobs must be a strictly positive integer" }

/-- How far `knob_task` gets. -/
inductive TaskRun where
  /-- `exit` was called in `knob_malloc`. -/
  | exited (e : Exit) : TaskRun
  /-- `knob_malloc` returned a null pointer and `knob_set_pins(pin_arr, NULL)`
  was called with it; its first assignment stores through the null pointer. -/
  | set_pins_on_null : TaskRun
  /-- The table was set up and the loop ran for the given iterations. -/
  | looped (st : KnobTable × TaskState) : TaskRun

/-- `knob_task` from its first statement, with the allocator of the system and
the number `knob_number` passed to `knob_malloc` (the macro
`CONFIG_KNOB_NUMBER` in the source). -/
def knob_task_entry (double_click : Nat) (pvPortMalloc : Nat → Option KnobTable)
    (knob_number : Int) (gpio0 : Gpio) (gpios : List Gpio) : TaskRun :=
  match knob_malloc pvPortMalloc knob_number with
  | Except.error e => TaskRun.exited e
  | Except.ok none => TaskRun.set_pins_on_null
  | Except.ok (some mem) => TaskRun.looped (knob_task double_click mem gpio0 gpios)

/-! ## The direction rule restated -/

/-- The direction rule on the state before the edge (second definition, in
the words of the restated rule): on a change of the clock, increase when the
previous data sample (bit 1 of `dt`) equals the previous clock sample (bit 1
of `clk`), decrease when they differ. -/
def decode_rotation_previous (j : Nat) (k : knob) (s : TaskState) : TaskState :=
  if has_changed k.clk then
    (if read_n k.dt 1 == read_n k.clk 1 then
      { counter := counter_add_step s.counter,
        out := s.out ++ [Event.volume_up j (counter_add_step s.counter)] }
    else
      { counter := counter_sub_step s.counter,
        out := s.out ++ [Event.volume_down j (counter_sub_step s.counter)] })
  else s

/-! ## The pin mask -/

/-- Number of values of a `uint64_t`. -/
def UINT64_SIZE : Nat := 2 ^ 64

/-- Conversion of an `int` to `uint64_t`. -/
def int_to_u64 (x : Int) : Nat := (x % (UINT64_SIZE : Int)).toNat

/-- Conversion of a `uint64_t` to the 32-bit `int` (the value modulo `2 ^ 32`,
read as two's complement). -/
def u64_to_int (x : Nat) : Int :=
  if x % UINT32_SIZE < 2 ^ 31 then ((x % UINT32_SIZE : Nat) : Int)
  else ((x % UINT32_SIZE : Nat) : Int) - (UINT32_SIZE : Int)

/-- `get_ones`: `b % 2 + get_ones(b / 2)`, the sum being taken in `uint64_t`
and returned as `int`. -/
def get_ones (b : Nat) : Int :=
  if h : b = 0 then 0
  else u64_to_int ((b % 2 + int_to_u64 (get_ones (b / 2))) % UINT64_SIZE)
termination_by b
decreasing_by exact Nat.div_lt_self (Nat.pos_of_ne_zero h) (by decide)

/-- Number of 1 bits among the 64 bits of `b` (second definition, in the words
of the claim). -/
def popcount64 (b : Nat) : Nat := (List.range 64).countP (fun i => b.testBit i)

/-- `1ULL << n` for a shift count `n` in `0..63`. -/
def one_shl64 (n : Int) : Nat := (1 <<< n.toNat) % UINT64_SIZE

/-- `knob_get_mask`. -/
def knob_get_mask (pin_arr : Nat → Nat → Int) : Nat :=
  (List.range CONFIG_KNOB_NUMBER).foldl
    (fun pin_mask i =>
      let m1 := pin_mask ||| one_shl64 (pin_arr i 0)
      let m2 := m1 ||| one_shl64 (pin_arr i 1)
      m2 ||| one_shl64 (pin_arr i 2)) 0

/-! ## The values of the accumulator -/

/-- Number of consecutive increases after which `counter`, started at 0,
reaches `2 ^ 26` and sticks there. -/
def COUNTER_TOP : Nat := 24326963

/-- The value of `counter` after `n ≤ COUNTER_TOP` increases from 0: steps of
2.5 up to `8388610`, then steps of 2 up to `2 ^ 25`, then steps of 4 up to
`2 ^ 26`. -/
def chain_value (n : Nat) : ℚ :=
  if n ≤ 3355444 then (n : ℚ) * (5 / 2)
  else if n ≤ 15938355 then ((8388610 + 2 * ((n : ℤ) - 3355444) : ℤ) : ℚ)
  else ((33554432 + 4 * ((n : ℤ) - 15938355) : ℤ) : ℚ)

/-- The value of `counter` after a net number `n` of increases from 0
(decreases count as negative), for `|n| ≤ COUNTER_TOP`. -/
def counter_at (n : ℤ) : ℚ :=
  if 0 ≤ n then chain_value n.toNat else -chain_value (-n).toNat

/-- The value of `counter` obtained from `c` by one `counter += CONFIG_KNOB_STEP`
for each `true` and one `counter -= CONFIG_KNOB_STEP` for each `false`, in
order. -/
def replay_directions : List Bool → ℚ → ℚ
  | [], c => c
  | true :: ds, c => replay_directions ds (counter_add_step c)
  | false :: ds, c => replay_directions ds (counter_sub_step c)

/-! ## Walks of the two lines of a knob -/

/-- What the rotation block decides for knob `j` when the levels go from `gp`
to `g`: nothing without a change of the clock, else the direction (`true` for
increase: the previous data level differs from the new clock level). -/
def edge (j : Nat) (gp g : Gpio) : List Bool :=
  if (gp (pin_arr j 2) != g (pin_arr j 2)) = true
    then [gp (pin_arr j 1) != g (pin_arr j 2)] else []

/-- The directions decided for knob `j` along the samplings `gs` that follow a
sampling with levels `gp`. -/
def walk_edges (j : Nat) (gp : Gpio) : List Gpio → List Bool
  | [] => []
  | g :: gs => edge j gp g ++ walk_edges j g gs

/-- At most one of the clock and data lines of knob `j` changes from `gp` to
`g`. -/
def gray (j : Nat) (gp g : Gpio) : Prop :=
  ¬ (gp (pin_arr j 2) ≠ g (pin_arr j 2) ∧ gp (pin_arr j 1) ≠ g (pin_arr j 1))

/-- At most one of the two lines of knob `j` changes between consecutive
samplings of `gp :: gs`. -/
def gray_walk (j : Nat) (gp : Gpio) : List Gpio → Prop
  | [] => True
  | g :: gs => gray j gp g ∧ gray_walk j g gs

/-- The clock line of knob `i` keeps the level it has in `gp` throughout
`gs`. -/
def clock_idle (i : Nat) (gp : Gpio) (gs : List Gpio) : Prop :=
  ∀ g ∈ gs, g (pin_arr i 2) = gp (pin_arr i 2)

/-! ## Bit-level facts -/

theorem and_one_ne_zero (x : Nat) : ((x &&& 1) != 0) = x.testBit 0 := by
  rw [Nat.testBit_zero, Nat.and_one_is_mod]
  rcases Nat.mod_two_eq_zero_or_one x with h | h <;> simp [h]

theorem read_n_eq_testBit (a n : Nat) : read_n a n = a.testBit n := by
  unfold read_n
  rw [and_one_ne_zero, Nat.testBit_shiftRight, Nat.add_zero]

theorem cmp_n_m_eq (a b n m : Nat) : cmp_n_m a b n m = (a.testBit n == b.testBit m) := by
  unfold cmp_n_m
  rw [and_one_ne_zero, Nat.testBit_xor, Nat.testBit_shiftRight, Nat.testBit_shiftRight,
    Nat.add_zero, Nat.add_zero]
  cases a.testBit n <;> cases b.testBit m <;> rfl

theorem has_changed_eq (j : Nat) : has_changed j = (j.testBit 1 != j.testBit 0) := by
  unfold has_changed
  rw [cmp_n_m_eq]
  cases j.testBit 1 <;> cases j.testBit 0 <;> rfl

theorem shift_in_eq (r level : Nat) : shift_in r level = ((r <<< 1) ||| level) % 2 ^ 32 := by
  unfold shift_in shl32 to_u32 UINT32_SIZE
  apply Nat.eq_of_testBit_eq
  intro i
  simp only [Nat.testBit_lor, Nat.testBit_mod_two_pow, Bool.and_or_distrib_left]

theorem shift_in_lt (r level : Nat) : shift_in r level < 2 ^ 32 := by
  rw [shift_in_eq]
  exact Nat.mod_lt _ (by norm_num)

theorem testBit_le_one (level : Nat) (h : level ≤ 1) (i : Nat) :
    level.testBit i = (decide (i = 0) && decide (level = 1)) := by
  interval_cases level
  · simp
  · cases i with
    | zero => simp
    | succ i => simp [Nat.testBit_succ]

theorem shift_in_testBit_zero (r level : Nat) (h : level ≤ 1) :
    (shift_in r level).testBit 0 = decide (level = 1) := by
  rw [shift_in_eq, Nat.testBit_mod_two_pow, Nat.testBit_lor, Nat.testBit_shiftLeft,
    testBit_le_one level h]
  simp

theorem shift_in_testBit_succ (r level : Nat) (h : level ≤ 1) (k : Nat) :
    (shift_in r level).testBit (k + 1) = (decide (k < 31) && r.testBit k) := by
  rw [shift_in_eq, Nat.testBit_mod_two_pow, Nat.testBit_lor, Nat.testBit_shiftLeft,
    testBit_le_one level h]
  simp only [decide_eq_true_eq, Nat.succ_ne_zero, Nat.add_sub_cancel, ge_iff_le,
    Nat.le_add_left, decide_True, decide_False, Bool.true_and, Bool.false_and, Bool.or_false]
  have hk : (k + 1 < 32) ↔ (k < 31) := by omega
  simp only [hk]

theorem shift_in_mod_two_pow_31 (r level : Nat) :
    shift_in r level = shift_in (r % 2 ^ 31) level := by
  rw [shift_in_eq, shift_in_eq]
  apply Nat.eq_of_testBit_eq
  intro i
  simp only [Nat.testBit_mod_two_pow, Nat.testBit_lor, Nat.testBit_shiftLeft]
  by_cases hi : i < 32
  · by_cases h1 : 1 ≤ i
    · have : i - 1 < 31 := by omega
      simp [hi, h1, this]
    · simp [hi, h1]
  · simp [hi]

/-- Reading bit `k` after shifting in the samples `s` one by one. -/
theorem foldl_shift_in_testBit (s : List Nat) (hs : ∀ x ∈ s, x ≤ 1) (r0 k : Nat)
    (hk : k < s.length) (hk32 : k < 32) :
    (s.foldl shift_in r0).testBit k = decide (s.getD (s.length - 1 - k) 0 = 1) := by
  induction s using List.reverseRecOn generalizing k with
  | nil => simp at hk
  | append_singleton s x ih =>
    have hx : x ≤ 1 := hs x (by simp)
    have hs' : ∀ y ∈ s, y ≤ 1 := fun y hy => hs y (by simp [hy])
    rw [List.foldl_append, List.foldl_cons, List.foldl_nil]
    cases k with
    | zero =>
      rw [shift_in_testBit_zero _ _ hx]
      simp [List.getD_eq_getElem?_getD]
    | succ k =>
      have hk' : k < s.length := by simpa using hk
      rw [shift_in_testBit_succ _ _ hx, ih hs' k hk' (by omega)]
      have h31 : k < 31 := by omega
      have hidx : (s ++ [x]).length - 1 - (k + 1) = s.length - 1 - k := by simp; omega
      have hlt : s.length - 1 - k < s.length := by omega
      rw [hidx, List.getD_eq_getElem?_getD, List.getD_eq_getElem?_getD,
        List.getElem?_append_left hlt]
      simp [h31]

/-! ## The loops over the table -/

theorem set_knob_apply (p : KnobTable) (i : Nat) (k : knob) (x : Nat) :
    set_knob p i k x = if x = i then k else p x := rfl

theorem foldl_range_set_knob (f : Nat → knob → knob) (n : Nat) (p : KnobTable) (i : Nat) :
    (List.range n).foldl (fun q j => set_knob q j (f j (q j))) p i
      = if i < n then f i (p i) else p i := by
  induction n generalizing i with
  | zero => simp
  | succ n ih =>
    rw [List.range_succ, List.foldl_append, List.foldl_cons, List.foldl_nil, set_knob_apply]
    by_cases hi : i = n
    · subst hi
      rw [if_pos rfl, ih i, if_neg (lt_irrefl i), if_pos (Nat.lt_succ_self i)]
    · have h1 : (i < n + 1) ↔ (i < n) := by omega
      rw [if_neg hi, ih i]
      simp only [h1]

theorem update_array_apply (gpio : Gpio) (p : KnobTable) (i : Nat) :
    update_array gpio p i = if i < CONFIG_KNOB_NUMBER then update_knob gpio (p i) else p i := by
  unfold update_array
  exact foldl_range_set_knob (fun _ k => update_knob gpio k) CONFIG_KNOB_NUMBER p i

theorem knob_set_pins_apply (pin_array : Nat → Nat → Int) (p : KnobTable) (i : Nat) :
    knob_set_pins pin_array p i
      = if i < CONFIG_KNOB_NUMBER then
          { p i with pin_sw := pin_array i CONFIG_KNOB_PIN_ORDER_SW,
                     pin_dt := pin_array i CONFIG_KNOB_PIN_ORDER_DT,
                     pin_clk := pin_array i CONFIG_KNOB_PIN_ORDER_CLK }
        else p i := by
  unfold knob_set_pins
  exact foldl_range_set_knob
    (fun i k => { k with pin_sw := pin_array i CONFIG_KNOB_PIN_ORDER_SW,
                         pin_dt := pin_array i CONFIG_KNOB_PIN_ORDER_DT,
                         pin_clk := pin_array i CONFIG_KNOB_PIN_ORDER_CLK })
    CONFIG_KNOB_NUMBER p i

theorem decode_loop_eq (dc : Nat) (p : KnobTable) (s : TaskState) :
    decode_loop dc p s = decode_knob dc 1 (p 1) (decode_knob dc 0 (p 0) s) := rfl

theorem run_nil (dc : Nat) (st : KnobTable × TaskState) : run dc st [] = st := rfl

theorem run_cons (dc : Nat) (st : KnobTable × TaskState) (g : Gpio) (gs : List Gpio) :
    run dc st (g :: gs) = run dc (tick dc st g) gs := rfl

theorem run_append (dc : Nat) (st : KnobTable × TaskState) (gs hs : List Gpio) :
    run dc st (gs ++ hs) = run dc (run dc st gs) hs := by
  unfold run
  rw [List.foldl_append]

/-! ## Registers after sampling -/

theorem bool_toNat_le_one (b : Bool) : b.toNat ≤ 1 := by cases b <;> decide

theorem bool_toNat_eq_one (b : Bool) : decide (b.toNat = 1) = b := by cases b <;> rfl

theorem shift_in_bool_testBit_zero (r : Nat) (b : Bool) :
    (shift_in r b.toNat).testBit 0 = b := by
  rw [shift_in_testBit_zero _ _ (bool_toNat_le_one b), bool_toNat_eq_one]

theorem shift_in_bool_testBit_one (r : Nat) (b : Bool) :
    (shift_in r b.toNat).testBit 1 = r.testBit 0 := by
  rw [shift_in_testBit_succ _ _ (bool_toNat_le_one b) 0]
  simp

theorem update_knob_sw (gpio : Gpio) (k : knob) :
    (update_knob gpio k).sw = shift_in k.sw (gpio k.pin_sw).toNat := rfl

theorem update_knob_dt (gpio : Gpio) (k : knob) :
    (update_knob gpio k).dt = shift_in k.dt (gpio k.pin_dt).toNat := rfl

theorem update_knob_clk (gpio : Gpio) (k : knob) :
    (update_knob gpio k).clk = shift_in k.clk (gpio k.pin_clk).toNat := rfl

theorem update_knob_pin_sw (gpio : Gpio) (k : knob) :
    (update_knob gpio k).pin_sw = k.pin_sw := rfl

theorem update_knob_pin_dt (gpio : Gpio) (k : knob) :
    (update_knob gpio k).pin_dt = k.pin_dt := rfl

theorem update_knob_pin_clk (gpio : Gpio) (k : knob) :
    (update_knob gpio k).pin_clk = k.pin_clk := rfl

/-! ## The loop body -/

theorem button_cond_eq (dc : Nat) (k : knob) :
    button_cond dc k
      = ((k.sw.testBit 1 != k.sw.testBit 0) && (k.sw.testBit 0 || decide (dc ≠ 0))) := by
  unfold button_cond
  rw [has_changed_eq, read_n_eq_testBit]
  congr 1
  cases k.sw.testBit 0
  · by_cases h : dc = 0 <;> simp [h]
  · have h : 1 ||| dc ≠ 0 := by
      intro h0
      have := Nat.testBit_lor 1 dc 0
      rw [h0] at this
      simp at this
    simp [h]

theorem decode_button_counter (dc : Nat) (k : knob) (s : TaskState) :
    (decode_button dc k s).counter = s.counter := by
  unfold decode_button
  split <;> rfl

theorem decode_button_out (dc : Nat) (k : knob) (s : TaskState) :
    (decode_button dc k s).out
      = s.out ++ (if button_cond dc k then [Event.button_pressed] else []) := by
  unfold decode_button
  split <;> simp

theorem decode_rotation_unchanged (j : Nat) (k : knob) (s : TaskState)
    (h : has_changed k.clk = false) : decode_rotation j k s = s := by
  unfold decode_rotation
  simp [h]

theorem decode_rotation_increase (j : Nat) (k : knob) (s : TaskState)
    (h : has_changed k.clk = true) (hd : cmp_n_m k.dt k.clk 1 0 = false) :
    decode_rotation j k s
      = { counter := counter_add_step s.counter,
          out := s.out ++ [Event.volume_up j (counter_add_step s.counter)] } := by
  unfold decode_rotation decode_decrease decode_increase
  simp [h, hd]

theorem decode_rotation_decrease (j : Nat) (k : knob) (s : TaskState)
    (h : has_changed k.clk = true) (hd : cmp_n_m k.dt k.clk 1 0 = true) :
    decode_rotation j k s
      = { counter := counter_sub_step s.counter,
          out := s.out ++ [Event.volume_down j (counter_sub_step s.counter)] } := by
  unfold decode_rotation decode_decrease decode_increase
  simp [h, hd]

theorem count_button_append (xs ys : List Event) :
    count_button (xs ++ ys) = count_button xs + count_button ys := by
  induction xs with
  | nil => simp [count_button]
  | cons x xs ih => cases x <;> simp [count_button, ih, Nat.add_right_comm]

theorem count_up_append (xs ys : List Event) :
    count_up (xs ++ ys) = count_up xs + count_up ys := by
  induction xs with
  | nil => simp [count_up]
  | cons x xs ih => cases x <;> simp [count_up, ih, Nat.add_right_comm]

theorem count_down_append (xs ys : List Event) :
    count_down (xs ++ ys) = count_down xs + count_down ys := by
  induction xs with
  | nil => simp [count_down]
  | cons x xs ih => cases x <;> simp [count_down, ih, Nat.add_right_comm]

/-! ## One tick -/

theorem update_array_pins (gpio : Gpio) (p : KnobTable) (i : Nat) :
    (update_array gpio p i).pin_sw = (p i).pin_sw ∧
    (update_array gpio p i).pin_dt = (p i).pin_dt ∧
    (update_array gpio p i).pin_clk = (p i).pin_clk := by
  rw [update_array_apply]
  split
  · exact ⟨rfl, rfl, rfl⟩
  · exact ⟨rfl, rfl, rfl⟩

theorem button_cond_update (dc : Nat) (gpio : Gpio) (k : knob) :
    button_cond dc (update_knob gpio k)
      = ((k.sw.testBit 0 != gpio k.pin_sw) && (gpio k.pin_sw || decide (dc ≠ 0))) := by
  rw [button_cond_eq, update_knob_sw, shift_in_bool_testBit_one, shift_in_bool_testBit_zero]

theorem has_changed_clk_update (gpio : Gpio) (k : knob) :
    has_changed (update_knob gpio k).clk = (k.clk.testBit 0 != gpio k.pin_clk) := by
  rw [has_changed_eq, update_knob_clk, shift_in_bool_testBit_one, shift_in_bool_testBit_zero]

theorem cmp_dt_clk_update (gpio : Gpio) (k : knob) :
    cmp_n_m (update_knob gpio k).dt (update_knob gpio k).clk 1 0
      = (k.dt.testBit 0 == gpio k.pin_clk) := by
  rw [cmp_n_m_eq, update_knob_dt, update_knob_clk, shift_in_bool_testBit_one,
    shift_in_bool_testBit_zero]

theorem update_knob_testBit_zero (gpio : Gpio) (k : knob) :
    (update_knob gpio k).sw.testBit 0 = gpio k.pin_sw ∧
    (update_knob gpio k).dt.testBit 0 = gpio k.pin_dt ∧
    (update_knob gpio k).clk.testBit 0 = gpio k.pin_clk :=
  ⟨shift_in_bool_testBit_zero _ _, shift_in_bool_testBit_zero _ _,
    shift_in_bool_testBit_zero _ _⟩

theorem tick_fst (dc : Nat) (st : KnobTable × TaskState) (gpio : Gpio) :
    (tick dc st gpio).1 = update_array gpio st.1 := rfl

theorem tick_snd (dc : Nat) (st : KnobTable × TaskState) (gpio : Gpio) :
    (tick dc st gpio).2
      = decode_knob dc 1 (update_knob gpio (st.1 1))
          (decode_knob dc 0 (update_knob gpio (st.1 0)) st.2) := by
  unfold tick
  rw [decode_loop_eq, update_array_apply, update_array_apply,
    if_pos (by decide : 0 < CONFIG_KNOB_NUMBER), if_pos (by decide : 1 < CONFIG_KNOB_NUMBER)]

theorem count_button_decode_knob (dc j : Nat) (k : knob) (s : TaskState) :
    count_button (decode_knob dc j k s).out
      = count_button s.out + (if button_cond dc k then 1 else 0) := by
  have hrot : count_button (decode_knob dc j k s).out
      = count_button (decode_button dc k s).out := by
    unfold decode_knob decode_rotation decode_decrease decode_increase
    split
    · split <;> split <;> simp [count_button_append, count_button]
    · rfl
  rw [hrot, decode_button_out, count_button_append]
  split <;> simp [count_button]

theorem knob_task_nil (dc : Nat) (mem : KnobTable) (g0 : Gpio) :
    knob_task dc mem g0 []
      = (update_array g0 (knob_set_pins pin_arr mem), { counter := INIT_VOLUME, out := [] }) :=
  rfl

theorem knob_task_append (dc : Nat) (mem : KnobTable) (g0 : Gpio) (gs hs : List Gpio) :
    knob_task dc mem g0 (gs ++ hs) = run dc (knob_task dc mem g0 gs) hs := by
  unfold knob_task
  rw [run_append]

theorem primed_pins (mem : KnobTable) (g0 : Gpio) (i : Nat) (hi : i < CONFIG_KNOB_NUMBER) :
    (update_array g0 (knob_set_pins pin_arr mem) i).pin_sw = pin_arr i 0 ∧
    (update_array g0 (knob_set_pins pin_arr mem) i).pin_dt = pin_arr i 1 ∧
    (update_array g0 (knob_set_pins pin_arr mem) i).pin_clk = pin_arr i 2 := by
  have h := update_array_pins g0 (knob_set_pins pin_arr mem) i
  rw [h.1, h.2.1, h.2.2, knob_set_pins_apply, if_pos hi]
  exact ⟨rfl, rfl, rfl⟩

theorem primed_testBit_zero (mem : KnobTable) (g0 : Gpio) (i : Nat)
    (hi : i < CONFIG_KNOB_NUMBER) :
    (update_array g0 (knob_set_pins pin_arr mem) i).sw.testBit 0 = g0 (pin_arr i 0) ∧
    (update_array g0 (knob_set_pins pin_arr mem) i).dt.testBit 0 = g0 (pin_arr i 1) ∧
    (update_array g0 (knob_set_pins pin_arr mem) i).clk.testBit 0 = g0 (pin_arr i 2) := by
  rw [update_array_apply, if_pos hi, knob_set_pins_apply, if_pos hi]
  exact update_knob_testBit_zero g0 _

/-! ## Output of the loop body -/

theorem decode_rotation_counter (j : Nat) (k : knob) (s : TaskState) :
    (decode_rotation j k s).counter
      = if has_changed k.clk then
          (if cmp_n_m k.dt k.clk 1 0 then counter_sub_step s.counter
            else counter_add_step s.counter)
        else s.counter := by
  cases h : has_changed k.clk
  · rw [decode_rotation_unchanged _ _ _ h]
    simp
  · cases hd : cmp_n_m k.dt k.clk 1 0
    · rw [decode_rotation_increase _ _ _ h hd]
      simp
    · rw [decode_rotation_decrease _ _ _ h hd]
      simp

theorem decode_rotation_out (j : Nat) (k : knob) (s : TaskState) :
    (decode_rotation j k s).out
      = s.out ++
        (if has_changed k.clk then
          [if cmp_n_m k.dt k.clk 1 0 then Event.volume_down j (counter_sub_step s.counter)
            else Event.volume_up j (counter_add_step s.counter)]
        else []) := by
  cases h : has_changed k.clk
  · rw [decode_rotation_unchanged _ _ _ h]
    simp
  · cases hd : cmp_n_m k.dt k.clk 1 0
    · rw [decode_rotation_increase _ _ _ h hd]
      simp
    · rw [decode_rotation_decrease _ _ _ h hd]
      simp

theorem decode_knob_counter (dc j : Nat) (k : knob) (s : TaskState) :
    (decode_knob dc j k s).counter
      = if has_changed k.clk then
          (if cmp_n_m k.dt k.clk 1 0 then counter_sub_step s.counter
            else counter_add_step s.counter)
        else s.counter := by
  unfold decode_knob
  rw [decode_rotation_counter, decode_button_counter]

theorem decode_knob_out (dc j : Nat) (k : knob) (s : TaskState) :
    (decode_knob dc j k s).out
      = s.out ++
        ((if button_cond dc k then [Event.button_pressed] else []) ++
        (if has_changed k.clk then
          [if cmp_n_m k.dt k.clk 1 0 then Event.volume_down j (counter_sub_step s.counter)
            else Event.volume_up j (counter_add_step s.counter)]
        else [])) := by
  unfold decode_knob
  rw [decode_rotation_out, decode_button_counter, decode_button_out, List.append_assoc]

theorem body_events_eq (dc j : Nat) (k : knob) (s : TaskState) :
    body_events dc j k s
      = (if button_cond dc k then [Event.button_pressed] else []) ++
        (if has_changed k.clk then
          [if cmp_n_m k.dt k.clk 1 0 then Event.volume_down j (counter_sub_step s.counter)
            else Event.volume_up j (counter_add_step s.counter)]
        else []) := by
  unfold body_events
  rw [decode_knob_out, List.drop_left]

theorem directions_append (j : Nat) (xs ys : List Event) :
    directions j (xs ++ ys) = directions j xs ++ directions j ys := by
  induction xs with
  | nil => rfl
  | cons x xs ih =>
    cases x with
    | button_pressed => simpa [directions] using ih
    | volume_up i c =>
      by_cases h : i = j <;> simp [directions, h, ih]
    | volume_down i c =>
      by_cases h : i = j <;> simp [directions, h, ih]

theorem directions_decode_knob (dc i j : Nat) (k : knob) (s : TaskState) :
    directions j (decode_knob dc i k s).out
      = directions j s.out ++
        (if i = j ∧ has_changed k.clk = true then [!cmp_n_m k.dt k.clk 1 0] else []) := by
  rw [decode_knob_out, directions_append, directions_append]
  congr 1
  by_cases hij : i = j
  · cases has_changed k.clk <;> cases cmp_n_m k.dt k.clk 1 0 <;>
      cases button_cond dc k <;> simp [directions, hij]
  · cases has_changed k.clk <;> cases cmp_n_m k.dt k.clk 1 0 <;>
      cases button_cond dc k <;> simp [directions, hij]

/-! ## Tables in step with the input lines -/

theorem synced_primed (mem : KnobTable) (g0 : Gpio) :
    Synced (update_array g0 (knob_set_pins pin_arr mem)) g0 :=
  fun i hi => ⟨primed_pins mem g0 i hi, primed_testBit_zero mem g0 i hi⟩

theorem synced_update (p : KnobTable) (gp g : Gpio) (h : Synced p gp) :
    Synced (update_array g p) g := by
  intro i hi
  obtain ⟨⟨h1, h2, h3⟩, _⟩ := h i hi
  have hp := update_array_pins g p i
  refine ⟨⟨hp.1.trans h1, hp.2.1.trans h2, hp.2.2.trans h3⟩, ?_⟩
  rw [update_array_apply, if_pos hi]
  have hb := update_knob_testBit_zero g (p i)
  rw [h1, h2, h3] at hb
  exact hb

theorem synced_congr (p : KnobTable) (g g' : Gpio) (h : Synced p g)
    (hg : ∀ i, i < CONFIG_KNOB_NUMBER → ∀ c, c < 3 → g' (pin_arr i c) = g (pin_arr i c)) :
    Synced p g' := by
  intro i hi
  obtain ⟨hp, h1, h2, h3⟩ := h i hi
  exact ⟨hp, by rw [h1, hg i hi 0 (by decide)], by rw [h2, hg i hi 1 (by decide)],
    by rw [h3, hg i hi 2 (by decide)]⟩

/-- In a table in step with `gp`, the conditions tested by the loop body after
the next `update_array` compare the levels of `gp` and of the new `g`. -/
theorem synced_conditions (dc : Nat) (p : KnobTable) (gp g : Gpio) (h : Synced p gp)
    (i : Nat) (hi : i < CONFIG_KNOB_NUMBER) :
    button_cond dc (update_knob g (p i))
      = ((gp (pin_arr i 0) != g (pin_arr i 0)) && (g (pin_arr i 0) || decide (dc ≠ 0))) ∧
    has_changed (update_knob g (p i)).clk = (gp (pin_arr i 2) != g (pin_arr i 2)) ∧
    cmp_n_m (update_knob g (p i)).dt (update_knob g (p i)).clk 1 0
      = (gp (pin_arr i 1) == g (pin_arr i 2)) := by
  obtain ⟨⟨h1, h2, h3⟩, h4, h5, h6⟩ := h i hi
  rw [button_cond_update, has_changed_clk_update, cmp_dt_clk_update, h1, h3, h4, h5, h6]
  exact ⟨rfl, rfl, rfl⟩

/-! ## Rounding -/

theorem round_half_even_intCast (n : ℤ) : round_half_even (n : ℚ) = n := by
  unfold round_half_even
  simp only [Int.floor_intCast, sub_self]
  rw [if_pos (by norm_num)]

theorem ulp_exp_le (prec : Nat) (emin m e : ℤ) (hm0 : m ≠ 0) (hm : |m| < 2 ^ prec)
    (he : emin ≤ e) : ulp_exp prec emin ((m : ℚ) * (2 : ℚ) ^ e) ≤ e := by
  unfold ulp_exp
  apply max_le _ he
  have hpos : (0 : ℚ) < |(m : ℚ) * (2 : ℚ) ^ e| := by
    apply abs_pos.mpr
    exact mul_ne_zero (Int.cast_ne_zero.mpr hm0) (zpow_ne_zero _ (by norm_num))
  have hlt : |(m : ℚ) * (2 : ℚ) ^ e| < ((2 : ℕ) : ℚ) ^ ((prec : ℤ) + e) := by
    rw [abs_mul, abs_of_pos (zpow_pos (by norm_num : (0 : ℚ) < 2) e), Nat.cast_ofNat,
      zpow_add₀ (by norm_num : (2 : ℚ) ≠ 0), zpow_natCast]
    apply mul_lt_mul_of_pos_right _ (zpow_pos (by norm_num : (0 : ℚ) < 2) e)
    have : ((|m| : ℤ) : ℚ) < ((2 ^ prec : ℤ) : ℚ) := Int.cast_lt.mpr hm
    simpa using this
  have := (Int.lt_zpow_iff_log_lt (by norm_num : 1 < 2) hpos).mp hlt
  omega

/-- A number `m * 2 ^ e` with `|m| < 2 ^ prec` and `emin ≤ e` belongs to the
format and is left unchanged by rounding. -/
theorem fp_round_exact (prec : Nat) (emin m e : ℤ) (hm : |m| < 2 ^ prec) (he : emin ≤ e) :
    fp_round prec emin ((m : ℚ) * (2 : ℚ) ^ e) = (m : ℚ) * (2 : ℚ) ^ e := by
  by_cases hm0 : m = 0
  · subst hm0
    unfold fp_round
    simp [round_half_even]
  · have hE := ulp_exp_le prec emin m e hm0 hm he
    unfold fp_round
    generalize ulp_exp prec emin ((m : ℚ) * (2 : ℚ) ^ e) = E at hE
    obtain ⟨d, hd⟩ : ∃ d : ℕ, e = E + d := ⟨(e - E).toNat, by omega⟩
    have h2 : (2 : ℚ) ^ E ≠ 0 := zpow_ne_zero _ (by norm_num)
    have hq : (m : ℚ) * (2 : ℚ) ^ e / (2 : ℚ) ^ E = ((m * 2 ^ d : ℤ) : ℚ) := by
      rw [hd, zpow_add₀ (by norm_num : (2 : ℚ) ≠ 0), zpow_natCast]
      field_simp
      ring
    rw [hq, round_half_even_intCast, hd, zpow_add₀ (by norm_num : (2 : ℚ) ≠ 0), zpow_natCast]
    push_cast
    ring

theorem int_log_two_eq (x : ℚ) (e : ℤ) (h1 : (2 : ℚ) ^ e ≤ x) (h2 : x < (2 : ℚ) ^ (e + 1)) :
    Int.log 2 x = e := by
  have hpos : (0 : ℚ) < x := lt_of_lt_of_le (zpow_pos (by norm_num) e) h1
  have ha : e ≤ Int.log 2 x := by
    apply (Int.zpow_le_iff_le_log (by norm_num : 1 < 2) hpos).mp
    rw [Nat.cast_ofNat]
    exact h1
  have hb : Int.log 2 x < e + 1 := by
    apply (Int.lt_zpow_iff_log_lt (by norm_num : 1 < 2) hpos).mp
    rw [Nat.cast_ofNat]
    exact h2
  omega

/-- Every multiple `n * 2.5` with `|n| ≤ 3355444` is a `float`, and a `double`. -/
theorem step_multiple_exact (n : ℤ) (h : |n| ≤ 3355444) :
    to_float (to_double ((n : ℚ) * (5 / 2))) = (n : ℚ) * (5 / 2) := by
  have hb := abs_le.mp h
  rcases Int.even_or_odd' n with ⟨k, hk | hk⟩
  · have hv : (n : ℚ) * (5 / 2) = ((5 * k : ℤ) : ℚ) * (2 : ℚ) ^ (0 : ℤ) := by
      rw [hk]
      push_cast
      ring
    have hm : |5 * k| < 2 ^ 24 := by
      rw [abs_lt]
      constructor <;> omega
    have hm' : |5 * k| < 2 ^ 53 := lt_trans hm (by norm_num)
    unfold to_float to_double
    rw [hv, fp_round_exact 53 (-1074) (5 * k) 0 hm' (by norm_num),
      fp_round_exact 24 (-149) (5 * k) 0 hm (by norm_num)]
  · have hv : (n : ℚ) * (5 / 2) = ((5 * n : ℤ) : ℚ) * (2 : ℚ) ^ (-1 : ℤ) := by
      push_cast
      rw [zpow_neg_one]
      ring
    have hm : |5 * n| < 2 ^ 24 := by
      rw [abs_lt]
      constructor <;> omega
    have hm' : |5 * n| < 2 ^ 53 := lt_trans hm (by norm_num)
    unfold to_float to_double
    rw [hv, fp_round_exact 53 (-1074) (5 * n) (-1) hm' (by norm_num),
      fp_round_exact 24 (-149) (5 * n) (-1) hm (by norm_num)]

theorem counter_add_step_exact (n : ℤ) (h : |n + 1| ≤ 3355444) :
    counter_add_step ((n : ℚ) * (5 / 2)) = ((n + 1 : ℤ) : ℚ) * (5 / 2) := by
  unfold counter_add_step CONFIG_KNOB_STEP
  have hv : (n : ℚ) * (5 / 2) + 5 / 2 = ((n + 1 : ℤ) : ℚ) * (5 / 2) := by
    push_cast
    ring
  rw [hv, step_multiple_exact (n + 1) h]

theorem counter_sub_step_exact (n : ℤ) (h : |n - 1| ≤ 3355444) :
    counter_sub_step ((n : ℚ) * (5 / 2)) = ((n - 1 : ℤ) : ℚ) * (5 / 2) := by
  unfold counter_sub_step CONFIG_KNOB_STEP
  have hv : (n : ℚ) * (5 / 2) - 5 / 2 = ((n - 1 : ℤ) : ℚ) * (5 / 2) := by
    push_cast
    ring
  rw [hv, step_multiple_exact (n - 1) h]

/-- The first addition that is not exact: `8388610 + 2.5` lies half-way
between the floats `8388612` and `8388613` and goes to the even one. -/
theorem counter_add_step_8388610 : counter_add_step 8388610 = 8388612 := by
  unfold counter_add_step CONFIG_KNOB_STEP to_float to_double
  have hv : (8388610 : ℚ) + 5 / 2 = ((16777225 : ℤ) : ℚ) * (2 : ℚ) ^ (-1 : ℤ) := by
    rw [zpow_neg_one]
    norm_num
  rw [hv, fp_round_exact 53 (-1074) 16777225 (-1) (by norm_num) (by norm_num)]
  have hx : ((16777225 : ℤ) : ℚ) * (2 : ℚ) ^ (-1 : ℤ) = 16777225 / 2 := by
    rw [zpow_neg_one]
    norm_num
  rw [hx]
  have hlog : Int.log 2 |(16777225 / 2 : ℚ)| = 23 := by
    rw [abs_of_pos (by norm_num)]
    apply int_log_two_eq
    · norm_num
    · norm_num
  have hu : ulp_exp 24 (-149) (16777225 / 2 : ℚ) = 0 := by
    unfold ulp_exp
    rw [hlog]
    norm_num
  have hfl : ⌊(16777225 / 2 : ℚ)⌋ = 8388612 := by
    rw [Int.floor_eq_iff]
    constructor <;> norm_num
  unfold fp_round
  rw [hu]
  unfold round_half_even
  simp only [zpow_zero, div_one, mul_one, hfl]
  norm_num

/-! ## One tick on a table in step with the lines -/

theorem decode_knob_idle (dc j : Nat) (k : knob) (s : TaskState)
    (hb : button_cond dc k = false) (hc : has_changed k.clk = false) :
    decode_knob dc j k s = s := by
  unfold decode_knob
  rw [decode_rotation_unchanged _ _ _ hc]
  unfold decode_button
  simp [hb]

theorem tick_synced (dc : Nat) (st : KnobTable × TaskState) (gp g : Gpio)
    (h : Synced st.1 gp) : Synced (tick dc st g).1 g :=
  synced_update st.1 gp g h

theorem tick_count_button (dc : Nat) (st : KnobTable × TaskState) (gp g : Gpio)
    (h : Synced st.1 gp) :
    count_button (tick dc st g).2.out
      = count_button st.2.out
        + (if ((gp (pin_arr 0 0) != g (pin_arr 0 0)) && (g (pin_arr 0 0) || decide (dc ≠ 0)))
            then 1 else 0)
        + (if ((gp (pin_arr 1 0) != g (pin_arr 1 0)) && (g (pin_arr 1 0) || decide (dc ≠ 0)))
            then 1 else 0) := by
  rw [tick_snd, count_button_decode_knob, count_button_decode_knob,
    (synced_conditions dc st.1 gp g h 0 (by decide)).1,
    (synced_conditions dc st.1 gp g h 1 (by decide)).1]

theorem tick_directions (dc : Nat) (st : KnobTable × TaskState) (gp g : Gpio)
    (h : Synced st.1 gp) (j : Nat) (hj : j < CONFIG_KNOB_NUMBER) :
    directions j (tick dc st g).2.out
      = directions j st.2.out ++
        (if (gp (pin_arr j 2) != g (pin_arr j 2)) = true
          then [gp (pin_arr j 1) != g (pin_arr j 2)] else []) := by
  have c0 := synced_conditions dc st.1 gp g h 0 (by decide)
  have c1 := synced_conditions dc st.1 gp g h 1 (by decide)
  rw [tick_snd, directions_decode_knob, directions_decode_knob, c0.2.1, c0.2.2, c1.2.1,
    c1.2.2, List.append_assoc]
  congr 1
  have hj' : j = 0 ∨ j = 1 := by
    unfold CONFIG_KNOB_NUMBER at hj
    omega
  rcases hj' with rfl | rfl
  · cases gp (pin_arr 0 2) <;> cases g (pin_arr 0 2) <;> cases gp (pin_arr 0 1) <;> simp
  · cases gp (pin_arr 1 2) <;> cases g (pin_arr 1 2) <;> cases gp (pin_arr 1 1) <;> simp

theorem tick_counter (dc : Nat) (st : KnobTable × TaskState) (gp g : Gpio)
    (h : Synced st.1 gp) :
    (tick dc st g).2.counter = next_counter gp g 1 (next_counter gp g 0 st.2.counter) := by
  have c0 := synced_conditions dc st.1 gp g h 0 (by decide)
  have c1 := synced_conditions dc st.1 gp g h 1 (by decide)
  rw [tick_snd, decode_knob_counter, decode_knob_counter, c0.2.1, c0.2.2, c1.2.1, c1.2.2]
  rfl

theorem tick_idle (dc : Nat) (st : KnobTable × TaskState) (gp g : Gpio)
    (h : Synced st.1 gp)
    (hg : ∀ i, i < CONFIG_KNOB_NUMBER → ∀ c, c < 3 → g (pin_arr i c) = gp (pin_arr i c)) :
    (tick dc st g).2 = st.2 := by
  have c0 := synced_conditions dc st.1 gp g h 0 (by decide)
  have c1 := synced_conditions dc st.1 gp g h 1 (by decide)
  rw [tick_snd, decode_knob_idle, decode_knob_idle]
  · rw [c0.1, hg 0 (by decide) 0 (by decide)]
    simp
  · rw [c0.2.1, hg 0 (by decide) 2 (by decide)]
    simp
  · rw [c1.1, hg 1 (by decide) 0 (by decide)]
    simp
  · rw [c1.2.1, hg 1 (by decide) 2 (by decide)]
    simp

theorem run_idle (dc : Nat) (g0 : Gpio) (gs : List Gpio) (st : KnobTable × TaskState)
    (h : Synced st.1 g0)
    (hq : ∀ g ∈ gs, ∀ i, i < CONFIG_KNOB_NUMBER → ∀ c, c < 3 →
      g (pin_arr i c) = g0 (pin_arr i c)) :
    (run dc st gs).2 = st.2 := by
  induction gs generalizing st with
  | nil => rfl
  | cons g gs ih =>
    have hg := hq g (List.mem_cons_self g gs)
    rw [run_cons, ih (tick dc st g)
      (synced_congr _ g g0 (tick_synced dc st g0 g h) (fun i hi c hc => (hg i hi c hc).symm))
      (fun g' hg' => hq g' (List.mem_cons_of_mem g hg')),
      tick_idle dc st g0 g h hg]

/-! ## Counting rotation lines -/

theorem count_up_decode_knob (dc j : Nat) (k : knob) (s : TaskState) :
    count_up (decode_knob dc j k s).out
      = count_up s.out
        + (if (has_changed k.clk && !cmp_n_m k.dt k.clk 1 0) then 1 else 0) := by
  rw [decode_knob_out, count_up_append, count_up_append]
  cases has_changed k.clk <;> cases cmp_n_m k.dt k.clk 1 0 <;>
    cases button_cond dc k <;> simp [count_up]

theorem count_down_decode_knob (dc j : Nat) (k : knob) (s : TaskState) :
    count_down (decode_knob dc j k s).out
      = count_down s.out
        + (if (has_changed k.clk && cmp_n_m k.dt k.clk 1 0) then 1 else 0) := by
  rw [decode_knob_out, count_down_append, count_down_append]
  cases has_changed k.clk <;> cases cmp_n_m k.dt k.clk 1 0 <;>
    cases button_cond dc k <;> simp [count_down]

theorem tick_count_up (dc : Nat) (st : KnobTable × TaskState) (gp g : Gpio)
    (h : Synced st.1 gp) :
    count_up (tick dc st g).2.out
      = count_up st.2.out
        + (if ((gp (pin_arr 0 2) != g (pin_arr 0 2)) && !(gp (pin_arr 0 1) == g (pin_arr 0 2)))
            then 1 else 0)
        + (if ((gp (pin_arr 1 2) != g (pin_arr 1 2)) && !(gp (pin_arr 1 1) == g (pin_arr 1 2)))
            then 1 else 0) := by
  have c0 := synced_conditions dc st.1 gp g h 0 (by decide)
  have c1 := synced_conditions dc st.1 gp g h 1 (by decide)
  rw [tick_snd, count_up_decode_knob, count_up_decode_knob, c0.2.1, c0.2.2, c1.2.1, c1.2.2]

theorem tick_count_down (dc : Nat) (st : KnobTable × TaskState) (gp g : Gpio)
    (h : Synced st.1 gp) :
    count_down (tick dc st g).2.out
      = count_down st.2.out
        + (if ((gp (pin_arr 0 2) != g (pin_arr 0 2)) && (gp (pin_arr 0 1) == g (pin_arr 0 2)))
            then 1 else 0)
        + (if ((gp (pin_arr 1 2) != g (pin_arr 1 2)) && (gp (pin_arr 1 1) == g (pin_arr 1 2)))
            then 1 else 0) := by
  have c0 := synced_conditions dc st.1 gp g h 0 (by decide)
  have c1 := synced_conditions dc st.1 gp g h 1 (by decide)
  rw [tick_snd, count_down_decode_knob, count_down_decode_knob, c0.2.1, c0.2.2, c1.2.1,
    c1.2.2]

theorem counter_add_step_zero : counter_add_step 0 = 5 / 2 := by
  have := counter_add_step_exact 0 (by norm_num)
  norm_num at this
  exact this

theorem counter_add_step_once : counter_add_step (5 / 2) = 5 := by
  have := counter_add_step_exact 1 (by norm_num)
  norm_num at this
  exact this

theorem counter_sub_step_zero : counter_sub_step 0 = -(5 / 2) := by
  have := counter_sub_step_exact 0 (by norm_num)
  norm_num at this
  exact this

theorem counter_sub_step_once : counter_sub_step (-(5 / 2)) = -5 := by
  have := counter_sub_step_exact (-1) (by norm_num)
  norm_num at this
  exact this

theorem tick_out (dc : Nat) (st : KnobTable × TaskState) (gp g : Gpio)
    (h : Synced st.1 gp) :
    (tick dc st g).2.out
      = st.2.out ++ (line_events dc gp g 0 st.2.counter
          ++ line_events dc gp g 1 (next_counter gp g 0 st.2.counter)) := by
  have c0 := synced_conditions dc st.1 gp g h 0 (by decide)
  have c1 := synced_conditions dc st.1 gp g h 1 (by decide)
  rw [tick_snd, decode_knob_out, decode_knob_out, decode_knob_counter, c0.1, c0.2.1, c0.2.2,
    c1.1, c1.2.1, c1.2.2, List.append_assoc]
  rfl

/-- Three loop iterations after the priming read, in terms of the levels. -/
theorem knob_task_three (dc : Nat) (mem : KnobTable) (g0 g1 g2 g3 : Gpio) :
    (knob_task dc mem g0 [g1, g2, g3]).2.counter
      = next_counter g2 g3 1 (next_counter g2 g3 0
          (next_counter g1 g2 1 (next_counter g1 g2 0
            (next_counter g0 g1 1 (next_counter g0 g1 0 INIT_VOLUME))))) ∧
    (knob_task dc mem g0 [g1, g2, g3]).2.out
      = (line_events dc g0 g1 0 INIT_VOLUME
          ++ line_events dc g0 g1 1 (next_counter g0 g1 0 INIT_VOLUME)) ++
        ((line_events dc g1 g2 0 (next_counter g0 g1 1 (next_counter g0 g1 0 INIT_VOLUME))
          ++ line_events dc g1 g2 1 (next_counter g1 g2 0
              (next_counter g0 g1 1 (next_counter g0 g1 0 INIT_VOLUME)))) ++
        (line_events dc g2 g3 0 (next_counter g1 g2 1 (next_counter g1 g2 0
            (next_counter g0 g1 1 (next_counter g0 g1 0 INIT_VOLUME))))
          ++ line_events dc g2 g3 1 (next_counter g2 g3 0
              (next_counter g1 g2 1 (next_counter g1 g2 0
                (next_counter g0 g1 1 (next_counter g0 g1 0 INIT_VOLUME))))))) ∧
    (∀ j, j < CONFIG_KNOB_NUMBER →
      directions j (knob_task dc mem g0 [g1, g2, g3]).2.out
        = (if (g0 (pin_arr j 2) != g1 (pin_arr j 2)) = true
            then [g0 (pin_arr j 1) != g1 (pin_arr j 2)] else []) ++
          ((if (g1 (pin_arr j 2) != g2 (pin_arr j 2)) = true
            then [g1 (pin_arr j 1) != g2 (pin_arr j 2)] else []) ++
          (if (g2 (pin_arr j 2) != g3 (pin_arr j 2)) = true
            then [g2 (pin_arr j 1) != g3 (pin_arr j 2)] else []))) := by
  have hs0 : Synced (update_array g0 (knob_set_pins pin_arr mem),
      ({ counter := INIT_VOLUME, out := [] } : TaskState)).1 g0 := synced_primed mem g0
  have hs1 := tick_synced dc _ g0 g1 hs0
  have hs2 := tick_synced dc _ g1 g2 hs1
  unfold knob_task
  rw [run_cons, run_cons, run_cons, run_nil]
  refine ⟨?_, ?_, fun j hj => ?_⟩
  · rw [tick_counter dc _ g2 g3 hs2, tick_counter dc _ g1 g2 hs1, tick_counter dc _ g0 g1 hs0]
  · rw [tick_out dc _ g2 g3 hs2, tick_counter dc _ g1 g2 hs1, tick_out dc _ g1 g2 hs1,
      tick_counter dc _ g0 g1 hs0, tick_out dc _ g0 g1 hs0]
    simp
  · rw [tick_directions dc _ g2 g3 hs2 j hj, tick_directions dc _ g1 g2 hs1 j hj,
      tick_directions dc _ g0 g1 hs0 j hj]
    simp [directions]

/-! ## Two runs that give one knob the same samples -/

theorem run_synced (dc : Nat) (gs : List Gpio) (st : KnobTable × TaskState) (gp : Gpio)
    (h : Synced st.1 gp) : Synced (run dc st gs).1 (last_two gp gs).2 := by
  induction gs generalizing st gp with
  | nil => exact h
  | cons g gs ih =>
    rw [run_cons]
    cases gs with
    | nil => exact tick_synced dc st gp g h
    | cons g' gs => exact ih (tick dc st g) g (tick_synced dc st gp g h)

/-- The conditions tested for knob `j` in the last iteration of a run compare
the levels of the last two samplings. -/
theorem run_last_conditions (dc : Nat) (gs : List Gpio) (hne : gs ≠ [])
    (st : KnobTable × TaskState) (gp : Gpio) (h : Synced st.1 gp) (j : Nat)
    (hj : j < CONFIG_KNOB_NUMBER) :
    button_cond dc ((run dc st gs).1 j)
      = (((last_two gp gs).1 (pin_arr j 0) != (last_two gp gs).2 (pin_arr j 0))
          && ((last_two gp gs).2 (pin_arr j 0) || decide (dc ≠ 0))) ∧
    has_changed ((run dc st gs).1 j).clk
      = ((last_two gp gs).1 (pin_arr j 2) != (last_two gp gs).2 (pin_arr j 2)) ∧
    cmp_n_m ((run dc st gs).1 j).dt ((run dc st gs).1 j).clk 1 0
      = ((last_two gp gs).1 (pin_arr j 1) == (last_two gp gs).2 (pin_arr j 2)) := by
  induction gs generalizing st gp with
  | nil => exact absurd rfl hne
  | cons g gs ih =>
    rw [run_cons]
    cases gs with
    | nil =>
      rw [run_nil, tick_fst, update_array_apply, if_pos hj]
      exact synced_conditions dc st.1 gp g h j hj
    | cons g' gs =>
      exact ih (List.cons_ne_nil g' gs) (tick dc st g) g (tick_synced dc st gp g h)

theorem last_two_same_samples (j : Nat) (gs gs' : List Gpio) (gp gp' : Gpio)
    (h0 : same_samples j gp gp') (h : List.Forall₂ (same_samples j) gs gs') :
    same_samples j (last_two gp gs).1 (last_two gp' gs').1 ∧
    same_samples j (last_two gp gs).2 (last_two gp' gs').2 := by
  induction h generalizing gp gp' with
  | nil => exact ⟨h0, h0⟩
  | cons hg hrest ih =>
    cases hrest with
    | nil => exact ⟨h0, hg⟩
    | cons hg' hrest' => exact ih _ _ hg

theorem run_directions_congr (dc j : Nat) (hj : j < CONFIG_KNOB_NUMBER) (gs gs' : List Gpio)
    (h : List.Forall₂ (same_samples j) gs gs') (st st' : KnobTable × TaskState)
    (gp gp' : Gpio) (hs : Synced st.1 gp) (hs' : Synced st'.1 gp')
    (h0 : same_samples j gp gp')
    (hd : directions j st.2.out = directions j st'.2.out) :
    directions j (run dc st gs).2.out = directions j (run dc st' gs').2.out := by
  induction h generalizing st st' gp gp' with
  | nil => exact hd
  | cons hg _ ih =>
    rw [run_cons, run_cons]
    apply ih _ _ _ _ (tick_synced dc st gp _ hs) (tick_synced dc st' gp' _ hs') hg
    rw [tick_directions dc st gp _ hs j hj, tick_directions dc st' gp' _ hs' j hj, hd,
      h0 1 (by decide), h0 2 (by decide), hg 2 (by decide)]

theorem body_events_forget (dc j : Nat) (k : knob) (s : TaskState) :
    (body_events dc j k s).map forget_counter
      = (if button_cond dc k then [Event.button_pressed] else []) ++
        (if has_changed k.clk then
          [if cmp_n_m k.dt k.clk 1 0 then Event.volume_down j 0 else Event.volume_up j 0]
        else []) := by
  rw [body_events_eq]
  cases button_cond dc k <;> cases has_changed k.clk <;> cases cmp_n_m k.dt k.clk 1 0 <;>
    simp [forget_counter]

theorem body_events_mem (dc j : Nat) (k : knob) (s : TaskState) (e : Event)
    (he : e ∈ body_events dc j k s) :
    e = Event.button_pressed ∨
    (has_changed k.clk = true ∧
      (e = Event.volume_up j (counter_add_step s.counter) ∨
        e = Event.volume_down j (counter_sub_step s.counter))) := by
  rw [body_events_eq] at he
  revert he
  cases button_cond dc k <;> cases has_changed k.clk <;> cases cmp_n_m k.dt k.clk 1 0 <;>
    simp <;> tauto

/-! ## The accumulator over a run -/

theorem replay_append (xs ys : List Event) (c : ℚ) :
    replay (xs ++ ys) c = replay ys (replay xs c) := by
  induction xs generalizing c with
  | nil => rfl
  | cons x xs ih => cases x <;> simp [replay, ih]

theorem decode_knob_replay (dc j : Nat) (k : knob) (s : TaskState) (c0 : ℚ)
    (h : s.counter = replay s.out c0) :
    (decode_knob dc j k s).counter = replay (decode_knob dc j k s).out c0 := by
  rw [decode_knob_out, decode_knob_counter, replay_append, ← h]
  cases button_cond dc k <;> cases has_changed k.clk <;> cases cmp_n_m k.dt k.clk 1 0 <;>
    simp [replay]

theorem run_replay (dc : Nat) (gs : List Gpio) (st : KnobTable × TaskState) (c0 : ℚ)
    (h : st.2.counter = replay st.2.out c0) :
    (run dc st gs).2.counter = replay (run dc st gs).2.out c0 := by
  induction gs generalizing st with
  | nil => exact h
  | cons g gs ih =>
    rw [run_cons]
    apply ih
    rw [tick_snd]
    exact decode_knob_replay dc 1 _ _ c0 (decode_knob_replay dc 0 _ _ c0 h)

/-- While the number of rotation lines stays within 3355444, replaying them
from a multiple of the step gives the exact multiple. -/
theorem replay_exact (es : List Event) (n : ℤ)
    (h : |n| + (count_up es : ℤ) + (count_down es : ℤ) ≤ 3355444) :
    replay es ((n : ℚ) * (5 / 2))
      = ((n + (count_up es : ℤ) - (count_down es : ℤ) : ℤ) : ℚ) * (5 / 2) := by
  induction es generalizing n with
  | nil => simp [replay, count_up, count_down]
  | cons e es ih =>
    cases e with
    | button_pressed =>
      simp only [replay, count_up, count_down] at h ⊢
      exact ih n h
    | volume_up i c =>
      simp only [replay, count_up, count_down] at h ⊢
      have h1 : |n + 1| ≤ |n| + 1 := by
        have := abs_add n 1
        simpa using this
      rw [counter_add_step_exact n (by push_cast at h; omega), ih (n + 1) (by push_cast at h ⊢; omega)]
      push_cast
      ring
    | volume_down i c =>
      simp only [replay, count_up, count_down] at h ⊢
      have h1 : |n - 1| ≤ |n| + 1 := by
        have := abs_sub n 1
        simpa using this
      rw [counter_sub_step_exact n (by push_cast at h; omega), ih (n - 1) (by push_cast at h ⊢; omega)]
      push_cast
      ring

/-! ## The steady rotation -/

theorem quadrature_cycle_run (dc : Nat) (st : KnobTable × TaskState)
    (h : Synced st.1 (knob0_levels true true)) :
    Synced (run dc st quadrature_cycle).1 (knob0_levels true true) ∧
    (run dc st quadrature_cycle).2.counter
      = counter_add_step (counter_add_step st.2.counter) ∧
    count_up (run dc st quadrature_cycle).2.out = count_up st.2.out + 2 ∧
    count_down (run dc st quadrature_cycle).2.out = count_down st.2.out := by
  have h1 := tick_synced dc st _ (knob0_levels true false) h
  have h2 := tick_synced dc _ _ (knob0_levels false false) h1
  have h3 := tick_synced dc _ _ (knob0_levels false true) h2
  have h4 := tick_synced dc _ _ (knob0_levels true true) h3
  unfold quadrature_cycle
  rw [run_cons, run_cons, run_cons, run_cons, run_nil]
  refine ⟨h4, ?_, ?_, ?_⟩
  · rw [tick_counter dc _ _ _ h3, tick_counter dc _ _ _ h2, tick_counter dc _ _ _ h1,
      tick_counter dc _ _ _ h]
    simp [next_counter, knob0_levels, pin_arr]
  · rw [tick_count_up dc _ _ _ h3, tick_count_up dc _ _ _ h2, tick_count_up dc _ _ _ h1,
      tick_count_up dc _ _ _ h]
    simp [knob0_levels, pin_arr]
  · rw [tick_count_down dc _ _ _ h3, tick_count_down dc _ _ _ h2, tick_count_down dc _ _ _ h1,
      tick_count_down dc _ _ _ h]
    simp [knob0_levels, pin_arr]

theorem quadrature_cycles_run (dc : Nat) (n : Nat) (st : KnobTable × TaskState)
    (h : Synced st.1 (knob0_levels true true)) :
    Synced (run dc st (quadrature_cycles n)).1 (knob0_levels true true) ∧
    (run dc st (quadrature_cycles n)).2.counter
      = Nat.iterate counter_add_step (2 * n) st.2.counter ∧
    count_up (run dc st (quadrature_cycles n)).2.out = count_up st.2.out + 2 * n ∧
    count_down (run dc st (quadrature_cycles n)).2.out = count_down st.2.out := by
  induction n generalizing st with
  | zero => exact ⟨h, rfl, rfl, rfl⟩
  | succ n ih =>
    obtain ⟨a1, a2, a3, a4⟩ := quadrature_cycle_run dc st h
    obtain ⟨b1, b2, b3, b4⟩ := ih (run dc st quadrature_cycle) a1
    have e : quadrature_cycles (n + 1) = quadrature_cycle ++ quadrature_cycles n := rfl
    rw [e, run_append]
    refine ⟨b1, ?_, ?_, ?_⟩
    · rw [b2, a2, show 2 * (n + 1) = (2 * n + 1) + 1 from by ring, Function.iterate_succ_apply,
        Function.iterate_succ_apply]
    · rw [b3, a3]
      ring
    · rw [b4, a4]

theorem quadrature_last_tick (dc : Nat) (st : KnobTable × TaskState)
    (h : Synced st.1 (knob0_levels true true)) :
    (tick dc st (knob0_levels true false)).2.counter = counter_add_step st.2.counter ∧
    count_up (tick dc st (knob0_levels true false)).2.out = count_up st.2.out + 1 ∧
    count_down (tick dc st (knob0_levels true false)).2.out = count_down st.2.out := by
  refine ⟨?_, ?_, ?_⟩
  · rw [tick_counter dc _ _ _ h]
    simp [next_counter, knob0_levels, pin_arr]
  · rw [tick_count_up dc _ _ _ h]
    simp [knob0_levels, pin_arr]
  · rw [tick_count_down dc _ _ _ h]
    simp [knob0_levels, pin_arr]

theorem iterate_add_step_exact (m : Nat) (h : m ≤ 3355444) :
    Nat.iterate counter_add_step m 0 = (m : ℚ) * (5 / 2) := by
  induction m with
  | zero => simp
  | succ m ih =>
    rw [Function.iterate_succ_apply', ih (by omega)]
    have := counter_add_step_exact (m : ℤ) (by
      rw [abs_le]
      constructor <;> omega)
    push_cast at this ⊢
    exact this

/-- The run of `knob_task` over `n` periods of the steady rotation of knob 0
followed by one more clock edge. -/
theorem steady_rotation (dc : Nat) (mem : KnobTable) (n : Nat) :
    (knob_task dc mem (knob0_levels true true)
        (quadrature_cycles n ++ [knob0_levels true false])).2.counter
      = counter_add_step (Nat.iterate counter_add_step (2 * n) 0) ∧
    count_up (knob_task dc mem (knob0_levels true true)
        (quadrature_cycles n ++ [knob0_levels true false])).2.out = 2 * n + 1 ∧
    count_down (knob_task dc mem (knob0_levels true true)
        (quadrature_cycles n ++ [knob0_levels true false])).2.out = 0 := by
  have hs0 : Synced (update_array (knob0_levels true true) (knob_set_pins pin_arr mem),
      ({ counter := INIT_VOLUME, out := [] } : TaskState)).1 (knob0_levels true true) :=
    synced_primed mem _
  obtain ⟨a1, a2, a3, a4⟩ := quadrature_cycles_run dc n _ hs0
  obtain ⟨b1, b2, b3⟩ := quadrature_last_tick dc _ a1
  unfold knob_task
  rw [run_append, run_cons, run_nil]
  refine ⟨?_, ?_, ?_⟩
  · rw [b1, a2]
    rfl
  · rw [b2, a3]
    simp [count_up]
  · rw [b3, a4]
    rfl


/-! ## Dependence on the two lowest bits, and the pins -/

theorem task_state_eq (s t : TaskState) (hc : s.counter = t.counter) (ho : s.out = t.out) :
    s = t := by
  cases s
  cases t
  simp only at hc ho
  rw [hc, ho]

theorem testBit_of_mod_four (j j' : Nat) (h : j % 4 = j' % 4) :
    j.testBit 0 = j'.testBit 0 ∧ j.testBit 1 = j'.testBit 1 := by
  have h4 : j % 2 ^ 2 = j' % 2 ^ 2 := h
  constructor
  · have := congrArg (fun x => Nat.testBit x 0) h4
    simp only [Nat.testBit_mod_two_pow] at this
    simpa using this
  · have := congrArg (fun x => Nat.testBit x 1) h4
    simp only [Nat.testBit_mod_two_pow] at this
    simpa using this

theorem decode_knob_congr (dc j : Nat) (k k' : knob) (s : TaskState)
    (hb : button_cond dc k = button_cond dc k') (hc : has_changed k.clk = has_changed k'.clk)
    (hd : cmp_n_m k.dt k.clk 1 0 = cmp_n_m k'.dt k'.clk 1 0) :
    decode_knob dc j k s = decode_knob dc j k' s := by
  apply task_state_eq
  · rw [decode_knob_counter, decode_knob_counter, hc, hd]
  · rw [decode_knob_out, decode_knob_out, hb, hc, hd]

theorem decode_knob_mod_four (dc j : Nat) (k k' : knob) (s : TaskState)
    (hsw : k.sw % 4 = k'.sw % 4) (hdt : k.dt % 4 = k'.dt % 4) (hclk : k.clk % 4 = k'.clk % 4) :
    decode_knob dc j k s = decode_knob dc j k' s := by
  obtain ⟨s0, s1⟩ := testBit_of_mod_four _ _ hsw
  obtain ⟨-, d1⟩ := testBit_of_mod_four _ _ hdt
  obtain ⟨c0, c1⟩ := testBit_of_mod_four _ _ hclk
  apply decode_knob_congr
  · rw [button_cond_eq, button_cond_eq, s0, s1]
  · rw [has_changed_eq, has_changed_eq, c0, c1]
  · rw [cmp_n_m_eq, cmp_n_m_eq, d1, c0]

theorem tick_congr (dc : Nat) (st st' : KnobTable × TaskState) (gp g : Gpio)
    (h : Synced st.1 gp) (h' : Synced st'.1 gp) (hs : st.2 = st'.2) :
    (tick dc st g).2 = (tick dc st' g).2 := by
  apply task_state_eq
  · rw [tick_counter dc st gp g h, tick_counter dc st' gp g h', hs]
  · rw [tick_out dc st gp g h, tick_out dc st' gp g h', hs]

theorem run_congr (dc : Nat) (gs : List Gpio) (st st' : KnobTable × TaskState) (gp : Gpio)
    (h : Synced st.1 gp) (h' : Synced st'.1 gp) (hs : st.2 = st'.2) :
    (run dc st gs).2 = (run dc st' gs).2 := by
  induction gs generalizing st st' gp with
  | nil => exact hs
  | cons g gs ih =>
    rw [run_cons, run_cons]
    exact ih _ _ g (tick_synced dc st gp g h) (tick_synced dc st' gp g h')
      (tick_congr dc st st' gp g h h' hs)

theorem run_pins (dc : Nat) (gs : List Gpio) (st : KnobTable × TaskState) (i : Nat) :
    ((run dc st gs).1 i).pin_sw = (st.1 i).pin_sw ∧
    ((run dc st gs).1 i).pin_dt = (st.1 i).pin_dt ∧
    ((run dc st gs).1 i).pin_clk = (st.1 i).pin_clk := by
  induction gs generalizing st with
  | nil => exact ⟨rfl, rfl, rfl⟩
  | cons g gs ih =>
    rw [run_cons]
    obtain ⟨a, b, c⟩ := ih (tick dc st g)
    obtain ⟨a', b', c'⟩ := update_array_pins g st.1 i
    rw [tick_fst] at a b c
    exact ⟨a.trans a', b.trans b', c.trans c'⟩

/-! ## Counting bits -/

theorem get_ones_zero : get_ones 0 = 0 := by
  rw [get_ones]
  simp

theorem get_ones_of_ne_zero (b : Nat) (h : b ≠ 0) :
    get_ones b = u64_to_int ((b % 2 + int_to_u64 (get_ones (b / 2))) % UINT64_SIZE) := by
  rw [get_ones]
  simp [h]

theorem countP_testBit_succ (n b : Nat) :
    (List.range (n + 1)).countP (fun i => b.testBit i)
      = b % 2 + (List.range n).countP (fun i => (b / 2).testBit i) := by
  rw [List.range_succ_eq_map, List.countP_cons, List.countP_map]
  have hf : ((fun i => b.testBit i) ∘ Nat.succ) = fun i => (b / 2).testBit i := by
    funext i
    exact Nat.testBit_succ b i
  rw [hf, Nat.testBit_zero]
  rcases Nat.mod_two_eq_zero_or_one b with h | h
  · simp [h]
  · simp [h]
    omega

theorem countP_testBit_zero (n : Nat) :
    (List.range n).countP (fun i => Nat.testBit 0 i) = 0 := by
  rw [List.countP_eq_zero]
  intro i _
  simp

theorem u64_to_int_small (x : Nat) (h : x ≤ 64) : u64_to_int x = (x : Int) := by
  unfold u64_to_int UINT32_SIZE
  have h1 : x % 2 ^ 32 = x := Nat.mod_eq_of_lt (by omega)
  rw [h1, if_pos (by omega)]

theorem int_to_u64_small (x : Nat) (h : x ≤ 64) : int_to_u64 (x : Int) = x := by
  unfold int_to_u64 UINT64_SIZE
  have h1 : ((x : Int) % ((2 ^ 64 : Nat) : Int)) = (x : Int) := by
    apply Int.emod_eq_of_lt
    · omega
    · push_cast
      omega
  rw [h1, Int.toNat_ofNat]

/-- On values below `2 ^ n`, `n ≤ 64`, `get_ones` counts the 1 bits among the
lowest `n`. -/
theorem get_ones_eq_countP (n : Nat) (hn : n ≤ 64) (b : Nat) (hb : b < 2 ^ n) :
    get_ones b = (((List.range n).countP (fun i => b.testBit i) : Nat) : Int) := by
  induction n generalizing b with
  | zero =>
    have : b = 0 := by simpa using hb
    subst this
    rw [get_ones_zero]
    simp
  | succ n ih =>
    by_cases h0 : b = 0
    · subst h0
      rw [get_ones_zero, countP_testBit_zero]
      rfl
    · have hb2 : b / 2 < 2 ^ n := by
        rw [Nat.div_lt_iff_lt_mul (by decide)]
        rw [pow_succ] at hb
        exact hb
      have hc : (List.range n).countP (fun i => (b / 2).testBit i) ≤ n := by
        have := List.countP_le_length (fun i => (b / 2).testBit i) (l := List.range n)
        simpa using this
      have hm : b % 2 < 2 := Nat.mod_lt _ (by decide)
      rw [get_ones_of_ne_zero b h0, ih (by omega) (b / 2) hb2, int_to_u64_small _ (by omega),
        countP_testBit_succ]
      unfold UINT64_SIZE
      rw [Nat.mod_eq_of_lt (by omega), u64_to_int_small _ (by omega)]

theorem get_ones_eq_popcount64 (b : Nat) (hb : b < 2 ^ 64) :
    get_ones b = ((popcount64 b : Nat) : Int) :=
  get_ones_eq_countP 64 (le_refl _) b hb

theorem popcount64_le (b : Nat) : popcount64 b ≤ 64 := by
  have := List.countP_le_length (fun i => b.testBit i) (l := List.range 64)
  simpa [popcount64] using this

theorem popcount64_eq_zero (b : Nat) (hb : b < 2 ^ 64) : popcount64 b = 0 ↔ b = 0 := by
  constructor
  · intro h
    unfold popcount64 at h
    rw [List.countP_eq_zero] at h
    apply Nat.eq_of_testBit_eq
    intro i
    rw [Nat.zero_testBit]
    by_cases hi : i < 64
    · have := h i (List.mem_range.mpr hi)
      simpa using this
    · apply Nat.testBit_lt_two_pow
      exact lt_of_lt_of_le hb (Nat.pow_le_pow_right (by decide) (by omega))
  · intro h
    subst h
    exact countP_testBit_zero 64

theorem iterate_halve (n b : Nat) : Nat.iterate (fun x => x / 2) n b = b / 2 ^ n := by
  induction n generalizing b with
  | zero => simp
  | succ n ih =>
    rw [Function.iterate_succ_apply, ih, Nat.div_div_eq_div_mul, pow_succ, Nat.mul_comm]

/-! ## The mask -/

theorem one_shl64_testBit (n : Int) (h0 : 0 ≤ n) (h63 : n ≤ 63) (p : Nat) :
    (one_shl64 n).testBit p = decide (n.toNat = p) := by
  unfold one_shl64 UINT64_SIZE
  rw [Nat.one_shiftLeft, Nat.testBit_mod_two_pow, Nat.testBit_two_pow]
  by_cases hp : n.toNat = p
  · have : p < 64 := by omega
    simp [hp, this]
  · simp [hp]

theorem knob_get_mask_eq (pa : Nat → Nat → Int) :
    knob_get_mask pa
      = (((((0 ||| one_shl64 (pa 0 0)) ||| one_shl64 (pa 0 1)) ||| one_shl64 (pa 0 2))
          ||| one_shl64 (pa 1 0)) ||| one_shl64 (pa 1 1)) ||| one_shl64 (pa 1 2) := rfl

/-- Bit `p` of the mask is set exactly when `p` is one of the six entries of the
pin table. -/
theorem knob_get_mask_testBit (pa : Nat → Nat → Int)
    (h : ∀ i, i < CONFIG_KNOB_NUMBER → ∀ c, c < 3 → 0 ≤ pa i c ∧ pa i c ≤ 63) (p : Nat) :
    (knob_get_mask pa).testBit p
      = decide (p ∈ [(pa 0 0).toNat, (pa 0 1).toNat, (pa 0 2).toNat, (pa 1 0).toNat,
          (pa 1 1).toNat, (pa 1 2).toNat]) := by
  have h00 := h 0 (by decide) 0 (by decide)
  have h01 := h 0 (by decide) 1 (by decide)
  have h02 := h 0 (by decide) 2 (by decide)
  have h10 := h 1 (by decide) 0 (by decide)
  have h11 := h 1 (by decide) 1 (by decide)
  have h12 := h 1 (by decide) 2 (by decide)
  rw [knob_get_mask_eq]
  simp only [Nat.testBit_lor, Nat.zero_testBit, Bool.false_or,
    one_shl64_testBit _ h00.1 h00.2, one_shl64_testBit _ h01.1 h01.2,
    one_shl64_testBit _ h02.1 h02.2, one_shl64_testBit _ h10.1 h10.2,
    one_shl64_testBit _ h11.1 h11.2, one_shl64_testBit _ h12.1 h12.2]
  simp only [List.mem_cons, List.mem_singleton, List.not_mem_nil, or_false, Bool.decide_or,
    Bool.or_assoc, eq_comm]

theorem knob_get_mask_lt (pa : Nat → Nat → Int) : knob_get_mask pa < 2 ^ 64 := by
  rw [knob_get_mask_eq]
  have hlt : ∀ n : Int, one_shl64 n < 2 ^ 64 := fun n => Nat.mod_lt _ (by decide)
  exact Nat.or_lt_two_pow (Nat.or_lt_two_pow (Nat.or_lt_two_pow (Nat.or_lt_two_pow
    (Nat.or_lt_two_pow (Nat.or_lt_two_pow (by norm_num) (hlt _)) (hlt _)) (hlt _)) (hlt _))
    (hlt _)) (hlt _)

theorem countP_mem_range (l : List Nat) (n : Nat) (hl : l.Nodup) (hn : ∀ x ∈ l, x < n) :
    (List.range n).countP (fun i => decide (i ∈ l)) = l.length := by
  rw [List.countP_eq_length_filter]
  apply List.Perm.length_eq
  rw [List.perm_ext_iff_of_nodup ((List.nodup_range n).filter _) hl]
  intro a
  simp only [List.mem_filter, List.mem_range, decide_eq_true_eq]
  exact ⟨fun h => h.2, fun h => ⟨hn a h, h⟩⟩

theorem pin_arr_range (i : Nat) (hi : i < CONFIG_KNOB_NUMBER) (c : Nat) (hc : c < 3) :
    0 ≤ pin_arr i c ∧ pin_arr i c ≤ 63 := by
  have hi' : i = 0 ∨ i = 1 := by
    unfold CONFIG_KNOB_NUMBER at hi
    omega
  have hc' : c = 0 ∨ c = 1 ∨ c = 2 := by omega
  rcases hi' with rfl | rfl <;> rcases hc' with rfl | rfl | rfl <;> decide

theorem pin_arr_distinct (i i' c c' : Nat) (hi : i < CONFIG_KNOB_NUMBER)
    (hi' : i' < CONFIG_KNOB_NUMBER) (hc : c < 3) (hc' : c' < 3)
    (h : pin_arr i c = pin_arr i' c') : i = i' ∧ c = c' := by
  have hi1 : i = 0 ∨ i = 1 := by
    unfold CONFIG_KNOB_NUMBER at hi
    omega
  have hi2 : i' = 0 ∨ i' = 1 := by
    unfold CONFIG_KNOB_NUMBER at hi'
    omega
  have hc1 : c = 0 ∨ c = 1 ∨ c = 2 := by omega
  have hc2 : c' = 0 ∨ c' = 1 ∨ c' = 2 := by omega
  revert h
  rcases hi1 with rfl | rfl <;> rcases hi2 with rfl | rfl <;>
    rcases hc1 with rfl | rfl | rfl <;> rcases hc2 with rfl | rfl | rfl <;> decide

/-! ## Rounding inside a binade -/

theorem round_half_even_add_lt (f : ℤ) (r : ℚ) (h0 : 0 ≤ r) (h1 : r < 1 / 2) :
    round_half_even ((f : ℚ) + r) = f := by
  have hfl : ⌊(f : ℚ) + r⌋ = f := by
    rw [Int.floor_eq_iff]
    constructor <;> linarith
  unfold round_half_even
  simp only [hfl, add_sub_cancel_left]
  rw [if_pos h1]

theorem round_half_even_add_gt (f : ℤ) (r : ℚ) (h0 : 1 / 2 < r) (h1 : r < 1) :
    round_half_even ((f : ℚ) + r) = f + 1 := by
  have hfl : ⌊(f : ℚ) + r⌋ = f := by
    rw [Int.floor_eq_iff]
    constructor <;> linarith
  unfold round_half_even
  simp only [hfl, add_sub_cancel_left]
  rw [if_neg (not_lt.mpr (le_of_lt h0)), if_pos h0]

theorem round_half_even_add_half (f : ℤ) :
    round_half_even ((f : ℚ) + 1 / 2) = if f % 2 = 0 then f else f + 1 := by
  have hfl : ⌊(f : ℚ) + 1 / 2⌋ = f := by
    rw [Int.floor_eq_iff]
    constructor <;> linarith
  unfold round_half_even
  simp only [hfl, add_sub_cancel_left]
  rw [if_neg (lt_irrefl _), if_neg (lt_irrefl _)]

/-- Conversion to `float` of a positive number of the binade `[2 ^ e, 2 ^ (e + 1))`:
rounding to a multiple of `2 ^ (e - 23)`. -/
theorem to_float_binade (x : ℚ) (e : ℤ) (he : -126 ≤ e) (h1 : (2 : ℚ) ^ e ≤ x)
    (h2 : x < (2 : ℚ) ^ (e + 1)) :
    to_float x = (round_half_even (x / (2 : ℚ) ^ (e - 23)) : ℚ) * (2 : ℚ) ^ (e - 23) := by
  have hpos : (0 : ℚ) < x := lt_of_lt_of_le (zpow_pos (by norm_num) e) h1
  have hlog : Int.log 2 |x| = e := by
    rw [abs_of_pos hpos]
    exact int_log_two_eq x e h1 h2
  have hu : ulp_exp 24 (-149) x = e - 23 := by
    unfold ulp_exp
    rw [hlog]
    push_cast
    rw [max_eq_left (by omega)]
  unfold to_float fp_round
  rw [hu]

/-- The sum or difference of an integer below `2 ^ 51` in size and 2.5 is a
`double`. -/
theorem to_double_half (m : ℤ) (hm : |m| < 2 ^ 53) :
    to_double ((m : ℚ) / 2) = (m : ℚ) / 2 := by
  have hv : (m : ℚ) / 2 = (m : ℚ) * (2 : ℚ) ^ (-1 : ℤ) := by
    rw [zpow_neg_one]
    ring
  unfold to_double
  rw [hv, fp_round_exact 53 (-1074) m (-1) hm (by norm_num)]

/-! ## The steps of the accumulator above `2 ^ 23` -/

theorem counter_add_step_int (K : ℤ) (hK : |K| < 2 ^ 50) :
    counter_add_step (K : ℚ) = to_float ((K : ℚ) + 5 / 2) := by
  have hb := abs_lt.mp hK
  have hm : |2 * K + 5| < 2 ^ 53 := by
    rw [abs_lt]
    constructor <;> omega
  have hv : (K : ℚ) + 5 / 2 = ((2 * K + 5 : ℤ) : ℚ) / 2 := by
    push_cast
    ring
  unfold counter_add_step CONFIG_KNOB_STEP
  rw [hv, to_double_half _ hm]

theorem counter_sub_step_int (K : ℤ) (hK : |K| < 2 ^ 50) :
    counter_sub_step (K : ℚ) = to_float ((K : ℚ) - 5 / 2) := by
  have hb := abs_lt.mp hK
  have hm : |2 * K - 5| < 2 ^ 53 := by
    rw [abs_lt]
    constructor <;> omega
  have hv : (K : ℚ) - 5 / 2 = ((2 * K - 5 : ℤ) : ℚ) / 2 := by
    push_cast
    ring
  unfold counter_sub_step CONFIG_KNOB_STEP
  rw [hv, to_double_half _ hm]

/-- Between `2 ^ 23` and `2 ^ 24` floats are the integers: on an even integer
adding 2.5 falls half-way and goes to the even neighbour. -/
theorem counter_add_step_ulp_one (K : ℤ) (hev : K % 2 = 0) (h1 : 8388606 ≤ K)
    (h2 : K ≤ 16777213) : counter_add_step (K : ℚ) = ((K + 2 : ℤ) : ℚ) := by
  have hb1 : (2 : ℚ) ^ (23 : ℤ) ≤ (K : ℚ) + 5 / 2 := by
    have : ((8388606 : ℤ) : ℚ) ≤ (K : ℚ) := Int.cast_le.mpr h1
    norm_num at this ⊢
    linarith
  have hb2 : (K : ℚ) + 5 / 2 < (2 : ℚ) ^ ((23 : ℤ) + 1) := by
    have : (K : ℚ) ≤ ((16777213 : ℤ) : ℚ) := Int.cast_le.mpr h2
    norm_num at this ⊢
    linarith
  rw [counter_add_step_int K (by rw [abs_lt]; constructor <;> omega),
    to_float_binade _ 23 (by norm_num) hb1 hb2]
  have hx : ((K : ℚ) + 5 / 2) / (2 : ℚ) ^ ((23 : ℤ) - 23) = ((K + 2 : ℤ) : ℚ) + 1 / 2 := by
    push_cast
    norm_num
    ring
  rw [hx, round_half_even_add_half, if_pos (by omega)]
  norm_num

theorem counter_sub_step_ulp_one (K : ℤ) (hev : K % 2 = 0) (h1 : 8388612 ≤ K)
    (h2 : K ≤ 16777218) : counter_sub_step (K : ℚ) = ((K - 2 : ℤ) : ℚ) := by
  have hb1 : (2 : ℚ) ^ (23 : ℤ) ≤ (K : ℚ) - 5 / 2 := by
    have : ((8388612 : ℤ) : ℚ) ≤ (K : ℚ) := Int.cast_le.mpr h1
    norm_num at this ⊢
    linarith
  have hb2 : (K : ℚ) - 5 / 2 < (2 : ℚ) ^ ((23 : ℤ) + 1) := by
    have : (K : ℚ) ≤ ((16777218 : ℤ) : ℚ) := Int.cast_le.mpr h2
    norm_num at this ⊢
    linarith
  rw [counter_sub_step_int K (by rw [abs_lt]; constructor <;> omega),
    to_float_binade _ 23 (by norm_num) hb1 hb2]
  have hx : ((K : ℚ) - 5 / 2) / (2 : ℚ) ^ ((23 : ℤ) - 23) = ((K - 3 : ℤ) : ℚ) + 1 / 2 := by
    push_cast
    norm_num
    ring
  rw [hx, round_half_even_add_half, if_neg (by omega)]
  push_cast
  norm_num
  ring

/-- Between `2 ^ 24` and `2 ^ 25` floats are the even integers. -/
theorem counter_add_step_ulp_two (j : ℤ) (h1 : 8388607 ≤ j) (h2 : j ≤ 16777214) :
    counter_add_step ((2 * j : ℤ) : ℚ) = ((2 * j + 2 : ℤ) : ℚ) := by
  have hb1 : (2 : ℚ) ^ (24 : ℤ) ≤ ((2 * j : ℤ) : ℚ) + 5 / 2 := by
    have : ((8388607 : ℤ) : ℚ) ≤ (j : ℚ) := Int.cast_le.mpr h1
    push_cast
    norm_num at this ⊢
    linarith
  have hb2 : ((2 * j : ℤ) : ℚ) + 5 / 2 < (2 : ℚ) ^ ((24 : ℤ) + 1) := by
    have : (j : ℚ) ≤ ((16777214 : ℤ) : ℚ) := Int.cast_le.mpr h2
    push_cast
    norm_num at this ⊢
    linarith
  rw [counter_add_step_int _ (by rw [abs_lt]; constructor <;> omega),
    to_float_binade _ 24 (by norm_num) hb1 hb2]
  have hx : (((2 * j : ℤ) : ℚ) + 5 / 2) / (2 : ℚ) ^ ((24 : ℤ) - 23)
      = ((j + 1 : ℤ) : ℚ) + 1 / 4 := by
    push_cast
    norm_num
    ring
  rw [hx, round_half_even_add_lt _ _ (by norm_num) (by norm_num)]
  push_cast
  norm_num
  ring

theorem counter_sub_step_ulp_two (j : ℤ) (h1 : 8388610 ≤ j) (h2 : j ≤ 16777217) :
    counter_sub_step ((2 * j : ℤ) : ℚ) = ((2 * j - 2 : ℤ) : ℚ) := by
  have hb1 : (2 : ℚ) ^ (24 : ℤ) ≤ ((2 * j : ℤ) : ℚ) - 5 / 2 := by
    have : ((8388610 : ℤ) : ℚ) ≤ (j : ℚ) := Int.cast_le.mpr h1
    push_cast
    norm_num at this ⊢
    linarith
  have hb2 : ((2 * j : ℤ) : ℚ) - 5 / 2 < (2 : ℚ) ^ ((24 : ℤ) + 1) := by
    have : (j : ℚ) ≤ ((16777217 : ℤ) : ℚ) := Int.cast_le.mpr h2
    push_cast
    norm_num at this ⊢
    linarith
  rw [counter_sub_step_int _ (by rw [abs_lt]; constructor <;> omega),
    to_float_binade _ 24 (by norm_num) hb1 hb2]
  have hx : (((2 * j : ℤ) : ℚ) - 5 / 2) / (2 : ℚ) ^ ((24 : ℤ) - 23)
      = ((j - 2 : ℤ) : ℚ) + 3 / 4 := by
    push_cast
    norm_num
    ring
  rw [hx, round_half_even_add_gt _ _ (by norm_num) (by norm_num)]
  push_cast
  norm_num
  ring

/-- Adding 2.5 to `33554430` crosses `2 ^ 25`, where floats are the multiples
of 4: the result is `2 ^ 25`. -/
theorem counter_add_step_33554430 : counter_add_step 33554430 = 33554432 := by
  have h := counter_add_step_int 33554430 (by norm_num)
  have hb1 : (2 : ℚ) ^ (25 : ℤ) ≤ ((33554430 : ℤ) : ℚ) + 5 / 2 := by norm_num
  have hb2 : ((33554430 : ℤ) : ℚ) + 5 / 2 < (2 : ℚ) ^ ((25 : ℤ) + 1) := by norm_num
  rw [to_float_binade _ 25 (by norm_num) hb1 hb2] at h
  have hx : (((33554430 : ℤ) : ℚ) + 5 / 2) / (2 : ℚ) ^ ((25 : ℤ) - 23)
      = ((8388608 : ℤ) : ℚ) + 1 / 8 := by norm_num
  rw [hx, round_half_even_add_lt _ _ (by norm_num) (by norm_num)] at h
  norm_num at h
  exact h

/-- Between `2 ^ 25` and `2 ^ 26` floats are the multiples of 4. -/
theorem counter_add_step_ulp_four (j : ℤ) (h1 : 8388608 ≤ j) (h2 : j ≤ 16777215) :
    counter_add_step ((4 * j : ℤ) : ℚ) = ((4 * j + 4 : ℤ) : ℚ) := by
  have hb1 : (2 : ℚ) ^ (25 : ℤ) ≤ ((4 * j : ℤ) : ℚ) + 5 / 2 := by
    have : ((8388608 : ℤ) : ℚ) ≤ (j : ℚ) := Int.cast_le.mpr h1
    push_cast
    norm_num at this ⊢
    linarith
  have hb2 : ((4 * j : ℤ) : ℚ) + 5 / 2 < (2 : ℚ) ^ ((25 : ℤ) + 1) := by
    have : (j : ℚ) ≤ ((16777215 : ℤ) : ℚ) := Int.cast_le.mpr h2
    push_cast
    norm_num at this ⊢
    linarith
  rw [counter_add_step_int _ (by rw [abs_lt]; constructor <;> omega),
    to_float_binade _ 25 (by norm_num) hb1 hb2]
  have hx : (((4 * j : ℤ) : ℚ) + 5 / 2) / (2 : ℚ) ^ ((25 : ℤ) - 23)
      = ((j : ℤ) : ℚ) + 5 / 8 := by
    push_cast
    norm_num
    ring
  rw [hx, round_half_even_add_gt _ _ (by norm_num) (by norm_num)]
  push_cast
  norm_num
  ring

theorem counter_sub_step_ulp_four (j : ℤ) (h1 : 8388609 ≤ j) (h2 : j ≤ 16777216) :
    counter_sub_step ((4 * j : ℤ) : ℚ) = ((4 * j - 4 : ℤ) : ℚ) := by
  have hb1 : (2 : ℚ) ^ (25 : ℤ) ≤ ((4 * j : ℤ) : ℚ) - 5 / 2 := by
    have : ((8388609 : ℤ) : ℚ) ≤ (j : ℚ) := Int.cast_le.mpr h1
    push_cast
    norm_num at this ⊢
    linarith
  have hb2 : ((4 * j : ℤ) : ℚ) - 5 / 2 < (2 : ℚ) ^ ((25 : ℤ) + 1) := by
    have : (j : ℚ) ≤ ((16777216 : ℤ) : ℚ) := Int.cast_le.mpr h2
    push_cast
    norm_num at this ⊢
    linarith
  rw [counter_sub_step_int _ (by rw [abs_lt]; constructor <;> omega),
    to_float_binade _ 25 (by norm_num) hb1 hb2]
  have hx : (((4 * j : ℤ) : ℚ) - 5 / 2) / (2 : ℚ) ^ ((25 : ℤ) - 23)
      = ((j - 1 : ℤ) : ℚ) + 3 / 8 := by
    push_cast
    norm_num
    ring
  rw [hx, round_half_even_add_lt _ _ (by norm_num) (by norm_num)]
  push_cast
  norm_num
  ring

/-- At `2 ^ 26` floats are the multiples of 8 and adding 2.5 changes nothing:
the accumulator sticks. -/
theorem counter_add_step_67108864 : counter_add_step 67108864 = 67108864 := by
  have h := counter_add_step_int 67108864 (by norm_num)
  have hb1 : (2 : ℚ) ^ (26 : ℤ) ≤ ((67108864 : ℤ) : ℚ) + 5 / 2 := by norm_num
  have hb2 : ((67108864 : ℤ) : ℚ) + 5 / 2 < (2 : ℚ) ^ ((26 : ℤ) + 1) := by norm_num
  rw [to_float_binade _ 26 (by norm_num) hb1 hb2] at h
  have hx : (((67108864 : ℤ) : ℚ) + 5 / 2) / (2 : ℚ) ^ ((26 : ℤ) - 23)
      = ((8388608 : ℤ) : ℚ) + 5 / 16 := by norm_num
  rw [hx, round_half_even_add_lt _ _ (by norm_num) (by norm_num)] at h
  norm_num at h
  exact h

/-! ## The chain of values of the accumulator -/

theorem chain_value_add (n : Nat) (h : n < COUNTER_TOP) :
    counter_add_step (chain_value n) = chain_value (n + 1) := by
  unfold COUNTER_TOP at h
  unfold chain_value
  by_cases h1 : n < 3355444
  · rw [if_pos (by omega), if_pos (by omega)]
    have := counter_add_step_exact (n : ℤ) (by rw [abs_le]; constructor <;> omega)
    push_cast at this ⊢
    exact this
  · by_cases h2 : n = 3355444
    · subst h2
      rw [if_pos (le_refl _), if_neg (by omega), if_pos (by omega)]
      have := counter_add_step_8388610
      norm_num at this ⊢
      exact this
    · by_cases h3 : n ≤ 7549745
      · rw [if_neg (by omega), if_pos (by omega), if_neg (by omega), if_pos (by omega),
          counter_add_step_ulp_one _ (by omega) (by omega) (by omega)]
        push_cast
        ring
      · by_cases h4 : n ≤ 15938353
        · rw [if_neg (by omega), if_pos (by omega), if_neg (by omega), if_pos (by omega)]
          have e : (8388610 + 2 * ((n : ℤ) - 3355444)) = 2 * ((n : ℤ) + 838861) := by ring
          rw [e, counter_add_step_ulp_two _ (by omega) (by omega)]
          push_cast
          ring
        · by_cases h5 : n = 15938354
          · subst h5
            rw [if_neg (by omega), if_pos (by omega), if_neg (by omega), if_pos (by omega)]
            have := counter_add_step_33554430
            norm_num at this ⊢
            exact this
          · by_cases h6 : n = 15938355
            · subst h6
              rw [if_neg (by omega), if_pos (by omega), if_neg (by omega), if_neg (by omega)]
              have := counter_add_step_ulp_four 8388608 (by norm_num) (by norm_num)
              norm_num at this ⊢
              exact this
            · rw [if_neg (by omega), if_neg (by omega), if_neg (by omega), if_neg (by omega)]
              have e : (33554432 + 4 * ((n : ℤ) - 15938355)) = 4 * ((n : ℤ) - 7549747) := by
                ring
              rw [e, counter_add_step_ulp_four _ (by omega) (by omega)]
              push_cast
              ring

theorem chain_value_top : counter_add_step (chain_value COUNTER_TOP) = chain_value COUNTER_TOP := by
  have e : chain_value COUNTER_TOP = 67108864 := by
    unfold chain_value COUNTER_TOP
    norm_num
  rw [e, counter_add_step_67108864]

theorem chain_value_sub (n : Nat) (h : n < COUNTER_TOP) :
    counter_sub_step (chain_value (n + 1)) = chain_value n := by
  unfold COUNTER_TOP at h
  unfold chain_value
  by_cases h1 : n < 3355444
  · rw [if_pos (by omega), if_pos (by omega)]
    have := counter_sub_step_exact ((n : ℤ) + 1) (by rw [abs_le]; constructor <;> omega)
    push_cast at this ⊢
    rw [this]
    ring
  · by_cases h2 : n = 3355444
    · subst h2
      rw [if_neg (by omega), if_pos (by omega), if_pos (le_refl _)]
      have := counter_sub_step_ulp_one 8388612 (by norm_num) (by norm_num) (by norm_num)
      norm_num at this ⊢
      exact this
    · by_cases h3 : n ≤ 7549747
      · rw [if_neg (by omega), if_pos (by omega), if_neg (by omega), if_pos (by omega),
          counter_sub_step_ulp_one _ (by omega) (by omega) (by omega)]
        push_cast
        ring
      · by_cases h4 : n ≤ 15938354
        · rw [if_neg (by omega), if_pos (by omega), if_neg (by omega), if_pos (by omega)]
          have e : (8388610 + 2 * (((n + 1 : ℕ) : ℤ) - 3355444)) = 2 * ((n : ℤ) + 838862) := by
            push_cast
            ring
          rw [e, counter_sub_step_ulp_two _ (by omega) (by omega)]
          push_cast
          ring
        · by_cases h5 : n = 15938355
          · subst h5
            rw [if_neg (by omega), if_neg (by omega), if_neg (by omega), if_pos (by omega)]
            have := counter_sub_step_ulp_four 8388609 (by norm_num) (by norm_num)
            norm_num at this ⊢
            exact this
          · rw [if_neg (by omega), if_neg (by omega), if_neg (by omega), if_neg (by omega)]
            have e : (33554432 + 4 * (((n + 1 : ℕ) : ℤ) - 15938355))
                = 4 * ((n : ℤ) - 7549746) := by
              push_cast
              ring
            rw [e, counter_sub_step_ulp_four _ (by omega) (by omega)]
            push_cast
            ring

/-! ## Symmetry of the rounding -/

theorem round_half_even_neg (x : ℚ) : round_half_even (-x) = -round_half_even x := by
  have hx : x = ((⌊x⌋ : ℤ) : ℚ) + (x - ⌊x⌋) := by ring
  have h0 : 0 ≤ x - ⌊x⌋ := sub_nonneg.mpr (Int.floor_le x)
  have h1 : x - ⌊x⌋ < 1 := by
    have := Int.lt_floor_add_one x
    linarith
  generalize (x - ⌊x⌋ : ℚ) = r at hx h0 h1
  generalize ⌊x⌋ = f at hx
  subst hx
  rcases eq_or_lt_of_le h0 with hr0 | hr0
  · rw [← hr0, add_zero, round_half_even_intCast]
    have : -(f : ℚ) = ((-f : ℤ) : ℚ) := by push_cast; ring
    rw [this, round_half_even_intCast]
  · have hn : -((f : ℚ) + r) = ((-f - 1 : ℤ) : ℚ) + (1 - r) := by
      push_cast
      ring
    rw [hn]
    rcases lt_trichotomy r (1 / 2) with hlt | heq | hgt
    · rw [round_half_even_add_lt f r h0 hlt,
        round_half_even_add_gt _ _ (by linarith) (by linarith)]
      ring
    · subst heq
      have e : (1 : ℚ) - 1 / 2 = 1 / 2 := by norm_num
      rw [e, round_half_even_add_half, round_half_even_add_half]
      by_cases hf : f % 2 = 0
      · rw [if_pos hf, if_neg (by omega)]
        ring
      · rw [if_neg hf, if_pos (by omega)]
        ring
    · rw [round_half_even_add_gt f r hgt h1,
        round_half_even_add_lt _ _ (by linarith) (by linarith)]
      ring

theorem fp_round_neg (prec : Nat) (emin : ℤ) (x : ℚ) :
    fp_round prec emin (-x) = -fp_round prec emin x := by
  have hu : ulp_exp prec emin (-x) = ulp_exp prec emin x := by
    unfold ulp_exp
    rw [abs_neg]
  unfold fp_round
  rw [hu, neg_div, round_half_even_neg]
  push_cast
  ring

theorem counter_add_step_neg (c : ℚ) : counter_add_step (-c) = -counter_sub_step c := by
  unfold counter_add_step counter_sub_step to_float to_double
  have e : -c + CONFIG_KNOB_STEP = -(c - CONFIG_KNOB_STEP) := by ring
  rw [e, fp_round_neg, fp_round_neg]

theorem counter_sub_step_neg (c : ℚ) : counter_sub_step (-c) = -counter_add_step c := by
  unfold counter_add_step counter_sub_step to_float to_double
  have e : -c - CONFIG_KNOB_STEP = -(c + CONFIG_KNOB_STEP) := by ring
  rw [e, fp_round_neg, fp_round_neg]

/-! ## Net increases and the value of the accumulator -/

theorem chain_value_zero : chain_value 0 = 0 := by
  unfold chain_value
  simp

theorem counter_at_add (n : ℤ) (h1 : -(COUNTER_TOP : ℤ) ≤ n) (h2 : n < (COUNTER_TOP : ℤ)) :
    counter_add_step (counter_at n) = counter_at (n + 1) := by
  unfold counter_at
  by_cases h0 : 0 ≤ n
  · rw [if_pos h0, if_pos (by omega), chain_value_add _ (by omega)]
    congr 1
    omega
  · rw [if_neg h0, counter_add_step_neg]
    obtain ⟨m, hm⟩ : ∃ m : ℕ, (-n).toNat = m + 1 := ⟨(-n).toNat - 1, by omega⟩
    rw [hm, chain_value_sub m (by omega)]
    by_cases h3 : 0 ≤ n + 1
    · rw [if_pos h3]
      have e1 : m = 0 := by omega
      have e2 : (n + 1).toNat = 0 := by omega
      rw [e1, e2, chain_value_zero]
      norm_num
    · rw [if_neg h3]
      congr 2
      omega

theorem counter_at_sub (n : ℤ) (h1 : -(COUNTER_TOP : ℤ) < n) (h2 : n ≤ (COUNTER_TOP : ℤ)) :
    counter_sub_step (counter_at n) = counter_at (n - 1) := by
  unfold counter_at
  by_cases h0 : 0 < n
  · obtain ⟨m, hm⟩ : ∃ m : ℕ, n.toNat = m + 1 := ⟨n.toNat - 1, by omega⟩
    rw [if_pos (by omega), if_pos (by omega), hm, chain_value_sub m (by omega)]
    congr 1
    omega
  · by_cases h3 : n = 0
    · subst h3
      rw [if_pos (le_refl _), if_neg (by omega)]
      have e1 : (0 : ℤ).toNat = 0 := rfl
      have e2 : (-((0 : ℤ) - 1)).toNat = 0 + 1 := rfl
      rw [e1, e2, chain_value_zero, ← chain_value_add 0 (by decide), chain_value_zero]
      have := counter_sub_step_neg 0
      rw [neg_zero] at this
      exact this
    · rw [if_neg (by omega), if_neg (by omega), counter_sub_step_neg,
        chain_value_add _ (by omega)]
      congr 2
      omega

theorem counter_at_top :
    counter_add_step (counter_at (COUNTER_TOP : ℤ)) = counter_at (COUNTER_TOP : ℤ) := by
  unfold counter_at
  rw [if_pos (by omega), Int.toNat_ofNat, chain_value_top]

theorem counter_at_zero : counter_at 0 = INIT_VOLUME := by
  unfold counter_at INIT_VOLUME
  rw [if_pos (le_refl _)]
  exact chain_value_zero

theorem replay_directions_append (xs ys : List Bool) (c : ℚ) :
    replay_directions (xs ++ ys) c = replay_directions ys (replay_directions xs c) := by
  induction xs generalizing c with
  | nil => rfl
  | cons x xs ih => cases x <;> simp [replay_directions, ih]

/-- A walk of the accumulator followed by the opposite steps in the opposite
order comes back to where it started, as long as it stays below the top. -/
theorem replay_directions_cancel (ds : List Bool) (n : ℤ)
    (h : |n| + (ds.length : ℤ) ≤ (COUNTER_TOP : ℤ)) :
    replay_directions (ds ++ (ds.map not).reverse) (counter_at n) = counter_at n := by
  induction ds generalizing n with
  | nil => rfl
  | cons d ds ih =>
    have hl : ((d :: ds).length : ℤ) = (ds.length : ℤ) + 1 := by
      rw [List.length_cons]
      push_cast
      ring
    rw [hl] at h
    have hn := abs_le.mp (show |n| ≤ (COUNTER_TOP : ℤ) - (ds.length : ℤ) - 1 by omega)
    have hlen : (0 : ℤ) ≤ (ds.length : ℤ) := Int.natCast_nonneg _
    rw [List.map_cons, List.reverse_cons, List.cons_append, ← List.append_assoc]
    cases d with
    | true =>
      have hs : |n + 1| + (ds.length : ℤ) ≤ (COUNTER_TOP : ℤ) := by
        have := abs_add n 1
        simp only [abs_one] at this
        omega
      simp only [replay_directions, Bool.not_true]
      rw [counter_at_add n (by omega) (by omega), replay_directions_append, ih (n + 1) hs]
      simp only [replay_directions]
      rw [counter_at_sub (n + 1) (by omega) (by omega)]
      congr 1
      ring
    | false =>
      have hs : |n - 1| + (ds.length : ℤ) ≤ (COUNTER_TOP : ℤ) := by
        have := abs_sub n 1
        simp only [abs_one] at this
        omega
      simp only [replay_directions, Bool.not_false]
      rw [counter_at_sub n (by omega) (by omega), replay_directions_append, ih (n - 1) hs]
      simp only [replay_directions]
      rw [counter_at_add (n - 1) (by omega) (by omega)]
      congr 1
      ring

/-! ## Walks and their reversal -/

theorem run_directions_walk (dc j : Nat) (hj : j < CONFIG_KNOB_NUMBER) (gs : List Gpio)
    (st : KnobTable × TaskState) (gp : Gpio) (h : Synced st.1 gp) :
    directions j (run dc st gs).2.out = directions j st.2.out ++ walk_edges j gp gs := by
  induction gs generalizing st gp with
  | nil => simp [run_nil, walk_edges]
  | cons g gs ih =>
    rw [run_cons, ih (tick dc st g) g (tick_synced dc st gp g h),
      tick_directions dc st gp g h j hj, List.append_assoc]
    rfl

theorem next_counter_eq_replay (gp g : Gpio) (i : Nat) (c : ℚ) :
    next_counter gp g i c = replay_directions (edge i gp g) c := by
  unfold next_counter edge
  cases gp (pin_arr i 2) <;> cases g (pin_arr i 2) <;> cases gp (pin_arr i 1) <;>
    simp [replay_directions]

theorem edge_of_clock_eq (i : Nat) (gp g : Gpio) (h : g (pin_arr i 2) = gp (pin_arr i 2)) :
    edge i gp g = [] := by
  unfold edge
  rw [h]
  simp

/-- With the clock of the other knob idle, the accumulator follows the
directions decided for knob `j`. -/
theorem run_counter_single (dc j : Nat) (hj : j < CONFIG_KNOB_NUMBER) (gs : List Gpio)
    (st : KnobTable × TaskState) (gp : Gpio) (h : Synced st.1 gp)
    (hidle : ∀ i, i < CONFIG_KNOB_NUMBER → i ≠ j → clock_idle i gp gs) :
    (run dc st gs).2.counter = replay_directions (walk_edges j gp gs) st.2.counter := by
  induction gs generalizing st gp with
  | nil => rfl
  | cons g gs ih =>
    have hidle' : ∀ i, i < CONFIG_KNOB_NUMBER → i ≠ j → clock_idle i g gs := by
      intro i hi hne g' hg'
      rw [hidle i hi hne g' (List.mem_cons_of_mem g hg'),
        hidle i hi hne g (List.mem_cons_self g gs)]
    have hstep : (tick dc st g).2.counter = replay_directions (edge j gp g) st.2.counter := by
      rw [tick_counter dc st gp g h, next_counter_eq_replay, next_counter_eq_replay]
      have hj' : j = 0 ∨ j = 1 := by
        unfold CONFIG_KNOB_NUMBER at hj
        omega
      rcases hj' with rfl | rfl
      · rw [edge_of_clock_eq 1 gp g (hidle 1 (by decide) (by decide) g
          (List.mem_cons_self g gs))]
        rfl
      · rw [edge_of_clock_eq 0 gp g (hidle 0 (by decide) (by decide) g
          (List.mem_cons_self g gs))]
        rfl
    have hw : walk_edges j gp (g :: gs) = edge j gp g ++ walk_edges j g gs := rfl
    rw [run_cons, ih (tick dc st g) g (tick_synced dc st gp g h) hidle', hstep, hw,
      replay_directions_append]

theorem last_two_cons (gp g : Gpio) (gs : List Gpio) :
    (last_two gp (g :: gs)).2 = (last_two g gs).2 := by
  cases gs with
  | nil => rfl
  | cons g' gs => rfl

theorem last_two_append_singleton (gp g : Gpio) (gs : List Gpio) :
    (last_two gp (gs ++ [g])).2 = g := by
  induction gs generalizing gp with
  | nil => rfl
  | cons g' gs ih => rw [List.cons_append, last_two_cons, ih]

theorem walk_edges_append (j : Nat) (gp : Gpio) (xs ys : List Gpio) :
    walk_edges j gp (xs ++ ys)
      = walk_edges j gp xs ++ walk_edges j (last_two gp xs).2 ys := by
  induction xs generalizing gp with
  | nil => rfl
  | cons x xs ih =>
    rw [List.cons_append, walk_edges, walk_edges, ih, last_two_cons, List.append_assoc]

theorem edge_self (j : Nat) (g : Gpio) : edge j g g = [] := edge_of_clock_eq j g g rfl

theorem edge_reverse (j : Nat) (gp g : Gpio) (h : gray j gp g) :
    edge j g gp = (edge j gp g).map not := by
  unfold gray at h
  unfold edge
  revert h
  cases gp (pin_arr j 2) <;> cases g (pin_arr j 2) <;> cases gp (pin_arr j 1) <;>
    cases g (pin_arr j 1) <;> simp

theorem edge_length_le (j : Nat) (gp g : Gpio) : (edge j gp g).length ≤ 1 := by
  unfold edge
  split <;> simp

theorem reverse_of_length_le_one (l : List Bool) (h : l.length ≤ 1) : l.reverse = l := by
  match l, h with
  | [], _ => rfl
  | [_], _ => rfl

/-- On a walk that changes one line at a time, the way back decides the
opposite directions in the opposite order. -/
theorem walk_edges_reverse (j : Nat) (gp : Gpio) (w : List Gpio) (h : gray_walk j gp w) :
    walk_edges j (last_two gp w).2 ((gp :: w).reverse)
      = ((walk_edges j gp w).map not).reverse := by
  induction w generalizing gp with
  | nil =>
    show walk_edges j gp [gp] = _
    simp [walk_edges, edge_self]
  | cons g w ih =>
    obtain ⟨hg, hw⟩ := h
    have hrev : (gp :: g :: w).reverse = (g :: w).reverse ++ [gp] := List.reverse_cons _ _
    have hlast : (last_two (last_two g w).2 ((g :: w).reverse)).2 = g := by
      rw [List.reverse_cons, last_two_append_singleton]
    rw [hrev, last_two_cons, walk_edges_append, ih g hw, hlast]
    show _ ++ (edge j g gp ++ []) = ((edge j gp g ++ walk_edges j g w).map not).reverse
    rw [List.append_nil, edge_reverse j gp g hg, List.map_append, List.reverse_append,
      reverse_of_length_le_one ((edge j gp g).map not)
        (by rw [List.length_map]; exact edge_length_le j gp g)]

theorem clock_idle_reverse (i : Nat) (gp : Gpio) (w : List Gpio) (h : clock_idle i gp w) :
    clock_idle i gp (w ++ (gp :: w).reverse) := by
  intro g hg
  rw [List.mem_append, List.mem_reverse, List.mem_cons] at hg
  rcases hg with hg | hg | hg
  · exact h g hg
  · rw [hg]
  · exact h g hg

/-! ## The steady rotation as a walk -/

theorem knob_task_directions (dc : Nat) (mem : KnobTable) (g0 : Gpio) (gs : List Gpio)
    (j : Nat) (hj : j < CONFIG_KNOB_NUMBER) :
    directions j (knob_task dc mem g0 gs).2.out = walk_edges j g0 gs := by
  unfold knob_task
  rw [run_directions_walk dc j hj gs _ g0 (synced_primed mem g0)]
  rfl

theorem knob_task_counter_single (dc : Nat) (mem : KnobTable) (g0 : Gpio) (gs : List Gpio)
    (j : Nat) (hj : j < CONFIG_KNOB_NUMBER)
    (hidle : ∀ i, i < CONFIG_KNOB_NUMBER → i ≠ j → clock_idle i g0 gs) :
    (knob_task dc mem g0 gs).2.counter = replay_directions (walk_edges j g0 gs) INIT_VOLUME := by
  unfold knob_task
  rw [run_counter_single dc j hj gs _ g0 (synced_primed mem g0) hidle]

theorem count_map_not (l : List Bool) :
    (l.map not).count true = l.count false ∧ (l.map not).count false = l.count true := by
  induction l with
  | nil => exact ⟨rfl, rfl⟩
  | cons b l ih => cases b <;> simp [List.count_cons, ih.1, ih.2]

theorem quadrature_cycle_walk :
    walk_edges 0 (knob0_levels true true) quadrature_cycle = [true, true] ∧
    gray_walk 0 (knob0_levels true true) quadrature_cycle ∧
    (last_two (knob0_levels true true) quadrature_cycle).2 = knob0_levels true true ∧
    clock_idle 1 (knob0_levels true true) quadrature_cycle := by
  refine ⟨?_, ?_, rfl, ?_⟩
  · simp [quadrature_cycle, walk_edges, edge, knob0_levels, pin_arr]
  · simp [quadrature_cycle, gray_walk, gray, knob0_levels, pin_arr]
  · intro g hg
    simp only [quadrature_cycle, List.mem_cons, List.mem_singleton, List.not_mem_nil,
      or_false] at hg
    rcases hg with rfl | rfl | rfl | rfl <;> rfl

theorem gray_walk_append (j : Nat) (gp : Gpio) (xs ys : List Gpio)
    (hx : gray_walk j gp xs) (hy : gray_walk j (last_two gp xs).2 ys) :
    gray_walk j gp (xs ++ ys) := by
  induction xs generalizing gp with
  | nil => exact hy
  | cons x xs ih =>
    obtain ⟨h1, h2⟩ := hx
    rw [last_two_cons] at hy
    exact ⟨h1, ih x h2 hy⟩

theorem last_two_append (gp : Gpio) (xs ys : List Gpio) :
    (last_two gp (xs ++ ys)).2 = (last_two (last_two gp xs).2 ys).2 := by
  induction xs generalizing gp with
  | nil => rfl
  | cons x xs ih => rw [List.cons_append, last_two_cons, last_two_cons, ih]

theorem quadrature_cycles_walk (n : Nat) :
    walk_edges 0 (knob0_levels true true) (quadrature_cycles n) = List.replicate (2 * n) true ∧
    gray_walk 0 (knob0_levels true true) (quadrature_cycles n) ∧
    (last_two (knob0_levels true true) (quadrature_cycles n)).2 = knob0_levels true true ∧
    clock_idle 1 (knob0_levels true true) (quadrature_cycles n) := by
  induction n with
  | zero => exact ⟨rfl, trivial, rfl, fun g hg => absurd hg (List.not_mem_nil g)⟩
  | succ n ih =>
    obtain ⟨a1, a2, a3, a4⟩ := quadrature_cycle_walk
    obtain ⟨b1, b2, b3, b4⟩ := ih
    have e : quadrature_cycles (n + 1) = quadrature_cycle ++ quadrature_cycles n := rfl
    rw [e]
    refine ⟨?_, ?_, ?_, ?_⟩
    · rw [walk_edges_append, a1, a3, b1, show 2 * (n + 1) = (2 * n + 1) + 1 from by ring,
        List.replicate_succ, List.replicate_succ]
      simp [List.replicate_succ']
    · exact gray_walk_append 0 _ _ _ a2 (by rw [a3]; exact b2)
    · rw [last_two_append, a3, b3]
    · intro g hg
      rw [List.mem_append] at hg
      rcases hg with hg | hg
      · exact a4 g hg
      · exact b4 g hg

/-! ## Past the top -/

theorem replay_replicate_true (m : Nat) (n : ℤ) (h1 : -(COUNTER_TOP : ℤ) ≤ n)
    (h2 : n + (m : ℤ) ≤ (COUNTER_TOP : ℤ)) :
    replay_directions (List.replicate m true) (counter_at n) = counter_at (n + (m : ℤ)) := by
  induction m generalizing n with
  | zero => simp [replay_directions]
  | succ m ih =>
    rw [List.replicate_succ]
    simp only [replay_directions]
    rw [counter_at_add n h1 (by push_cast at h2; omega),
      ih (n + 1) (by omega) (by push_cast at h2 ⊢; omega)]
    congr 1
    push_cast
    ring

theorem replay_replicate_false (m : Nat) (n : ℤ) (h1 : -(COUNTER_TOP : ℤ) ≤ n - (m : ℤ))
    (h2 : n ≤ (COUNTER_TOP : ℤ)) :
    replay_directions (List.replicate m false) (counter_at n) = counter_at (n - (m : ℤ)) := by
  induction m generalizing n with
  | zero => simp [replay_directions]
  | succ m ih =>
    rw [List.replicate_succ]
    simp only [replay_directions]
    rw [counter_at_sub n (by push_cast at h1; omega) h2,
      ih (n - 1) (by push_cast at h1 ⊢; omega) (by omega)]
    congr 1
    push_cast
    ring

/-- One increase too many is lost at the top, and the same number of decreases
then ends one step below the start. -/
theorem replay_overshoot :
    replay_directions
        (List.replicate (COUNTER_TOP + 1) true
          ++ ((List.replicate (COUNTER_TOP + 1) true).map not).reverse) (counter_at 0)
      = counter_at (-1) := by
  have hF : replay_directions (List.replicate (COUNTER_TOP + 1) true) (counter_at 0)
      = counter_at (COUNTER_TOP : ℤ) := by
    rw [List.replicate_succ', replay_directions_append,
      replay_replicate_true COUNTER_TOP 0 (by omega) (by omega), zero_add]
    exact counter_at_top
  have hB : ((List.replicate (COUNTER_TOP + 1) true).map not).reverse
      = List.replicate (COUNTER_TOP + 1) false := by
    rw [List.map_replicate, List.reverse_replicate, Bool.not_true]
  have e : (COUNTER_TOP : ℤ) - ((COUNTER_TOP + 1 : ℕ) : ℤ) = -1 := by
    push_cast
    ring
  have hlow : -(COUNTER_TOP : ℤ) ≤ (COUNTER_TOP : ℤ) - ((COUNTER_TOP + 1 : ℕ) : ℤ) := by
    rw [e]
    unfold COUNTER_TOP
    norm_num
  rw [replay_directions_append, hF, hB,
    replay_replicate_false (COUNTER_TOP + 1) (COUNTER_TOP : ℤ) hlow (le_refl _), e]

theorem counter_at_neg_one : counter_at (-1) = -(5 / 2) := by
  unfold counter_at
  rw [if_neg (by norm_num)]
  have e : (-(-1 : ℤ)).toNat = 1 := rfl
  rw [e]
  unfold chain_value
  norm_num

/-- The steady rotation of knob 0 over `n` periods and back, when the way
forward takes one increase more than the top allows. -/
theorem steady_rotation_and_back (dc : Nat) (mem : KnobTable) (n : Nat)
    (hn : 2 * n = COUNTER_TOP + 1) :
    (knob_task dc mem (knob0_levels true true)
        (quadrature_cycles n
          ++ (knob0_levels true true :: quadrature_cycles n).reverse)).2.counter
      = -(5 / 2) := by
  obtain ⟨b1, b2, b3, b4⟩ := quadrature_cycles_walk n
  have hidle : ∀ i, i < CONFIG_KNOB_NUMBER → i ≠ 0 →
      clock_idle i (knob0_levels true true)
        (quadrature_cycles n ++ (knob0_levels true true :: quadrature_cycles n).reverse) := by
    intro i hi hne
    have : i = 1 := by
      unfold CONFIG_KNOB_NUMBER at hi
      omega
    subst this
    exact clock_idle_reverse 1 _ _ b4
  rw [knob_task_counter_single dc mem _ _ 0 (by decide) hidle, walk_edges_append,
    walk_edges_reverse 0 _ _ b2, b1, hn, ← counter_at_zero, replay_overshoot,
    counter_at_neg_one]

/-- The accumulator after `n` periods of the steady rotation of knob 0. -/
theorem steady_rotation_cycles (dc : Nat) (mem : KnobTable) (n : Nat) :
    (knob_task dc mem (knob0_levels true true) (quadrature_cycles n)).2.counter
      = Nat.iterate counter_add_step (2 * n) 0 := by
  have hs0 : Synced (update_array (knob0_levels true true) (knob_set_pins pin_arr mem),
      ({ counter := INIT_VOLUME, out := [] } : TaskState)).1 (knob0_levels true true) :=
    synced_primed mem _
  unfold knob_task
  rw [(quadrature_cycles_run dc n _ hs0).2.1]
  rfl

/-! ## Claims -/

/-- C1 (as amended). Rotation decoding in the body of the inner loop of
`knob_task` for knob `j`, for every content of its registers and every state:
when `has_changed(clk)` is false the counter and the output are left as the
button block left them; when it is true and bit 1 of `dt` differs from bit 0
of `clk`, exactly the increase block runs (one `counter += CONFIG_KNOB_STEP`,
one `volume ↑` line for knob `j`); when it is true and the two bits are equal,
exactly the decrease block runs (one `counter -= CONFIG_KNOB_STEP`, one
`volume ↓` line for knob `j`).  Bit 0 of `dt` plays no part, so the same holds
when `dt` changed on that tick.  The two assignments are `float` operations:
when `counter` is a multiple `n * CONFIG_KNOB_STEP` with `|n| ≤ 3355444`, the
increase adds exactly `CONFIG_KNOB_STEP` if `n < 3355444` and the decrease
subtracts exactly `CONFIG_KNOB_STEP` if `-3355444 < n`. -/
theorem rotation_decoding (double_click j : Nat) (k : knob) (s : TaskState) :
    (has_changed k.clk = false →
      (decode_knob double_click j k s).counter = s.counter ∧
      (decode_knob double_click j k s).out = (decode_button double_click k s).out) ∧
    (has_changed k.clk = true → k.dt.testBit 1 ≠ k.clk.testBit 0 →
      (decode_knob double_click j k s).counter = counter_add_step s.counter ∧
      (decode_knob double_click j k s).out
        = (decode_button double_click k s).out
            ++ [Event.volume_up j (counter_add_step s.counter)]) ∧
    (has_changed k.clk = true → k.dt.testBit 1 = k.clk.testBit 0 →
      (decode_knob double_click j k s).counter = counter_sub_step s.counter ∧
      (decode_knob double_click j k s).out
        = (decode_button double_click k s).out
            ++ [Event.volume_down j (counter_sub_step s.counter)]) ∧
    (∀ n : ℤ, |n| ≤ 3355444 → s.counter = (n : ℚ) * CONFIG_KNOB_STEP →
      (n < 3355444 → counter_add_step s.counter = s.counter + CONFIG_KNOB_STEP) ∧
      (-3355444 < n → counter_sub_step s.counter = s.counter - CONFIG_KNOB_STEP)) := by
  refine ⟨fun h => ?_, fun h hd => ?_, fun h hd => ?_, fun n hn hs => ?_⟩
  · unfold decode_knob
    rw [decode_rotation_unchanged _ _ _ h]
    exact ⟨decode_button_counter _ _ _, rfl⟩
  · have hc : cmp_n_m k.dt k.clk 1 0 = false := by
      rw [cmp_n_m_eq]
      revert hd
      cases k.dt.testBit 1 <;> cases k.clk.testBit 0 <;> simp
    unfold decode_knob
    rw [decode_rotation_increase _ _ _ h hc, decode_button_counter]
    exact ⟨rfl, rfl⟩
  · have hc : cmp_n_m k.dt k.clk 1 0 = true := by
      rw [cmp_n_m_eq, hd]
      simp
    unfold decode_knob
    rw [decode_rotation_decrease _ _ _ h hc, decode_button_counter]
    exact ⟨rfl, rfl⟩
  · have hb := abs_le.mp hn
    rw [hs]
    unfold CONFIG_KNOB_STEP
    constructor
    · intro hlt
      have ha : |n + 1| ≤ 3355444 := by
        rw [abs_le]
        constructor <;> omega
      rw [counter_add_step_exact n ha]
      push_cast
      ring
    · intro hgt
      have hm : |n - 1| ≤ 3355444 := by
        rw [abs_le]
        constructor <;> omega
      rw [counter_sub_step_exact n hm]
      push_cast
      ring

/-- Witness for C1 (as amended), one register content per case: `clk = ..11` (no change);
`clk = ..10`, `dt = ..11` (changed, bit 1 of `dt` is 1, bit 0 of `clk` is 0:
increase, here with `dt` unchanged); `clk = ..01`, `dt = ..10` (changed, both
bits 1: decrease, here with `dt` changed on the same tick). -/
theorem rotation_decoding_witness :
    (has_changed 3 = false ∧
      (decode_knob 0 1 ⟨0, 3, 3, 35, 32, 33⟩ ⟨0, []⟩).counter = 0) ∧
    (has_changed 2 = true ∧ Nat.testBit 3 1 ≠ Nat.testBit 2 0 ∧
      (decode_knob 0 1 ⟨0, 3, 2, 35, 32, 33⟩ ⟨0, []⟩).out
        = (decode_button 0 ⟨0, 3, 2, 35, 32, 33⟩ ⟨0, []⟩).out
            ++ [Event.volume_up 1 (counter_add_step 0)]) ∧
    (has_changed 1 = true ∧ Nat.testBit 2 1 = Nat.testBit 1 0 ∧
      (decode_knob 0 0 ⟨0, 2, 1, 36, 34, 39⟩ ⟨0, []⟩).out
        = (decode_button 0 ⟨0, 2, 1, 36, 34, 39⟩ ⟨0, []⟩).out
            ++ [Event.volume_down 0 (counter_sub_step 0)]) :=
  ⟨⟨by decide,
      ((rotation_decoding 0 1 ⟨0, 3, 3, 35, 32, 33⟩ ⟨0, []⟩).1 (by decide)).1⟩,
    ⟨by decide, by decide,
      ((rotation_decoding 0 1 ⟨0, 3, 2, 35, 32, 33⟩ ⟨0, []⟩).2.1 (by decide) (by decide)).2⟩,
    ⟨by decide, by decide,
      ((rotation_decoding 0 0 ⟨0, 2, 1, 36, 34, 39⟩ ⟨0, []⟩).2.2.1 (by decide)
        (by decide)).2⟩⟩

/-- Counterexample to C1 as stated: after 1677722 periods of the steady
rotation of knob 0 `counter` holds 8388610.  At the next clock edge (`clk = ..10`,
`dt = ..11`: bit 1 of `dt` differs from bit 0 of `clk`) the increase branch is
taken and `counter` becomes 8388612: it is increased by 2, not by
`CONFIG_KNOB_STEP`, because `8388610 + 2.5` is rounded to a `float`. -/
theorem rotation_decoding_counterexample :
    (knob_task 0 (fun _ => ⟨0, 0, 0, 0, 0, 0⟩) (knob0_levels true true)
        (quadrature_cycles 1677722)).2.counter = 8388610 ∧
    has_changed 2 = true ∧ Nat.testBit 3 1 ≠ Nat.testBit 2 0 ∧
    (decode_knob 0 0 ⟨0, 3, 2, 36, 34, 39⟩ { counter := 8388610, out := [] }).counter
      = 8388612 ∧
    (decode_knob 0 0 ⟨0, 3, 2, 36, 34, 39⟩ { counter := 8388610, out := [] }).counter
      ≠ 8388610 + CONFIG_KNOB_STEP := by
  have hreach : (knob_task 0 (fun _ => ⟨0, 0, 0, 0, 0, 0⟩) (knob0_levels true true)
      (quadrature_cycles 1677722)).2.counter = 8388610 := by
    rw [steady_rotation_cycles 0 (fun _ => ⟨0, 0, 0, 0, 0, 0⟩) 1677722,
      show 2 * 1677722 = 3355444 from rfl, iterate_add_step_exact 3355444 (le_refl _)]
    norm_num
  have hdec : (decode_knob 0 0 ⟨0, 3, 2, 36, 34, 39⟩
      { counter := 8388610, out := [] }).counter = 8388612 := by
    rw [decode_knob_counter]
    have h1 : has_changed (⟨0, 3, 2, 36, 34, 39⟩ : knob).clk = true := by decide
    have h2 : cmp_n_m (⟨0, 3, 2, 36, 34, 39⟩ : knob).dt (⟨0, 3, 2, 36, 34, 39⟩ : knob).clk 1 0
        = false := by decide
    rw [h1, h2, if_pos rfl, if_neg (by decide)]
    exact counter_add_step_8388610
  refine ⟨hreach, by decide, by decide, hdec, ?_⟩
  rw [hdec]
  unfold CONFIG_KNOB_STEP
  norm_num

/-- C2 (as amended). Scripted quadrature pattern: when the clock line of knob
`j` reads 1, 0, 0, 1 and its data line 1, 1, 0, 0 at the priming read and the
three following loop iterations, the loop prints exactly two rotation lines for
knob `j`, one per clock edge, both `volume ↑`; when the data line reads
0, 0, 1, 1 instead, it prints exactly two, both `volume ↓`.  If moreover the
clock line of the other knob keeps its level, `counter` ends at
`INIT_VOLUME + 2 * CONFIG_KNOB_STEP`, respectively
`INIT_VOLUME - 2 * CONFIG_KNOB_STEP`. -/
theorem quadrature_pattern (double_click : Nat) (mem : KnobTable) (j : Nat)
    (hj : j < CONFIG_KNOB_NUMBER) (g0 g1 g2 g3 : Gpio)
    (hclk : g0 (pin_arr j 2) = true ∧ g1 (pin_arr j 2) = false ∧
      g2 (pin_arr j 2) = false ∧ g3 (pin_arr j 2) = true) :
    ((g0 (pin_arr j 1) = true ∧ g1 (pin_arr j 1) = true ∧
        g2 (pin_arr j 1) = false ∧ g3 (pin_arr j 1) = false) →
      directions j (knob_task double_click mem g0 [g1, g2, g3]).2.out = [true, true] ∧
      ((∀ i, i < CONFIG_KNOB_NUMBER → i ≠ j →
          g1 (pin_arr i 2) = g0 (pin_arr i 2) ∧ g2 (pin_arr i 2) = g0 (pin_arr i 2) ∧
          g3 (pin_arr i 2) = g0 (pin_arr i 2)) →
        (knob_task double_click mem g0 [g1, g2, g3]).2.counter
          = INIT_VOLUME + 2 * CONFIG_KNOB_STEP)) ∧
    ((g0 (pin_arr j 1) = false ∧ g1 (pin_arr j 1) = false ∧
        g2 (pin_arr j 1) = true ∧ g3 (pin_arr j 1) = true) →
      directions j (knob_task double_click mem g0 [g1, g2, g3]).2.out = [false, false] ∧
      ((∀ i, i < CONFIG_KNOB_NUMBER → i ≠ j →
          g1 (pin_arr i 2) = g0 (pin_arr i 2) ∧ g2 (pin_arr i 2) = g0 (pin_arr i 2) ∧
          g3 (pin_arr i 2) = g0 (pin_arr i 2)) →
        (knob_task double_click mem g0 [g1, g2, g3]).2.counter
          = INIT_VOLUME - 2 * CONFIG_KNOB_STEP)) := by
  obtain ⟨hc, -, hd⟩ := knob_task_three double_click mem g0 g1 g2 g3
  obtain ⟨c0, c1, c2, c3⟩ := hclk
  have hj' : j = 0 ∨ j = 1 := by
    unfold CONFIG_KNOB_NUMBER at hj
    omega
  constructor
  · rintro ⟨d0, d1, d2, -⟩
    refine ⟨?_, fun ho => ?_⟩
    · rw [hd j hj, c0, c1, c2, c3, d0, d1, d2]
      rfl
    · rw [hc]
      rcases hj' with rfl | rfl
      · obtain ⟨o1, o2, o3⟩ := ho 1 (by decide) (by decide)
        simp only [next_counter, c0, c1, c2, c3, d0, d1, d2, o1, o2, o3]
        simp only [INIT_VOLUME, CONFIG_KNOB_STEP, bne_self_eq_false, Bool.false_eq_true, Bool.true_eq_false,
          if_false, if_true, Bool.true_bne, Bool.false_bne, Bool.not_false, Bool.not_true,
          beq_iff_eq]
        rw [counter_add_step_zero, counter_add_step_once]
        norm_num
      · obtain ⟨o1, o2, o3⟩ := ho 0 (by decide) (by decide)
        simp only [next_counter, c0, c1, c2, c3, d0, d1, d2, o1, o2, o3]
        simp only [INIT_VOLUME, CONFIG_KNOB_STEP, bne_self_eq_false, Bool.false_eq_true, Bool.true_eq_false,
          if_false, if_true, Bool.true_bne, Bool.false_bne, Bool.not_false, Bool.not_true,
          beq_iff_eq]
        rw [counter_add_step_zero, counter_add_step_once]
        norm_num
  · rintro ⟨d0, d1, d2, -⟩
    refine ⟨?_, fun ho => ?_⟩
    · rw [hd j hj, c0, c1, c2, c3, d0, d1, d2]
      rfl
    · rw [hc]
      rcases hj' with rfl | rfl
      · obtain ⟨o1, o2, o3⟩ := ho 1 (by decide) (by decide)
        simp only [next_counter, c0, c1, c2, c3, d0, d1, d2, o1, o2, o3]
        simp only [INIT_VOLUME, CONFIG_KNOB_STEP, bne_self_eq_false, Bool.false_eq_true, Bool.true_eq_false,
          if_false, if_true, Bool.true_bne, Bool.false_bne, Bool.not_false, Bool.not_true,
          beq_self_eq_true]
        rw [counter_sub_step_zero, counter_sub_step_once]
        norm_num
      · obtain ⟨o1, o2, o3⟩ := ho 0 (by decide) (by decide)
        simp only [next_counter, c0, c1, c2, c3, d0, d1, d2, o1, o2, o3]
        simp only [INIT_VOLUME, CONFIG_KNOB_STEP, bne_self_eq_false, Bool.false_eq_true, Bool.true_eq_false,
          if_false, if_true, Bool.true_bne, Bool.false_bne, Bool.not_false, Bool.not_true,
          beq_self_eq_true]
        rw [counter_sub_step_zero, counter_sub_step_once]
        norm_num

/-- Witness for C2 (as amended): knob 0 (data on pin 34, clock on pin 39),
every other line low. -/
theorem quadrature_pattern_witness :
    directions 0 (knob_task 0 (fun _ => ⟨0, 0, 0, 0, 0, 0⟩)
      (fun pin => decide (pin = 39 ∨ pin = 34))
      [fun pin => decide (pin = 34), fun _ => false, fun pin => decide (pin = 39)]).2.out
      = [true, true] ∧
    (knob_task 0 (fun _ => ⟨0, 0, 0, 0, 0, 0⟩)
      (fun pin => decide (pin = 39 ∨ pin = 34))
      [fun pin => decide (pin = 34), fun _ => false, fun pin => decide (pin = 39)]).2.counter
      = INIT_VOLUME + 2 * CONFIG_KNOB_STEP :=
  ⟨((quadrature_pattern 0 (fun _ => ⟨0, 0, 0, 0, 0, 0⟩) 0 (by decide)
      (fun pin => decide (pin = 39 ∨ pin = 34)) (fun pin => decide (pin = 34))
      (fun _ => false) (fun pin => decide (pin = 39))
      ⟨by decide, by decide, by decide, by decide⟩).1
      ⟨by decide, by decide, by decide, by decide⟩).1,
    ((quadrature_pattern 0 (fun _ => ⟨0, 0, 0, 0, 0, 0⟩) 0 (by decide)
      (fun pin => decide (pin = 39 ∨ pin = 34)) (fun pin => decide (pin = 34))
      (fun _ => false) (fun pin => decide (pin = 39))
      ⟨by decide, by decide, by decide, by decide⟩).1
      ⟨by decide, by decide, by decide, by decide⟩).2
      (fun i hi hne => by
        have h1 : i = 1 := by
          unfold CONFIG_KNOB_NUMBER at hi
          omega
        subst h1
        exact ⟨by decide, by decide, by decide⟩)⟩

/-- Counterexample to C2 as stated: knob 0 fed clock 1, 0, 0, 1 (pin 39) and
data 1, 1, 0, 0 (pin 34), switch and the other knob constant, prints two
`volume ↑` lines, one at the falling and one at the rising clock edge, and
`counter` ends at 5, not at `INIT_VOLUME + CONFIG_KNOB_STEP`; the reversed
data sequence 0, 0, 1, 1 prints two `volume ↓` lines and ends at -5. -/
theorem quadrature_pattern_counterexample :
    ((knob_task 0 (fun _ => ⟨0, 0, 0, 0, 0, 0⟩)
        (fun pin => decide (pin = 39 ∨ pin = 34))
        [fun pin => decide (pin = 34), fun _ => false, fun pin => decide (pin = 39)]).2
      = { counter := 5, out := [Event.volume_up 0 (5 / 2), Event.volume_up 0 5] } ∧
      count_up [Event.volume_up 0 (5 / 2), Event.volume_up 0 5] = 2 ∧
      (5 : ℚ) ≠ INIT_VOLUME + CONFIG_KNOB_STEP) ∧
    ((knob_task 0 (fun _ => ⟨0, 0, 0, 0, 0, 0⟩)
        (fun pin => decide (pin = 39))
        [fun _ => false, fun pin => decide (pin = 34),
          fun pin => decide (pin = 39 ∨ pin = 34)]).2
      = { counter := -5, out := [Event.volume_down 0 (-(5 / 2)), Event.volume_down 0 (-5)] } ∧
      count_down [Event.volume_down 0 (-(5 / 2)), Event.volume_down 0 (-5)] = 2 ∧
      (-5 : ℚ) ≠ INIT_VOLUME - CONFIG_KNOB_STEP) := by
  refine ⟨⟨?_, rfl, by norm_num [INIT_VOLUME, CONFIG_KNOB_STEP]⟩,
    ⟨?_, rfl, by norm_num [INIT_VOLUME, CONFIG_KNOB_STEP]⟩⟩
  · obtain ⟨hc, ho, -⟩ := knob_task_three 0 (fun _ => ⟨0, 0, 0, 0, 0, 0⟩)
      (fun pin => decide (pin = 39 ∨ pin = 34)) (fun pin => decide (pin = 34))
      (fun _ => false) (fun pin => decide (pin = 39))
    have e : ∀ s : TaskState, s = { counter := s.counter, out := s.out } := fun s => rfl
    rw [e (knob_task _ _ _ _).2, hc, ho]
    simp [line_events, next_counter, pin_arr, INIT_VOLUME, counter_add_step_zero,
      counter_add_step_once]
  · obtain ⟨hc, ho, -⟩ := knob_task_three 0 (fun _ => ⟨0, 0, 0, 0, 0, 0⟩)
      (fun pin => decide (pin = 39)) (fun _ => false) (fun pin => decide (pin = 34))
      (fun pin => decide (pin = 39 ∨ pin = 34))
    have e : ∀ s : TaskState, s = { counter := s.counter, out := s.out } := fun s => rfl
    rw [e (knob_task _ _ _ _).2, hc, ho]
    simp [line_events, next_counter, pin_arr, INIT_VOLUME, counter_sub_step_zero,
      counter_sub_step_once]

/-- C3 (as amended). Accumulator arithmetic: after any run of iterations of
the loop of `knob_task`, `counter` is the value obtained from `INIT_VOLUME` by
performing, in the order in which the branches were taken (over all knobs),
one `float` addition `counter += CONFIG_KNOB_STEP` per increase branch and one
`float` subtraction `counter -= CONFIG_KNOB_STEP` per decrease branch; nothing
else (in particular no button line) changes it and no clamping is applied.
When at most 3355444 rotation branches were taken in total, with `K`
increases and `M` decreases, this value is
`INIT_VOLUME + (K - M) * CONFIG_KNOB_STEP` exactly. -/
theorem accumulator_arithmetic (double_click : Nat) (mem : KnobTable) (g0 : Gpio)
    (gs : List Gpio) :
    (knob_task double_click mem g0 gs).2.counter
      = replay (knob_task double_click mem g0 gs).2.out INIT_VOLUME ∧
    (count_up (knob_task double_click mem g0 gs).2.out
        + count_down (knob_task double_click mem g0 gs).2.out ≤ 3355444 →
      (knob_task double_click mem g0 gs).2.counter
        = INIT_VOLUME
          + ((count_up (knob_task double_click mem g0 gs).2.out : ℚ)
              - (count_down (knob_task double_click mem g0 gs).2.out : ℚ))
            * CONFIG_KNOB_STEP) := by
  have hr : (knob_task double_click mem g0 gs).2.counter
      = replay (knob_task double_click mem g0 gs).2.out INIT_VOLUME := by
    unfold knob_task
    exact run_replay double_click gs _ INIT_VOLUME rfl
  refine ⟨hr, fun hb => ?_⟩
  rw [hr]
  have h0 : INIT_VOLUME = ((0 : ℤ) : ℚ) * (5 / 2) := by
    unfold INIT_VOLUME
    norm_num
  rw [h0, replay_exact _ 0 (by simp only [abs_zero]; omega)]
  unfold CONFIG_KNOB_STEP
  push_cast
  ring

/-- Witness for C3 (as amended): one period of the steady rotation of knob 0
and one more clock edge: three increases, no decrease. -/
theorem accumulator_arithmetic_witness :
    count_up (knob_task 0 (fun _ => ⟨0, 0, 0, 0, 0, 0⟩) (knob0_levels true true)
        (quadrature_cycles 1 ++ [knob0_levels true false])).2.out
      + count_down (knob_task 0 (fun _ => ⟨0, 0, 0, 0, 0, 0⟩) (knob0_levels true true)
        (quadrature_cycles 1 ++ [knob0_levels true false])).2.out ≤ 3355444 ∧
    (knob_task 0 (fun _ => ⟨0, 0, 0, 0, 0, 0⟩) (knob0_levels true true)
        (quadrature_cycles 1 ++ [knob0_levels true false])).2.counter
      = INIT_VOLUME
        + ((count_up (knob_task 0 (fun _ => ⟨0, 0, 0, 0, 0, 0⟩) (knob0_levels true true)
              (quadrature_cycles 1 ++ [knob0_levels true false])).2.out : ℚ)
            - (count_down (knob_task 0 (fun _ => ⟨0, 0, 0, 0, 0, 0⟩) (knob0_levels true true)
              (quadrature_cycles 1 ++ [knob0_levels true false])).2.out : ℚ))
          * CONFIG_KNOB_STEP :=
  have hb : count_up (knob_task 0 (fun _ => ⟨0, 0, 0, 0, 0, 0⟩) (knob0_levels true true)
        (quadrature_cycles 1 ++ [knob0_levels true false])).2.out
      + count_down (knob_task 0 (fun _ => ⟨0, 0, 0, 0, 0, 0⟩) (knob0_levels true true)
        (quadrature_cycles 1 ++ [knob0_levels true false])).2.out ≤ 3355444 := by
    rw [(steady_rotation 0 (fun _ => ⟨0, 0, 0, 0, 0, 0⟩) 1).2.1,
      (steady_rotation 0 (fun _ => ⟨0, 0, 0, 0, 0, 0⟩) 1).2.2]
    norm_num
  ⟨hb, (accumulator_arithmetic 0 (fun _ => ⟨0, 0, 0, 0, 0, 0⟩) (knob0_levels true true)
    (quadrature_cycles 1 ++ [knob0_levels true false])).2 hb⟩

/-- Counterexample to C3 as stated: knob 0 turned steadily one way for
1677722 periods of its quadrature signal and one more clock edge takes the
increase branch `K = 3355445` times and the decrease branch never, and
`counter` holds 8388612, not `INIT_VOLUME + K * CONFIG_KNOB_STEP = 8388612.5`:
the last addition `8388610 + 2.5` is rounded to a `float`. -/
theorem accumulator_arithmetic_counterexample :
    count_up (knob_task 0 (fun _ => ⟨0, 0, 0, 0, 0, 0⟩) (knob0_levels true true)
        (quadrature_cycles 1677722 ++ [knob0_levels true false])).2.out = 3355445 ∧
    count_down (knob_task 0 (fun _ => ⟨0, 0, 0, 0, 0, 0⟩) (knob0_levels true true)
        (quadrature_cycles 1677722 ++ [knob0_levels true false])).2.out = 0 ∧
    (knob_task 0 (fun _ => ⟨0, 0, 0, 0, 0, 0⟩) (knob0_levels true true)
        (quadrature_cycles 1677722 ++ [knob0_levels true false])).2.counter = 8388612 ∧
    (knob_task 0 (fun _ => ⟨0, 0, 0, 0, 0, 0⟩) (knob0_levels true true)
        (quadrature_cycles 1677722 ++ [knob0_levels true false])).2.counter
      ≠ INIT_VOLUME + ((3355445 : ℚ) - 0) * CONFIG_KNOB_STEP := by
  obtain ⟨hc, hu, hd⟩ := steady_rotation 0 (fun _ => ⟨0, 0, 0, 0, 0, 0⟩) 1677722
  have hv : (knob_task 0 (fun _ => ⟨0, 0, 0, 0, 0, 0⟩) (knob0_levels true true)
      (quadrature_cycles 1677722 ++ [knob0_levels true false])).2.counter = 8388612 := by
    rw [hc, show 2 * 1677722 = 3355444 from rfl, iterate_add_step_exact 3355444 (le_refl _)]
    have e : ((3355444 : ℕ) : ℚ) * (5 / 2) = 8388610 := by norm_num
    rw [e, counter_add_step_8388610]
  refine ⟨hu, hd, hv, ?_⟩
  rw [hv]
  unfold INIT_VOLUME CONFIG_KNOB_STEP
  norm_num

/-- C4. Button decoding in the body of the inner loop of `knob_task`: for
every knob, every content of its `sw` register and either value of
`CONFIG_KNOB_DOUBLE_CLICK`, the body prints one `Button pressed` line when
`has_changed(sw)` is true and (bit 0 of `sw` is 1 or the macro is 1), and none
otherwise.  With the macro at 0 that is exactly a rising edge (bit 1 is 0,
bit 0 is 1); with the macro at 1 it is exactly when bits 1 and 0 differ. -/
theorem button_decoding (double_click j : Nat) (k : knob) (s : TaskState)
    (hdc : double_click ≤ 1) :
    (count_button (decode_knob double_click j k s).out
      = count_button s.out
          + (if has_changed k.sw = true ∧ (k.sw.testBit 0 = true ∨ double_click = 1)
              then 1 else 0)) ∧
    (double_click = 0 →
      (count_button (decode_knob double_click j k s).out = count_button s.out + 1
        ↔ (k.sw.testBit 1 = false ∧ k.sw.testBit 0 = true))) ∧
    (double_click = 1 →
      (count_button (decode_knob double_click j k s).out = count_button s.out + 1
        ↔ k.sw.testBit 1 ≠ k.sw.testBit 0)) := by
  have hrot : count_button (decode_knob double_click j k s).out
      = count_button (decode_button double_click k s).out := by
    unfold decode_knob decode_rotation decode_decrease decode_increase
    split
    · split <;> split <;> simp [count_button_append, count_button]
    · rfl
  have hmain : count_button (decode_knob double_click j k s).out
      = count_button s.out + (if button_cond double_click k then 1 else 0) := by
    rw [hrot, decode_button_out, count_button_append]
    split <;> simp [count_button]
  refine ⟨?_, fun h0 => ?_, fun h1 => ?_⟩
  · rw [hmain, button_cond_eq, has_changed_eq]
    have hd : (double_click ≠ 0) ↔ (double_click = 1) := by omega
    cases k.sw.testBit 1 <;> cases k.sw.testBit 0 <;> simp [hd]
  · rw [hmain, button_cond_eq, h0]
    cases k.sw.testBit 1 <;> cases k.sw.testBit 0 <;> simp
  · rw [hmain, button_cond_eq, h1]
    cases k.sw.testBit 1 <;> cases k.sw.testBit 0 <;> simp

/-- Witness for C4: `sw = ..01` (rising edge) in press-only mode, and
`sw = ..10` (falling edge) in both-edges mode. -/
theorem button_decoding_witness :
    ((0 : Nat) ≤ 1 ∧
      (count_button (decode_knob 0 0 ⟨1, 0, 0, 36, 34, 39⟩ ⟨0, []⟩).out
          = count_button ([] : List Event) + 1
        ↔ (Nat.testBit 1 1 = false ∧ Nat.testBit 1 0 = true))) ∧
    ((1 : Nat) ≤ 1 ∧
      (count_button (decode_knob 1 0 ⟨2, 0, 0, 36, 34, 39⟩ ⟨0, []⟩).out
          = count_button ([] : List Event) + 1
        ↔ Nat.testBit 2 1 ≠ Nat.testBit 2 0)) :=
  ⟨⟨by decide, (button_decoding 0 0 ⟨1, 0, 0, 36, 34, 39⟩ ⟨0, []⟩ (by decide)).2.1 rfl⟩,
    ⟨by decide, (button_decoding 1 0 ⟨2, 0, 0, 36, 34, 39⟩ ⟨0, []⟩ (by decide)).2.2 rfl⟩⟩

/-- C5. Press then release: when the switch line of knob `j` reads 0 at the
priming `update_array`, 1 at the first loop iteration and 0 at the second, and
every other line reads the same level at all three, the two iterations print
exactly one `Button pressed` line with `CONFIG_KNOB_DOUBLE_CLICK = 0` and
exactly two with `CONFIG_KNOB_DOUBLE_CLICK = 1`, for every content `mem` of the
freshly allocated table. -/
theorem press_then_release (mem : KnobTable) (j : Nat) (hj : j < CONFIG_KNOB_NUMBER)
    (g0 g1 g2 : Gpio)
    (h0 : g0 (pin_arr j 0) = false) (h1 : g1 (pin_arr j 0) = true)
    (h2 : g2 (pin_arr j 0) = false)
    (hconst : ∀ pin, pin ≠ pin_arr j 0 → g1 pin = g0 pin ∧ g2 pin = g0 pin) :
    count_button (knob_task 0 mem g0 [g1, g2]).2.out = 1 ∧
    count_button (knob_task 1 mem g0 [g1, g2]).2.out = 2 := by
  have key : ∀ dc : Nat,
      count_button (knob_task dc mem g0 [g1, g2]).2.out
        = 0
          + (if ((g0 (pin_arr 0 0) != g1 (pin_arr 0 0))
              && (g1 (pin_arr 0 0) || decide (dc ≠ 0))) then 1 else 0)
          + (if ((g0 (pin_arr 1 0) != g1 (pin_arr 1 0))
              && (g1 (pin_arr 1 0) || decide (dc ≠ 0))) then 1 else 0)
          + (if ((g1 (pin_arr 0 0) != g2 (pin_arr 0 0))
              && (g2 (pin_arr 0 0) || decide (dc ≠ 0))) then 1 else 0)
          + (if ((g1 (pin_arr 1 0) != g2 (pin_arr 1 0))
              && (g2 (pin_arr 1 0) || decide (dc ≠ 0))) then 1 else 0) := by
    intro dc
    have hs0 := synced_primed mem g0
    unfold knob_task
    rw [run_cons, run_cons, run_nil,
      tick_count_button dc _ g1 g2 (tick_synced dc _ g0 g1 hs0),
      tick_count_button dc _ g0 g1 hs0]
    rfl
  have hj' : j = 0 ∨ j = 1 := by
    unfold CONFIG_KNOB_NUMBER at hj
    omega
  rcases hj' with rfl | rfl
  · have e1 := hconst (pin_arr 1 0) (by decide)
    rw [key 0, key 1, h0, h1, h2, e1.1, e1.2]
    simp
  · have e0 := hconst (pin_arr 0 0) (by decide)
    rw [key 0, key 1, h0, h1, h2, e0.1, e0.2]
    simp

/-- Witness for C5: knob 0 (switch on pin 36), every other line low, the
table initially filled with `0xFFFFFFFF`. -/
theorem press_then_release_witness :
    count_button (knob_task 0 (fun _ => ⟨0xFFFFFFFF, 0xFFFFFFFF, 0xFFFFFFFF, 0, 0, 0⟩)
      (fun _ => false) [fun pin => decide (pin = 36), fun _ => false]).2.out = 1 ∧
    count_button (knob_task 1 (fun _ => ⟨0xFFFFFFFF, 0xFFFFFFFF, 0xFFFFFFFF, 0, 0, 0⟩)
      (fun _ => false) [fun pin => decide (pin = 36), fun _ => false]).2.out = 2 :=
  press_then_release (fun _ => ⟨0xFFFFFFFF, 0xFFFFFFFF, 0xFFFFFFFF, 0, 0, 0⟩) 0 (by decide)
    (fun _ => false) (fun pin => decide (pin = 36)) (fun _ => false) rfl (by decide) rfl
    (fun pin hp => ⟨by simpa [pin_arr] using hp, rfl⟩)

/-- C6. Quiescence: if every line of every knob reads, at each of the `N` loop
iterations, the level it had at the priming `update_array`, then for every `N`
and every content `mem` of the freshly allocated table nothing is printed (no
button line, no rotation line) and `counter` still holds `INIT_VOLUME`. -/
theorem quiescence (double_click : Nat) (mem : KnobTable) (g0 : Gpio) (gs : List Gpio)
    (hq : ∀ g ∈ gs, ∀ i, i < CONFIG_KNOB_NUMBER → ∀ c, c < 3 →
      g (pin_arr i c) = g0 (pin_arr i c)) :
    (knob_task double_click mem g0 gs).2 = { counter := INIT_VOLUME, out := [] } := by
  unfold knob_task
  rw [run_idle double_click g0 gs _ (synced_primed mem g0) hq]

/-- Witness for C6: three iterations with pins 36 and 33 held high and
everything else low, the table initially filled with `0x55555555`. -/
theorem quiescence_witness :
    (knob_task 0 (fun _ => ⟨0x55555555, 0x55555555, 0x55555555, 7, 7, 7⟩)
      (fun pin => decide (pin = 36 ∨ pin = 33))
      [fun pin => decide (pin = 36 ∨ pin = 33), fun pin => decide (pin = 36 ∨ pin = 33),
        fun pin => decide (pin = 36 ∨ pin = 33)]).2
      = { counter := INIT_VOLUME, out := [] } :=
  quiescence 0 (fun _ => ⟨0x55555555, 0x55555555, 0x55555555, 7, 7, 7⟩)
    (fun pin => decide (pin = 36 ∨ pin = 33))
    [fun pin => decide (pin = 36 ∨ pin = 33), fun pin => decide (pin = 36 ∨ pin = 33),
      fun pin => decide (pin = 36 ∨ pin = 33)]
    (fun g hg i _ c _ => by
      simp only [List.mem_cons, List.mem_singleton, List.not_mem_nil, or_false, or_self] at hg
      rw [hg])

/-- C7. History read-back: for every initial register value `r0` and every
non-empty list `s` of samples (each 0 or 1) shifted in one after the other by
the update rule of `update_array`, `read_current` is `read_n` at index 0 and
returns the last sample; with at least two samples `read_n` at index 1 returns
the one before it; and for every `k < min N 32`, `read_n` at index `k` returns
the sample fed `k` steps before the last one. -/
theorem history_read_back (r0 : Nat) (s : List Nat) (hne : s ≠ [])
    (hs : ∀ x ∈ s, x ≤ 1) :
    read_current (s.foldl shift_in r0) = read_n (s.foldl shift_in r0) 0 ∧
    read_n (s.foldl shift_in r0) 0 = decide (s.getD (s.length - 1) 0 = 1) ∧
    (2 ≤ s.length →
      read_n (s.foldl shift_in r0) 1 = decide (s.getD (s.length - 2) 0 = 1)) ∧
    (∀ k, k < min s.length 32 →
      read_n (s.foldl shift_in r0) k = decide (s.getD (s.length - 1 - k) 0 = 1)) := by
  have hpos : 0 < s.length := List.length_pos.mpr hne
  refine ⟨rfl, ?_, fun h2 => ?_, fun k hk => ?_⟩
  · rw [read_n_eq_testBit, foldl_shift_in_testBit s hs r0 0 hpos (by norm_num)]
    simp
  · rw [read_n_eq_testBit, foldl_shift_in_testBit s hs r0 1 (by omega) (by norm_num)]
    rfl
  · rw [read_n_eq_testBit,
      foldl_shift_in_testBit s hs r0 k (lt_of_lt_of_le hk (min_le_left _ _))
        (lt_of_lt_of_le hk (min_le_right _ _))]

/-- Witness for C7: the samples 1, 0, 1 shifted into a register holding
`0xDEADBEEF`. -/
theorem history_read_back_witness :
    read_n ([1, 0, 1].foldl shift_in 0xDEADBEEF) 0 = true ∧
    read_n ([1, 0, 1].foldl shift_in 0xDEADBEEF) 1 = false ∧
    read_n ([1, 0, 1].foldl shift_in 0xDEADBEEF) 2 = true :=
  ⟨(history_read_back 0xDEADBEEF [1, 0, 1] (by decide) (by decide)).2.1,
    (history_read_back 0xDEADBEEF [1, 0, 1] (by decide) (by decide)).2.2.1 (by decide),
    (history_read_back 0xDEADBEEF [1, 0, 1] (by decide) (by decide)).2.2.2 2 (by decide)⟩

/-- C8. Edge predicate: for every register `r` and samples `s1`, `s2` in
`{0, 1}`, `has_changed` of `r` after shifting in `s1` and then `s2` is true if
and only if `s1 ≠ s2`; for every `j`, `has_changed j` is true if and only if
bit 1 of `j` differs from bit 0 of `j`; and two registers with the same two
lowest bits give the same answer, whatever their bits 2..31. -/
theorem has_changed_iff (r s1 s2 : Nat) (h1 : s1 ≤ 1) (h2 : s2 ≤ 1) :
    (has_changed (shift_in (shift_in r s1) s2) = true ↔ s1 ≠ s2) ∧
    (∀ j : Nat, has_changed j = true ↔ j.testBit 1 ≠ j.testBit 0) ∧
    (∀ j j' : Nat, j % 4 = j' % 4 → has_changed j = has_changed j') := by
  have hbit : ∀ j : Nat, has_changed j = true ↔ j.testBit 1 ≠ j.testBit 0 := by
    intro j
    rw [has_changed_eq]
    cases j.testBit 1 <;> cases j.testBit 0 <;> simp
  refine ⟨?_, hbit, fun j j' h => ?_⟩
  · rw [hbit, shift_in_testBit_succ _ _ h2 0, shift_in_testBit_zero _ _ h2,
      shift_in_testBit_zero _ _ h1]
    interval_cases s1 <;> interval_cases s2 <;> simp
  · have h4 : j % 2 ^ 2 = j' % 2 ^ 2 := h
    have h0 : j.testBit 0 = j'.testBit 0 := by
      have := congrArg (fun x => Nat.testBit x 0) h4
      simp only [Nat.testBit_mod_two_pow] at this
      simpa using this
    have h1' : j.testBit 1 = j'.testBit 1 := by
      have := congrArg (fun x => Nat.testBit x 1) h4
      simp only [Nat.testBit_mod_two_pow] at this
      simpa using this
    rw [has_changed_eq, has_changed_eq, h0, h1']

/-- Witness for C8: shifting 1 and then 0 into `0xFFFFFFFF`. -/
theorem has_changed_iff_witness :
    (1 : Nat) ≤ 1 ∧ (0 : Nat) ≤ 1 ∧
    (has_changed (shift_in (shift_in 0xFFFFFFFF 1) 0) = true ↔ (1 : Nat) ≠ 0) :=
  ⟨by decide, by decide, (has_changed_iff 0xFFFFFFFF 1 0 (by decide) (by decide)).1⟩

/-- C9. No cross-knob interference.  (1) The lines printed by the loop body
for knob `j`, apart from the printed value of `counter`, are a function of
knob `j`'s own `sw`, `dt` and `clk` registers. (2) Every rotation line printed
by the body for knob `j` carries the index `j` and is printed only when the
clock register of knob `j` has changed. (3) In two runs of `knob_task` that
give knob `j` the same samples on its three lines at the priming read and at
every iteration, whatever the other lines read and whatever the fresh tables
held, the body for knob `j` prints the same lines in the last iteration, hence
(the runs being of any length) in every iteration; (4) and the rotation lines
printed for knob `j` over the whole run have the same directions in the same
order. -/
theorem no_cross_knob_interference (double_click j : Nat) (hj : j < CONFIG_KNOB_NUMBER)
    (mem mem' : KnobTable) (g0 g0' : Gpio) (gs gs' : List Gpio)
    (h0 : same_samples j g0 g0') (h : List.Forall₂ (same_samples j) gs gs') :
    (∀ (k k' : knob) (s s' : TaskState), k.sw = k'.sw → k.dt = k'.dt → k.clk = k'.clk →
      (body_events double_click j k s).map forget_counter
        = (body_events double_click j k' s').map forget_counter) ∧
    (∀ (k : knob) (s : TaskState) (e : Event), e ∈ body_events double_click j k s →
      e = Event.button_pressed ∨
      (has_changed k.clk = true ∧
        (e = Event.volume_up j (counter_add_step s.counter) ∨
          e = Event.volume_down j (counter_sub_step s.counter)))) ∧
    (gs ≠ [] → ∀ s s' : TaskState,
      (body_events double_click j ((knob_task double_click mem g0 gs).1 j) s).map
          forget_counter
        = (body_events double_click j ((knob_task double_click mem' g0' gs').1 j) s').map
          forget_counter) ∧
    directions j (knob_task double_click mem g0 gs).2.out
      = directions j (knob_task double_click mem' g0' gs').2.out := by
  refine ⟨fun k k' s s' h1 h2 h3 => ?_, body_events_mem double_click j, fun hne s s' => ?_, ?_⟩
  · rw [body_events_forget, body_events_forget, button_cond_eq, button_cond_eq, h1, h2, h3]
  · have hne' : gs' ≠ [] := by
      intro h'
      rw [h'] at h
      cases h
      exact hne rfl
    have hl := last_two_same_samples j gs gs' g0 g0' h0 h
    have c := run_last_conditions double_click gs hne
      (update_array g0 (knob_set_pins pin_arr mem), { counter := INIT_VOLUME, out := [] }) g0
      (synced_primed mem g0) j hj
    have c' := run_last_conditions double_click gs' hne'
      (update_array g0' (knob_set_pins pin_arr mem'), { counter := INIT_VOLUME, out := [] }) g0'
      (synced_primed mem' g0') j hj
    unfold knob_task
    rw [body_events_forget, body_events_forget, c.1, c.2.1, c.2.2, c'.1, c'.2.1, c'.2.2,
      hl.1 0 (by decide), hl.1 1 (by decide), hl.1 2 (by decide), hl.2 0 (by decide),
      hl.2 2 (by decide)]
  · unfold knob_task
    exact run_directions_congr double_click j hj gs gs' h _ _ g0 g0' (synced_primed mem g0)
      (synced_primed mem' g0') h0 rfl

/-- Witness for C9: knob 0 (pins 36, 34, 39) gets the same samples in two
two-iteration runs in which knob 1 (clock on pin 33) does different things and
the fresh tables differ. -/
theorem no_cross_knob_interference_witness :
    directions 0 (knob_task 0 (fun _ => ⟨0, 0, 0, 0, 0, 0⟩)
        (fun pin => decide (pin = 39 ∨ pin = 34))
        [fun pin => decide (pin = 34), fun _ => false]).2.out
      = directions 0 (knob_task 0 (fun _ => ⟨7, 7, 7, 7, 7, 7⟩)
        (fun pin => decide (pin = 39 ∨ pin = 34 ∨ pin = 33))
        [fun pin => decide (pin = 34), fun pin => decide (pin = 33)]).2.out :=
  (no_cross_knob_interference 0 0 (by decide)
    (fun _ => ⟨0, 0, 0, 0, 0, 0⟩) (fun _ => ⟨7, 7, 7, 7, 7, 7⟩)
    (fun pin => decide (pin = 39 ∨ pin = 34)) (fun pin => decide (pin = 39 ∨ pin = 34 ∨ pin = 33))
    [fun pin => decide (pin = 34), fun _ => false]
    [fun pin => decide (pin = 34), fun pin => decide (pin = 33)]
    (fun c hc => by interval_cases c <;> decide)
    (List.Forall₂.cons (fun c hc => by interval_cases c <;> decide)
      (List.Forall₂.cons (fun c hc => by interval_cases c <;> decide) List.Forall₂.nil))).2.2.2

/-- C10. Sampling step: one call of `update_array` replaces, for every knob
`i < CONFIG_KNOB_NUMBER` and each of its registers `dt`, `clk`, `sw`, the old
value `r` by `((r << 1) | level) mod 2 ^ 32`, `level` being the level (0 or 1)
read from that register's own pin.  So bit 0 of the new value is the new
sample, bit `k + 1` of the new value is bit `k` of the old one for every
`k < 31`, and the old bit 31 is dropped: the new value is below `2 ^ 32` and
does not depend on it. -/
theorem sampling_step (gpio : Gpio) (p : KnobTable) (i : Nat) (hi : i < CONFIG_KNOB_NUMBER) :
    ((update_array gpio p i).dt
        = (((p i).dt <<< 1) ||| (gpio (p i).pin_dt).toNat) % 2 ^ 32 ∧
      (update_array gpio p i).clk
        = (((p i).clk <<< 1) ||| (gpio (p i).pin_clk).toNat) % 2 ^ 32 ∧
      (update_array gpio p i).sw
        = (((p i).sw <<< 1) ||| (gpio (p i).pin_sw).toNat) % 2 ^ 32) ∧
    ((gpio (p i).pin_dt).toNat ≤ 1 ∧ (gpio (p i).pin_clk).toNat ≤ 1 ∧
      (gpio (p i).pin_sw).toNat ≤ 1) ∧
    ((update_array gpio p i).dt.testBit 0 = gpio (p i).pin_dt ∧
      (update_array gpio p i).clk.testBit 0 = gpio (p i).pin_clk ∧
      (update_array gpio p i).sw.testBit 0 = gpio (p i).pin_sw) ∧
    (∀ k, k < 31 →
      (update_array gpio p i).dt.testBit (k + 1) = (p i).dt.testBit k ∧
      (update_array gpio p i).clk.testBit (k + 1) = (p i).clk.testBit k ∧
      (update_array gpio p i).sw.testBit (k + 1) = (p i).sw.testBit k) ∧
    ((update_array gpio p i).dt < 2 ^ 32 ∧ (update_array gpio p i).clk < 2 ^ 32 ∧
      (update_array gpio p i).sw < 2 ^ 32) ∧
    ((update_array gpio p i).dt = shift_in ((p i).dt % 2 ^ 31) (gpio (p i).pin_dt).toNat ∧
      (update_array gpio p i).clk = shift_in ((p i).clk % 2 ^ 31) (gpio (p i).pin_clk).toNat ∧
      (update_array gpio p i).sw = shift_in ((p i).sw % 2 ^ 31) (gpio (p i).pin_sw).toNat) := by
  rw [update_array_apply, if_pos hi, update_knob_dt, update_knob_clk, update_knob_sw]
  refine ⟨⟨shift_in_eq _ _, shift_in_eq _ _, shift_in_eq _ _⟩,
    ⟨bool_toNat_le_one _, bool_toNat_le_one _, bool_toNat_le_one _⟩,
    ⟨shift_in_bool_testBit_zero _ _, shift_in_bool_testBit_zero _ _,
      shift_in_bool_testBit_zero _ _⟩,
    fun k hk => ?_,
    ⟨shift_in_lt _ _, shift_in_lt _ _, shift_in_lt _ _⟩,
    ⟨shift_in_mod_two_pow_31 _ _, shift_in_mod_two_pow_31 _ _, shift_in_mod_two_pow_31 _ _⟩⟩
  simp [shift_in_testBit_succ _ _ (bool_toNat_le_one _), hk]

/-- Witness for C10: knob 1 with `dt = 0xFFFFFFFF`, `clk = 0x80000001`,
`sw = 0` and pins 35, 32, 33, the `clk` line (pin 33) high and the others
low. -/
theorem sampling_step_witness :
    (1 : Nat) < CONFIG_KNOB_NUMBER ∧
    (update_array (fun pin => decide (pin = 33))
        (fun _ => ⟨0, 0xFFFFFFFF, 0x80000001, 35, 32, 33⟩) 1).dt = 0xFFFFFFFE ∧
    (update_array (fun pin => decide (pin = 33))
        (fun _ => ⟨0, 0xFFFFFFFF, 0x80000001, 35, 32, 33⟩) 1).clk = 3 ∧
    (update_array (fun pin => decide (pin = 33))
        (fun _ => ⟨0, 0xFFFFFFFF, 0x80000001, 35, 32, 33⟩) 1).sw = 0 :=
  ⟨by decide,
    (sampling_step (fun pin => decide (pin = 33))
      (fun _ => ⟨0, 0xFFFFFFFF, 0x80000001, 35, 32, 33⟩) 1 (by decide)).1⟩

/-- C11 (as amended). Configuration error: `knob_malloc n` with `n ≤ 0` prints
the error message and calls `exit(-1)`: no table is returned, whatever the
allocator, and `knob_task` started with such a number ends there, before
`knob_set_pins`, `update_array` and the loop.  With `n > 0` the fatal branch
is not taken and the value returned is the result of
`pvPortMalloc(n * sizeof(knob))`, the size being computed in the 32-bit
`size_t`: a request for `n` records of 24 bytes whenever `n < 178956971`, that
is whenever `n * 24` is below `2 ^ 32`. -/
theorem knob_malloc_configuration_error (pvPortMalloc : Nat → Option KnobTable) (n : Int) :
    (n ≤ 0 →
      knob_malloc pvPortMalloc n
        = Except.error
            { status := -1, printed := "number of knobs must be a strictly positive integer" } ∧
      (∀ (double_click : Nat) (gpio0 : Gpio) (gpios : List Gpio),
        knob_task_entry double_click pvPortMalloc n gpio0 gpios
          = TaskRun.exited
              { status := -1,
                printed := "number of knobs must be a strictly positive integer" })) ∧
    (0 < n →
      knob_malloc pvPortMalloc n = Except.ok (pvPortMalloc (alloc_size n)) ∧
      (n < 178956971 → alloc_size n = n.toNat * SIZEOF_KNOB)) := by
  constructor
  · intro h
    have hn : ¬ n > 0 := not_lt.mpr h
    refine ⟨?_, fun dc g0 gs => ?_⟩
    · unfold knob_malloc
      rw [if_neg hn]
    · unfold knob_task_entry knob_malloc
      rw [if_neg hn]
  · intro h
    refine ⟨?_, fun hlt => ?_⟩
    · unfold knob_malloc
      rw [if_pos h]
    · unfold alloc_size SIZEOF_KNOB UINT32_SIZE
      apply Nat.mod_eq_of_lt
      omega

/-- Witness for C11 (as amended): `knob_malloc(0)` and `knob_malloc(-3)` exit; `knob_malloc(2)`
returns what the allocator gives for 48 bytes. -/
theorem knob_malloc_configuration_error_witness :
    knob_malloc (fun _ => some (fun _ => ⟨0, 0, 0, 0, 0, 0⟩)) 0
      = Except.error
          { status := -1, printed := "number of knobs must be a strictly positive integer" } ∧
    knob_task_entry 0 (fun _ => some (fun _ => ⟨0, 0, 0, 0, 0, 0⟩)) (-3) (fun _ => false) []
      = TaskRun.exited
          { status := -1, printed := "number of knobs must be a strictly positive integer" } ∧
    knob_malloc (fun size => if size = 48 then none else some (fun _ => ⟨0, 0, 0, 0, 0, 0⟩)) 2
      = Except.ok none :=
  ⟨((knob_malloc_configuration_error (fun _ => some (fun _ => ⟨0, 0, 0, 0, 0, 0⟩)) 0).1
      (by decide)).1,
    ((knob_malloc_configuration_error (fun _ => some (fun _ => ⟨0, 0, 0, 0, 0, 0⟩)) (-3)).1
      (by decide)).2 0 (fun _ => false) [],
    ((knob_malloc_configuration_error
      (fun size => if size = 48 then none else some (fun _ => ⟨0, 0, 0, 0, 0, 0⟩)) 2).2
      (by decide)).1⟩

/-- Counterexample to C11 as stated: `knob_malloc(178956971)` does not ask for
178956971 knob records.  The product `178956971 * 24 = 4294967304` wraps around
in `size_t` and 8 bytes are requested, so an allocator that has 8 bytes to give
and nothing more makes the call succeed. -/
theorem knob_malloc_configuration_error_counterexample :
    (0 : Int) < 178956971 ∧
    alloc_size 178956971 = 8 ∧
    alloc_size 178956971 ≠ 178956971 * SIZEOF_KNOB ∧
    knob_malloc
        (fun size => if size ≤ 8 then some (fun _ => ⟨0, 0, 0, 0, 0, 0⟩) else none) 178956971
      = Except.ok (some (fun _ => ⟨0, 0, 0, 0, 0, 0⟩)) := by
  have hsize : alloc_size 178956971 = 8 := by decide
  refine ⟨by norm_num, hsize, ?_, ?_⟩
  · rw [hsize]
    unfold SIZEOF_KNOB
    norm_num
  · unfold knob_malloc
    rw [if_pos (by norm_num), hsize]
    rfl

/-- C12, evaluated on the code: when `pvPortMalloc` returns a null pointer for
the 48 bytes of the two knob records, `knob_malloc` returns that null pointer:
nothing is printed and `exit` is not called, and `knob_task` goes on to
`knob_set_pins` with the null table. -/
theorem knob_malloc_allocation_failure :
    knob_malloc (fun _ => none) CONFIG_KNOB_NUMBER = Except.ok none ∧
    (∀ (double_click : Nat) (gpio0 : Gpio) (gpios : List Gpio),
      knob_task_entry double_click (fun _ => none) CONFIG_KNOB_NUMBER gpio0 gpios
        = TaskRun.set_pins_on_null) ∧
    alloc_size CONFIG_KNOB_NUMBER = 48 :=
  ⟨rfl, fun _ _ _ => rfl, rfl⟩

/-- C13. Bit comparison primitive: for all `a`, `b` and bit indices `n`, `m`
(in particular 32-bit values and indices below 32), `cmp_n_m a b n m` is true
if and only if bit `n` of `a` equals bit `m` of `b`, that is
`cmp_n_m a b n m = (read_n a n == read_n b m)`; and `read_n a n` is true if and
only if bit `n` of `a` is 1. -/
theorem cmp_n_m_read_n (a b n m : Nat) :
    (cmp_n_m a b n m = true ↔ a.testBit n = b.testBit m) ∧
    cmp_n_m a b n m = (read_n a n == read_n b m) ∧
    (read_n a n = true ↔ a.testBit n = true) ∧
    (read_n a n = true ↔ a / 2 ^ n % 2 = 1) := by
  refine ⟨?_, ?_, ?_, ?_⟩
  · rw [cmp_n_m_eq]
    cases a.testBit n <;> cases b.testBit m <;> simp
  · rw [cmp_n_m_eq, read_n_eq_testBit, read_n_eq_testBit]
  · rw [read_n_eq_testBit]
  · rw [read_n_eq_testBit, Nat.testBit, Nat.shiftRight_eq_div_pow, Nat.one_and_eq_mod_two]
    rcases Nat.mod_two_eq_zero_or_one (a / 2 ^ n) with h | h <;> simp [h]

/-- C14. Only the two lowest bits matter: what the body of the inner loop does
for a knob (lines printed and new value of `counter`) is the same for two
records whose `sw`, `dt` and `clk` registers agree in their bits 0 and 1,
whatever their bits 2..31; so is the whole decode loop of a tick for two tables
that agree in this way on every knob.  Consequently what `knob_task` has
printed and the value of `counter` after any number of loop iterations do not
depend on the content of the freshly allocated table. -/
theorem two_lowest_bits (double_click : Nat) :
    (∀ (j : Nat) (k k' : knob) (s : TaskState),
      k.sw % 4 = k'.sw % 4 → k.dt % 4 = k'.dt % 4 → k.clk % 4 = k'.clk % 4 →
      decode_knob double_click j k s = decode_knob double_click j k' s) ∧
    (∀ (p p' : KnobTable) (s : TaskState),
      (∀ i, i < CONFIG_KNOB_NUMBER →
        (p i).sw % 4 = (p' i).sw % 4 ∧ (p i).dt % 4 = (p' i).dt % 4 ∧
        (p i).clk % 4 = (p' i).clk % 4) →
      decode_loop double_click p s = decode_loop double_click p' s) ∧
    (∀ (mem mem' : KnobTable) (g0 : Gpio) (gs : List Gpio),
      (knob_task double_click mem g0 gs).2 = (knob_task double_click mem' g0 gs).2) := by
  refine ⟨fun j k k' s => decode_knob_mod_four double_click j k k' s, fun p p' s h => ?_,
    fun mem mem' g0 gs => ?_⟩
  · obtain ⟨a0, b0, c0⟩ := h 0 (by decide)
    obtain ⟨a1, b1, c1⟩ := h 1 (by decide)
    rw [decode_loop_eq, decode_loop_eq,
      decode_knob_mod_four double_click 0 (p 0) (p' 0) s a0 b0 c0,
      decode_knob_mod_four double_click 1 (p 1) (p' 1) _ a1 b1 c1]
  · unfold knob_task
    exact run_congr double_click gs _ _ g0 (synced_primed mem g0) (synced_primed mem' g0) rfl

/-- Witness for C14: registers `0xFFFFFFFD` and `1` have the same two lowest
bits (`01`), and so have `0x80000002` and `2` (`10`). -/
theorem two_lowest_bits_witness :
    decode_knob 0 0 ⟨0xFFFFFFFD, 0xFFFFFFFD, 0x80000002, 36, 34, 39⟩ ⟨0, []⟩
      = decode_knob 0 0 ⟨1, 1, 2, 36, 34, 39⟩ ⟨0, []⟩ :=
  (two_lowest_bits 0).1 0 ⟨0xFFFFFFFD, 0xFFFFFFFD, 0x80000002, 36, 34, 39⟩
    ⟨1, 1, 2, 36, 34, 39⟩ ⟨0, []⟩ (by decide) (by decide) (by decide)

/-- C15. Pins are read-only after initialisation: `knob_set_pins` sets, for
every `i < CONFIG_KNOB_NUMBER`, `pin_sw`, `pin_dt` and `pin_clk` of knob `i` to
columns 0, 1 and 2 of row `i` of the pin table and leaves its `sw`, `dt` and
`clk` registers as they were; `update_array` leaves the three pins of every
knob unchanged; an iteration of the loop changes the table by its
`update_array` only (the decode loop does not write to it); and so after any
number of iterations of `knob_task` the pins are those of `pin_arr`. -/
theorem pins_read_only (double_click : Nat) (pin_array : Nat → Nat → Int) (p : KnobTable) :
    (∀ i, i < CONFIG_KNOB_NUMBER →
      ((knob_set_pins pin_array p i).pin_sw = pin_array i 0 ∧
        (knob_set_pins pin_array p i).pin_dt = pin_array i 1 ∧
        (knob_set_pins pin_array p i).pin_clk = pin_array i 2) ∧
      ((knob_set_pins pin_array p i).sw = (p i).sw ∧
        (knob_set_pins pin_array p i).dt = (p i).dt ∧
        (knob_set_pins pin_array p i).clk = (p i).clk)) ∧
    (∀ (gpio : Gpio) (i : Nat),
      (update_array gpio p i).pin_sw = (p i).pin_sw ∧
      (update_array gpio p i).pin_dt = (p i).pin_dt ∧
      (update_array gpio p i).pin_clk = (p i).pin_clk) ∧
    (∀ (s : TaskState) (gpio : Gpio),
      (tick double_click (p, s) gpio).1 = update_array gpio p) ∧
    (∀ (s : TaskState) (gpios : List Gpio) (i : Nat),
      ((run double_click (p, s) gpios).1 i).pin_sw = (p i).pin_sw ∧
      ((run double_click (p, s) gpios).1 i).pin_dt = (p i).pin_dt ∧
      ((run double_click (p, s) gpios).1 i).pin_clk = (p i).pin_clk) ∧
    (∀ (gpio0 : Gpio) (gpios : List Gpio) (i : Nat), i < CONFIG_KNOB_NUMBER →
      ((knob_task double_click p gpio0 gpios).1 i).pin_sw = pin_arr i 0 ∧
      ((knob_task double_click p gpio0 gpios).1 i).pin_dt = pin_arr i 1 ∧
      ((knob_task double_click p gpio0 gpios).1 i).pin_clk = pin_arr i 2) := by
  refine ⟨fun i hi => ?_, fun gpio i => update_array_pins gpio p i, fun s gpio => rfl,
    fun s gpios i => run_pins double_click gpios (p, s) i, fun g0 gs i hi => ?_⟩
  · rw [knob_set_pins_apply, if_pos hi]
    exact ⟨⟨rfl, rfl, rfl⟩, rfl, rfl, rfl⟩
  · unfold knob_task
    obtain ⟨a, b, c⟩ := run_pins double_click gs
      (update_array g0 (knob_set_pins pin_arr p), { counter := INIT_VOLUME, out := [] }) i
    obtain ⟨a', b', c'⟩ := primed_pins p g0 i hi
    exact ⟨a.trans a', b.trans b', c.trans c'⟩

/-- Witness for C15: knob 1 of a table filled with other values gets the pins
35, 32, 33 of the second row of `pin_arr` and keeps its registers. -/
theorem pins_read_only_witness :
    (knob_set_pins pin_arr (fun _ => ⟨5, 6, 7, 1, 2, 3⟩) 1).pin_sw = 35 ∧
    (knob_set_pins pin_arr (fun _ => ⟨5, 6, 7, 1, 2, 3⟩) 1).pin_dt = 32 ∧
    (knob_set_pins pin_arr (fun _ => ⟨5, 6, 7, 1, 2, 3⟩) 1).pin_clk = 33 ∧
    (knob_set_pins pin_arr (fun _ => ⟨5, 6, 7, 1, 2, 3⟩) 1).sw = 5 ∧
    (knob_set_pins pin_arr (fun _ => ⟨5, 6, 7, 1, 2, 3⟩) 1).dt = 6 ∧
    (knob_set_pins pin_arr (fun _ => ⟨5, 6, 7, 1, 2, 3⟩) 1).clk = 7 :=
  ⟨((pins_read_only 0 pin_arr (fun _ => ⟨5, 6, 7, 1, 2, 3⟩)).1 1 (by decide)).1.1,
    ((pins_read_only 0 pin_arr (fun _ => ⟨5, 6, 7, 1, 2, 3⟩)).1 1 (by decide)).1.2.1,
    ((pins_read_only 0 pin_arr (fun _ => ⟨5, 6, 7, 1, 2, 3⟩)).1 1 (by decide)).1.2.2,
    ((pins_read_only 0 pin_arr (fun _ => ⟨5, 6, 7, 1, 2, 3⟩)).1 1 (by decide)).2.1,
    ((pins_read_only 0 pin_arr (fun _ => ⟨5, 6, 7, 1, 2, 3⟩)).1 1 (by decide)).2.2.1,
    ((pins_read_only 0 pin_arr (fun _ => ⟨5, 6, 7, 1, 2, 3⟩)).1 1 (by decide)).2.2.2⟩

/-- C16. `get_ones` is a population count: it is defined by recursion on
`b / 2` (`get_ones 0 = 0`, and `get_ones b = b % 2 + get_ones (b / 2)` for
`b ≠ 0`), which ends because 64 halvings take every 64-bit `b` to 0; for every
64-bit `b` it returns the number of 1 bits of `b`, so `0 ≤ get_ones b ≤ 64`,
and `get_ones b = 0` if and only if `b = 0`. -/
theorem get_ones_popcount (b : Nat) (hb : b < 2 ^ 64) :
    get_ones 0 = 0 ∧
    (b ≠ 0 → get_ones b = ((b % 2 : Nat) : Int) + get_ones (b / 2)) ∧
    Nat.iterate (fun x => x / 2) 64 b = 0 ∧
    get_ones b = ((popcount64 b : Nat) : Int) ∧
    0 ≤ get_ones b ∧ get_ones b ≤ 64 ∧
    (get_ones b = 0 ↔ b = 0) := by
  have hp := get_ones_eq_popcount64 b hb
  have hle := popcount64_le b
  refine ⟨get_ones_zero, fun _ => ?_, ?_, hp, ?_, ?_, ?_⟩
  · have hb2 : b / 2 < 2 ^ 63 := by
      rw [Nat.div_lt_iff_lt_mul (by decide)]
      exact hb
    rw [get_ones_eq_countP 64 (le_refl _) b hb, get_ones_eq_countP 63 (by decide) (b / 2) hb2,
      countP_testBit_succ]
    push_cast
    rfl
  · rw [iterate_halve]
    exact Nat.div_eq_of_lt hb
  · rw [hp]
    exact Int.natCast_nonneg _
  · rw [hp]
    exact_mod_cast hle
  · rw [hp, Int.natCast_eq_zero]
    exact popcount64_eq_zero b hb

/-- Witness for C16: `b = 0xF0F0` has eight 1 bits. -/
theorem get_ones_popcount_witness :
    (0xF0F0 : Nat) < 2 ^ 64 ∧ get_ones 0xF0F0 = ((popcount64 0xF0F0 : Nat) : Int) ∧
    popcount64 0xF0F0 = 8 :=
  ⟨by decide, (get_ones_popcount 0xF0F0 (by decide)).2.2.2.1, by decide⟩

/-- C17 (as amended). Forward then back: let the samplings of `knob_task` be a
priming read `g0` and a walk `w` in which at most one of the clock and data
lines of knob `j` changes between consecutive samplings, followed by the same
samplings in reverse order.  On the way back the loop takes for knob `j` a
decrease for every increase taken on the way forward and an increase for every
decrease, in the opposite order; so over the whole walk knob `j` gets as many
increases as decreases.  If moreover the clock line of the other knob keeps
its level and the way forward takes at most 24326963 rotation branches,
`counter` is back at `INIT_VOLUME` at the end.  Without the hypothesis on the
walk this fails: when the clock and the data line both change at a sampling,
that edge and its way back decide the same direction. -/
theorem forward_then_back (double_click : Nat) (mem : KnobTable) (j : Nat)
    (hj : j < CONFIG_KNOB_NUMBER) (g0 : Gpio) (w : List Gpio) (hw : gray_walk j g0 w) :
    directions j (knob_task double_click mem g0 (w ++ (g0 :: w).reverse)).2.out
      = directions j (knob_task double_click mem g0 w).2.out
          ++ ((directions j (knob_task double_click mem g0 w).2.out).map not).reverse ∧
    (directions j (knob_task double_click mem g0 (w ++ (g0 :: w).reverse)).2.out).count true
      = (directions j
          (knob_task double_click mem g0 (w ++ (g0 :: w).reverse)).2.out).count false ∧
    ((∀ i, i < CONFIG_KNOB_NUMBER → i ≠ j → clock_idle i g0 w) →
      (directions j (knob_task double_click mem g0 w).2.out).length ≤ COUNTER_TOP →
      (knob_task double_click mem g0 (w ++ (g0 :: w).reverse)).2.counter = INIT_VOLUME) ∧
    (∀ g : Gpio, g0 (pin_arr j 2) ≠ g (pin_arr j 2) → g0 (pin_arr j 1) ≠ g (pin_arr j 1) →
      directions j (knob_task double_click mem g0 ([g] ++ (g0 :: [g]).reverse)).2.out
        = [g0 (pin_arr j 1) != g (pin_arr j 2), g0 (pin_arr j 1) != g (pin_arr j 2)]) := by
  have hwhole : walk_edges j g0 (w ++ (g0 :: w).reverse)
      = walk_edges j g0 w ++ ((walk_edges j g0 w).map not).reverse := by
    rw [walk_edges_append, walk_edges_reverse j g0 w hw]
  refine ⟨?_, ?_, fun hidle hlen => ?_, fun g hc hd => ?_⟩
  · rw [knob_task_directions _ _ _ _ j hj, knob_task_directions _ _ _ _ j hj, hwhole]
  · rw [knob_task_directions _ _ _ _ j hj, hwhole, List.count_append, List.count_append,
      List.count_reverse, List.count_reverse, (count_map_not _).1, (count_map_not _).2,
      Nat.add_comm]
  · rw [knob_task_directions _ _ _ _ j hj] at hlen
    rw [knob_task_counter_single double_click mem g0 _ j hj
        (fun i hi hne => clock_idle_reverse i g0 w (hidle i hi hne)),
      hwhole, ← counter_at_zero]
    apply replay_directions_cancel
    rw [abs_zero, zero_add]
    exact_mod_cast hlen
  · rw [knob_task_directions _ _ _ _ j hj]
    simp only [List.reverse_cons, List.reverse_nil, List.nil_append, List.singleton_append,
      List.cons_append, walk_edges, edge, List.append_nil]
    revert hc hd
    cases g0 (pin_arr j 2) <;> cases g (pin_arr j 2) <;> cases g0 (pin_arr j 1) <;>
      cases g (pin_arr j 1) <;> simp

/-- Witness for C17 (as amended): knob 0 taken through one period of its
quadrature signal and back, the other knob idle. -/
theorem forward_then_back_witness :
    directions 0 (knob_task 0 (fun _ => ⟨0, 0, 0, 0, 0, 0⟩) (knob0_levels true true)
        (quadrature_cycle ++ (knob0_levels true true :: quadrature_cycle).reverse)).2.out
      = directions 0 (knob_task 0 (fun _ => ⟨0, 0, 0, 0, 0, 0⟩) (knob0_levels true true)
          quadrature_cycle).2.out
        ++ ((directions 0 (knob_task 0 (fun _ => ⟨0, 0, 0, 0, 0, 0⟩) (knob0_levels true true)
          quadrature_cycle).2.out).map not).reverse ∧
    (knob_task 0 (fun _ => ⟨0, 0, 0, 0, 0, 0⟩) (knob0_levels true true)
        (quadrature_cycle ++ (knob0_levels true true :: quadrature_cycle).reverse)).2.counter
      = INIT_VOLUME :=
  have h := forward_then_back 0 (fun _ => ⟨0, 0, 0, 0, 0, 0⟩) 0 (by decide)
    (knob0_levels true true) quadrature_cycle quadrature_cycle_walk.2.1
  ⟨h.1, h.2.2.1
    (fun i hi hne => by
      have h1 : i = 1 := by
        unfold CONFIG_KNOB_NUMBER at hi
        omega
      subst h1
      exact quadrature_cycle_walk.2.2.2)
    (by
      rw [knob_task_directions 0 _ _ _ 0 (by decide), quadrature_cycle_walk.1]
      decide)⟩

/-- Counterexample to C17 as stated: knob 0 turned steadily one way for
12163482 periods of its quadrature signal (24326964 increases), then taken
back through the same samplings in reverse order (24326964 decreases), the
other knob idle.  The walk changes one line at a time, yet `counter` ends at
-2.5 and not at `INIT_VOLUME`: the last increase on the way forward is lost
because `counter` sticks at `2 ^ 26`. -/
theorem forward_then_back_counterexample :
    gray_walk 0 (knob0_levels true true) (quadrature_cycles 12163482) ∧
    (knob_task 0 (fun _ => ⟨0, 0, 0, 0, 0, 0⟩) (knob0_levels true true)
        (quadrature_cycles 12163482
          ++ (knob0_levels true true :: quadrature_cycles 12163482).reverse)).2.counter
      = -(5 / 2) ∧
    (knob_task 0 (fun _ => ⟨0, 0, 0, 0, 0, 0⟩) (knob0_levels true true)
        (quadrature_cycles 12163482
          ++ (knob0_levels true true :: quadrature_cycles 12163482).reverse)).2.counter
      ≠ INIT_VOLUME := by
  have hc := steady_rotation_and_back 0 (fun _ => ⟨0, 0, 0, 0, 0, 0⟩) 12163482 rfl
  refine ⟨(quadrature_cycles_walk 12163482).2.1, hc, ?_⟩
  rw [hc]
  unfold INIT_VOLUME
  norm_num

/-- C18. Equivalent direction rule: the rotation block of the loop body is the
rule stated on the state before the edge (`decode_rotation_previous`).  With
`has_changed(clk)` true, the increase branch is taken (bit 1 of `dt` differs
from bit 0 of `clk`) if and only if bit 1 of `dt` equals bit 1 of `clk`, and the
decrease branch if and only if they differ; and the outcome is the same for any
other `dt` register with the same bit 1, whatever its bit 0. -/
theorem direction_rule_previous (j : Nat) (k : knob) (s : TaskState) :
    decode_rotation j k s = decode_rotation_previous j k s ∧
    (has_changed k.clk = true →
      ((!cmp_n_m k.dt k.clk 1 0) = true ↔ k.dt.testBit 1 = k.clk.testBit 1) ∧
      (cmp_n_m k.dt k.clk 1 0 = true ↔ k.dt.testBit 1 ≠ k.clk.testBit 1)) ∧
    (∀ k' : knob, k'.clk = k.clk → k'.dt.testBit 1 = k.dt.testBit 1 →
      decode_rotation j k' s = decode_rotation j k s) := by
  refine ⟨?_, fun h => ?_, fun k' hc hd => ?_⟩
  · unfold decode_rotation_previous
    cases h : has_changed k.clk
    · rw [decode_rotation_unchanged _ _ _ h]
      simp
    · have hb := h
      rw [has_changed_eq] at hb
      cases hd : cmp_n_m k.dt k.clk 1 0
      · rw [decode_rotation_increase _ _ _ h hd]
        rw [cmp_n_m_eq] at hd
        rw [read_n_eq_testBit, read_n_eq_testBit]
        revert hb hd
        cases k.dt.testBit 1 <;> cases k.clk.testBit 1 <;> cases k.clk.testBit 0 <;> simp
      · rw [decode_rotation_decrease _ _ _ h hd]
        rw [cmp_n_m_eq] at hd
        rw [read_n_eq_testBit, read_n_eq_testBit]
        revert hb hd
        cases k.dt.testBit 1 <;> cases k.clk.testBit 1 <;> cases k.clk.testBit 0 <;> simp
  · rw [has_changed_eq] at h
    rw [cmp_n_m_eq]
    revert h
    cases k.dt.testBit 1 <;> cases k.clk.testBit 1 <;> cases k.clk.testBit 0 <;> simp
  · have e : cmp_n_m k'.dt k.clk 1 0 = cmp_n_m k.dt k.clk 1 0 := by
      rw [cmp_n_m_eq, cmp_n_m_eq, hd]
    unfold decode_rotation decode_decrease decode_increase
    rw [hc, e]

/-- Witness for C18: `clk = ..10` (changed), `dt = ..11`: bit 1 of `dt` equals
bit 1 of `clk`, and the increase branch is taken. -/
theorem direction_rule_previous_witness :
    has_changed 2 = true ∧
    ((!cmp_n_m 3 2 1 0) = true ↔ Nat.testBit 3 1 = Nat.testBit 2 1) ∧
    decode_rotation 0 ⟨0, 2, 2, 36, 34, 39⟩ ⟨0, []⟩
      = decode_rotation 0 ⟨0, 3, 2, 36, 34, 39⟩ ⟨0, []⟩ :=
  ⟨by decide,
    ((direction_rule_previous 0 ⟨0, 3, 2, 36, 34, 39⟩ ⟨0, []⟩).2.1 (by decide)).1,
    (direction_rule_previous 0 ⟨0, 3, 2, 36, 34, 39⟩ ⟨0, []⟩).2.2 ⟨0, 2, 2, 36, 34, 39⟩ rfl
      (by decide)⟩

/-- C19. Pin mask: for every pin table whose entries all lie in `0..63`, bit
`p` of `knob_get_mask` is 1 if and only if `p` is one of the
`3 * CONFIG_KNOB_NUMBER` entries of the table; when the entries are pairwise
distinct, `get_ones` of the mask is `3 * CONFIG_KNOB_NUMBER`; and for the
built-in table (pins 36, 34, 39, 35, 32, 33) it is 6. -/
theorem pin_mask (pin_array : Nat → Nat → Int)
    (h : ∀ i, i < CONFIG_KNOB_NUMBER → ∀ c, c < 3 → 0 ≤ pin_array i c ∧ pin_array i c ≤ 63) :
    (∀ p : Nat, (knob_get_mask pin_array).testBit p = true
      ↔ ∃ i, i < CONFIG_KNOB_NUMBER ∧ ∃ c, c < 3 ∧ pin_array i c = (p : Int)) ∧
    ((∀ i i' c c', i < CONFIG_KNOB_NUMBER → i' < CONFIG_KNOB_NUMBER → c < 3 → c' < 3 →
        pin_array i c = pin_array i' c' → i = i' ∧ c = c') →
      get_ones (knob_get_mask pin_array) = ((3 * CONFIG_KNOB_NUMBER : Nat) : Int)) ∧
    get_ones (knob_get_mask pin_arr) = 6 := by
  have key : ∀ pa : Nat → Nat → Int,
      (∀ i, i < CONFIG_KNOB_NUMBER → ∀ c, c < 3 → 0 ≤ pa i c ∧ pa i c ≤ 63) →
      (∀ i i' c c', i < CONFIG_KNOB_NUMBER → i' < CONFIG_KNOB_NUMBER → c < 3 → c' < 3 →
        pa i c = pa i' c' → i = i' ∧ c = c') →
      get_ones (knob_get_mask pa) = 6 := by
    intro pa hr hd
    have hne : ∀ i i' c c', i < CONFIG_KNOB_NUMBER → i' < CONFIG_KNOB_NUMBER → c < 3 →
        c' < 3 → ¬ (i = i' ∧ c = c') → (pa i c).toNat ≠ (pa i' c').toNat := by
      intro i i' c c' hi hi' hc hc' hn he
      have a := hr i hi c hc
      have b := hr i' hi' c' hc'
      exact hn (hd i i' c c' hi hi' hc hc' (by omega))
    have hnd : [(pa 0 0).toNat, (pa 0 1).toNat, (pa 0 2).toNat, (pa 1 0).toNat,
        (pa 1 1).toNat, (pa 1 2).toNat].Nodup := by
      simp only [List.nodup_cons, List.mem_cons, List.mem_singleton, List.not_mem_nil,
        or_false, not_or, List.nodup_nil, and_true, not_false_eq_true]
      refine ⟨⟨?_, ?_, ?_, ?_, ?_⟩, ⟨?_, ?_, ?_, ?_⟩, ⟨?_, ?_, ?_⟩, ⟨?_, ?_⟩, ?_⟩ <;>
        exact hne _ _ _ _ (by decide) (by decide) (by decide) (by decide) (by decide)
    have hlt : ∀ x ∈ [(pa 0 0).toNat, (pa 0 1).toNat, (pa 0 2).toNat, (pa 1 0).toNat,
        (pa 1 1).toNat, (pa 1 2).toNat], x < 64 := by
      intro x hx
      simp only [List.mem_cons, List.mem_singleton, List.not_mem_nil, or_false] at hx
      have h00 := hr 0 (by decide) 0 (by decide)
      have h01 := hr 0 (by decide) 1 (by decide)
      have h02 := hr 0 (by decide) 2 (by decide)
      have h10 := hr 1 (by decide) 0 (by decide)
      have h11 := hr 1 (by decide) 1 (by decide)
      have h12 := hr 1 (by decide) 2 (by decide)
      rcases hx with rfl | rfl | rfl | rfl | rfl | rfl <;> omega
    rw [get_ones_eq_popcount64 _ (knob_get_mask_lt pa)]
    unfold popcount64
    have hf : (fun i => (knob_get_mask pa).testBit i)
        = fun i => decide (i ∈ [(pa 0 0).toNat, (pa 0 1).toNat, (pa 0 2).toNat,
            (pa 1 0).toNat, (pa 1 1).toNat, (pa 1 2).toNat]) := by
      funext i
      exact knob_get_mask_testBit pa hr i
    rw [hf, countP_mem_range _ 64 hnd hlt]
    rfl
  refine ⟨fun p => ?_, fun hd => key pin_array h hd, ?_⟩
  · rw [knob_get_mask_testBit pin_array h p]
    simp only [decide_eq_true_eq, List.mem_cons, List.mem_singleton, List.not_mem_nil,
      or_false]
    have h00 := h 0 (by decide) 0 (by decide)
    have h01 := h 0 (by decide) 1 (by decide)
    have h02 := h 0 (by decide) 2 (by decide)
    have h10 := h 1 (by decide) 0 (by decide)
    have h11 := h 1 (by decide) 1 (by decide)
    have h12 := h 1 (by decide) 2 (by decide)
    constructor
    · rintro (e | e | e | e | e | e)
      · exact ⟨0, by decide, 0, by decide, by omega⟩
      · exact ⟨0, by decide, 1, by decide, by omega⟩
      · exact ⟨0, by decide, 2, by decide, by omega⟩
      · exact ⟨1, by decide, 0, by decide, by omega⟩
      · exact ⟨1, by decide, 1, by decide, by omega⟩
      · exact ⟨1, by decide, 2, by decide, by omega⟩
    · rintro ⟨i, hi, c, hc, e⟩
      have hi' : i = 0 ∨ i = 1 := by
        unfold CONFIG_KNOB_NUMBER at hi
        omega
      have hc' : c = 0 ∨ c = 1 ∨ c = 2 := by omega
      rcases hi' with rfl | rfl <;> rcases hc' with rfl | rfl | rfl <;> omega
  · exact key pin_arr pin_arr_range pin_arr_distinct

/-- Witness for C19: the built-in table; pin 39 (clock of knob 0) is in the
mask and the mask has six 1 bits. -/
theorem pin_mask_witness :
    ((knob_get_mask pin_arr).testBit 39 = true
      ↔ ∃ i, i < CONFIG_KNOB_NUMBER ∧ ∃ c, c < 3 ∧ pin_arr i c = ((39 : Nat) : Int)) ∧
    get_ones (knob_get_mask pin_arr) = ((3 * CONFIG_KNOB_NUMBER : Nat) : Int) :=
  ⟨(pin_mask pin_arr pin_arr_range).1 39, (pin_mask pin_arr pin_arr_range).2.1 pin_arr_distinct⟩

end Deej
